import Mathlib

/-!
# mister-mqtt: file-to-bus synchronisation pipeline

A shallow embedding of the Go program (`main.go`, `internal/mqtt/client.go`,
`internal/watcher/watcher.go`) together with the library functions it calls,
and the properties of the specification proved about it.

Modelling conventions.

* A Go `string` (and a `[]byte`) is a finite sequence of bytes: `GoString`.
  String constants of the source are written `lit "..."`, the UTF-8 bytes of
  the text.
* A Go `error` is represented by its message; `Option GoString` is an `error`
  value that may be `nil`. A Go `[]string` is `Option (List GoString)`, `none`
  being the nil slice.
* `fmt.Sprintf`/`fmt.Errorf` with only `%s`, `%v` and `%w` verbs is the
  concatenation of the format pieces and the arguments.
* Functions of the Go standard library (`strings.TrimSpace`, `filepath.Base`,
  `unicode/utf8`, `encoding/json`) are written out from their documented
  behaviour.
* The MQTT transport (paho) and the operating system (files, fsnotify) are
  environments: the calls of the code into them are explicit, and their answers
  are arbitrary. Effects are passed explicitly: the transport calls issued and
  the lines logged so far are part of the state.
* The watcher reaches the rest of the program only through its callback and the
  log, neither of which gives it anything back; the loops of `Start` and of
  `watch` are each embedded as the sequence of these actions.
* From the statement `go fw.watch()` on there are two goroutines. They run under
  a schedule, a list that names the goroutine taking each step, and every list
  is a possible run: `Running` follows the invocations of the callback, `Proc`
  the whole process, each step being one call into the operating system, the
  transport, the log or the standard output.
-/

namespace MisterMqtt

/-! ## Go strings and UTF-8 (packages `unicode/utf8`, `unicode`) -/

/-- One byte. -/
abbrev Byte := Fin 256

/-- A Go string: its bytes. -/
abbrev GoString := List Byte

/-- The constant `utf8.RuneError` (U+FFFD). -/
def RuneError : Nat := 0xFFFD

/-- Go `utf8.EncodeRune`: the UTF-8 bytes of rune `r`; a surrogate or a value
above U+10FFFF is encoded as `RuneError`. -/
def EncodeRune (r : Nat) : GoString :=
  if r < 0x80 then [Fin.ofNat r]
  else if r < 0x800 then [Fin.ofNat (0xC0 + r / 64), Fin.ofNat (0x80 + r % 64)]
  else if 0x10FFFF < r ∨ (0xD800 ≤ r ∧ r ≤ 0xDFFF) then [0xEF, 0xBF, 0xBD]
  else if r < 0x10000 then
    [Fin.ofNat (0xE0 + r / 4096), Fin.ofNat (0x80 + r / 64 % 64), Fin.ofNat (0x80 + r % 64)]
  else
    [Fin.ofNat (0xF0 + r / 262144), Fin.ofNat (0x80 + r / 4096 % 64),
     Fin.ofNat (0x80 + r / 64 % 64), Fin.ofNat (0x80 + r % 64)]

/-- The bytes of a text: what a Go string constant holds. -/
def utf8 (cs : List Char) : GoString := cs.flatMap (fun c => EncodeRune c.toNat)

/-- A Go string constant. -/
def lit (s : String) : GoString := utf8 s.data

/-- Go `utf8.DecodeRuneInString`: the first rune of `s` and its width in bytes.
An empty string gives `(RuneError, 0)`, an invalid or incomplete encoding gives
`(RuneError, 1)`. The table `first` and the accept ranges of the Go source are
written out as comparisons: a lead byte C2..DF takes one continuation byte,
E0..EF two (the first in A0..BF after E0 and in 80..9F after ED), F0..F4 three
(the first in 90..BF after F0 and in 80..8F after F4). -/
def DecodeRune : GoString → Nat × Nat
  | [] => (RuneError, 0)
  | s0 :: t =>
    if s0.val < 0x80 then (s0.val, 1)
    else if 0xC2 ≤ s0.val ∧ s0.val ≤ 0xDF then
      match t with
      | s1 :: _ =>
        if 0x80 ≤ s1.val ∧ s1.val ≤ 0xBF then (s0.val % 32 * 64 + s1.val % 64, 2)
        else (RuneError, 1)
      | [] => (RuneError, 1)
    else if 0xE0 ≤ s0.val ∧ s0.val ≤ 0xEF then
      match t with
      | s1 :: s2 :: _ =>
        if (if s0.val = 0xE0 then 0xA0 else 0x80) ≤ s1.val
            ∧ s1.val ≤ (if s0.val = 0xED then 0x9F else 0xBF)
            ∧ 0x80 ≤ s2.val ∧ s2.val ≤ 0xBF then
          (s0.val % 16 * 4096 + s1.val % 64 * 64 + s2.val % 64, 3)
        else (RuneError, 1)
      | _ => (RuneError, 1)
    else if 0xF0 ≤ s0.val ∧ s0.val ≤ 0xF4 then
      match t with
      | s1 :: s2 :: s3 :: _ =>
        if (if s0.val = 0xF0 then 0x90 else 0x80) ≤ s1.val
            ∧ s1.val ≤ (if s0.val = 0xF4 then 0x8F else 0xBF)
            ∧ 0x80 ≤ s2.val ∧ s2.val ≤ 0xBF ∧ 0x80 ≤ s3.val ∧ s3.val ≤ 0xBF then
          (s0.val % 8 * 262144 + s1.val % 64 * 4096 + s2.val % 64 * 64 + s3.val % 64, 4)
        else (RuneError, 1)
      | _ => (RuneError, 1)
    else (RuneError, 1)

/-- Go `utf8.RuneStart`: the byte is not a continuation byte. -/
def RuneStart (b : Byte) : Bool := decide (b.val / 64 ≠ 2)

/-- The backward scan of `utf8.DecodeLastRuneInString`: from `start`, step down
while `start ≥ lim` until a rune-start byte is found. -/
def lastRuneStart (s : GoString) (lim : Int) : Nat → Int → Int
  | 0, start => start
  | fuel + 1, start =>
    if start < lim then start
    else if RuneStart (s.getD start.toNat 0) then start
    else lastRuneStart s lim fuel (start - 1)

/-- Go `utf8.DecodeLastRuneInString`: the last rune of `s` and its width. -/
def DecodeLastRune (s : GoString) : Nat × Nat :=
  let stop : Int := s.length
  if s.length = 0 then (RuneError, 0)
  else
    let r := (s.getD (s.length - 1) 0).val
    if r < 0x80 then (r, 1)
    else
      let lim : Int := if stop - 4 < 0 then 0 else stop - 4
      let start0 := lastRuneStart s lim 4 (stop - 2)
      let start : Nat := if start0 < 0 then 0 else start0.toNat
      let (r, size) := DecodeRune (s.drop start)
      if start + size ≠ s.length then (RuneError, 1) else (r, size)

/-- Go `unicode.IsSpace`: the Unicode White_Space property. -/
def IsSpace (r : Nat) : Bool :=
  decide ((0x09 ≤ r ∧ r ≤ 0x0D) ∨ r = 0x20 ∨ r = 0x85 ∨ r = 0xA0 ∨ r = 0x1680
    ∨ (0x2000 ≤ r ∧ r ≤ 0x200A) ∨ r = 0x2028 ∨ r = 0x2029 ∨ r = 0x202F ∨ r = 0x205F
    ∨ r = 0x3000)

/-- Go `strings.TrimLeftFunc(s, unicode.IsSpace)`: drop leading runes while they
are white space (`fuel` bounds the number of runes). -/
def trimLeftSpace : Nat → GoString → GoString
  | 0, s => s
  | fuel + 1, s =>
    match DecodeRune s with
    | (_, 0) => s
    | (r, size) => if IsSpace r then trimLeftSpace fuel (s.drop size) else s

/-- Go `strings.TrimRightFunc(s, unicode.IsSpace)`: drop trailing runes while
they are white space. -/
def trimRightSpace : Nat → GoString → GoString
  | 0, s => s
  | fuel + 1, s =>
    match DecodeLastRune s with
    | (_, 0) => s
    | (r, size) => if IsSpace r then trimRightSpace fuel (s.take (s.length - size)) else s

/-- Go `strings.TrimSpace`: `s` without its leading and trailing white space,
as Unicode defines it (`TrimFunc(s, unicode.IsSpace)`, left then right). -/
def TrimSpace (s : GoString) : GoString :=
  let l := trimLeftSpace s.length s
  trimRightSpace l.length l

/-! ## Paths (package `path/filepath`, Unix) -/

/-- The byte `/`, `os.PathSeparator`. -/
def Separator : Byte := 0x2F

/-- Go `filepath.Base` on Unix: the last element of the path, after removing
trailing separators; `.` for the empty path and `/` for a path of separators
only. -/
def Base (path : GoString) : GoString :=
  if path = [] then lit "."
  else
    let stripped := List.rdropWhile (fun b => b = Separator) path
    let last := (List.takeWhile (fun b => b ≠ Separator) stripped.reverse).reverse
    if last = [] then [Separator] else last

/-! ## JSON encoding (package `encoding/json`, `Marshal`) -/

/-- The digit table `hex` of `encoding/json`. -/
def hexDigit (n : Nat) : Byte :=
  if n < 10 then Fin.ofNat (0x30 + n) else Fin.ofNat (0x61 + (n - 10))

/-- The table `htmlSafeSet`: the ASCII bytes written without escaping. -/
def htmlSafe (b : Byte) : Bool :=
  decide (0x20 ≤ b.val ∧ b.val < 0x80 ∧ b.val ≠ 0x22 ∧ b.val ≠ 0x5C ∧ b.val ≠ 0x3C
    ∧ b.val ≠ 0x3E ∧ b.val ≠ 0x26)

/-- How `appendString` writes one ASCII byte that is not in `htmlSafeSet` (Go
1.22 and later; earlier versions write the backspace and the form feed as
`\u0008` and `\u000c`, which are read back the same). -/
def escapeASCII (b : Byte) : GoString :=
  if b.val = 0x5C ∨ b.val = 0x22 then [0x5C, b]
  else if b.val = 0x08 then lit "\\b"
  else if b.val = 0x0C then lit "\\f"
  else if b.val = 0x0A then lit "\\n"
  else if b.val = 0x0D then lit "\\r"
  else if b.val = 0x09 then lit "\\t"
  else lit "\\u00" ++ [hexDigit (b.val / 16), hexDigit (b.val % 16)]

/-- The body of `appendString` with HTML escaping on, as `json.Marshal` uses it:
safe ASCII is copied, other ASCII is escaped, an invalid byte becomes the six
characters of the escape for U+FFFD, U+2028 and U+2029 are escaped, every other
rune is copied. -/
def escapeString : Nat → GoString → GoString
  | 0, _ => []
  | _ + 1, [] => []
  | fuel + 1, b :: rest =>
    if b.val < 0x80 then
      (if htmlSafe b then [b] else escapeASCII b) ++ escapeString fuel rest
    else
      let (c, size) := DecodeRune (b :: rest)
      if c = RuneError ∧ size = 1 then lit "\\ufffd" ++ escapeString fuel rest
      else if c = 0x2028 ∨ c = 0x2029 then
        lit "\\u202" ++ [hexDigit (c % 16)] ++ escapeString fuel ((b :: rest).drop size)
      else (b :: rest).take size ++ escapeString fuel ((b :: rest).drop size)

/-- The JSON encoding of a Go string: `appendString`. -/
def quote (s : GoString) : GoString :=
  lit "\"" ++ escapeString s.length s ++ lit "\""

/-- The JSON encoding of a `[]string`: `null` for the nil slice (`none`),
otherwise the elements between brackets. -/
def encodeStrings : Option (List GoString) → GoString
  | none => lit "null"
  | some xs => lit "[" ++ (lit ",").intercalate (xs.map quote) ++ lit "]"

/-- The struct `Device` of `client.go`; a nil slice is `none`. -/
structure Device where
  Identifiers : Option (List GoString)
  Name : GoString
  Model : GoString
  Manufacturer : GoString
  SWVersion : GoString
deriving DecidableEq, Repr

/-- The struct `HomeAssistantDiscovery` of `client.go`. -/
structure HomeAssistantDiscovery where
  Name : GoString
  StateTopic : GoString
  UniqueID : GoString
  Device : Device
  AvailabilityTopic : GoString
  PayloadAvailable : GoString
  PayloadNotAvailable : GoString
deriving DecidableEq, Repr

/-- The JSON object `json.Marshal` writes for a `Device`: the fields in
declaration order under their `json` tags. -/
def encodeDevice (d : Device) : GoString :=
  lit "\x7b" ++ quote (lit "identifiers") ++ lit ":" ++ encodeStrings d.Identifiers
    ++ lit "," ++ quote (lit "name") ++ lit ":" ++ quote d.Name
    ++ lit "," ++ quote (lit "model") ++ lit ":" ++ quote d.Model
    ++ lit "," ++ quote (lit "manufacturer") ++ lit ":" ++ quote d.Manufacturer
    ++ lit "," ++ quote (lit "sw_version") ++ lit ":" ++ quote d.SWVersion
    ++ lit "\x7d"

/-- The JSON object `json.Marshal` writes for a `HomeAssistantDiscovery`. -/
def encodeDiscovery (d : HomeAssistantDiscovery) : GoString :=
  lit "\x7b" ++ quote (lit "name") ++ lit ":" ++ quote d.Name
    ++ lit "," ++ quote (lit "state_topic") ++ lit ":" ++ quote d.StateTopic
    ++ lit "," ++ quote (lit "unique_id") ++ lit ":" ++ quote d.UniqueID
    ++ lit "," ++ quote (lit "device") ++ lit ":" ++ encodeDevice d.Device
    ++ lit "," ++ quote (lit "availability_topic") ++ lit ":" ++ quote d.AvailabilityTopic
    ++ lit "," ++ quote (lit "payload_available") ++ lit ":" ++ quote d.PayloadAvailable
    ++ lit "," ++ quote (lit "payload_not_available") ++ lit ":"
    ++ quote d.PayloadNotAvailable
    ++ lit "\x7d"

/-- Go `json.Marshal` at type `HomeAssistantDiscovery`. A struct of strings and
string slices has no unsupported value, so no error is returned. -/
def Marshal (d : HomeAssistantDiscovery) : Except GoString GoString :=
  .ok (encodeDiscovery d)

/-! ## The MQTT transport (paho) as an environment -/

/-- A call of the program into the transport client. -/
inductive BusOp where
  | connect
  | publish (topic : GoString) (qos : Nat) (retained : Bool) (payload : GoString)
  | disconnect (quiesce : Nat)
deriving DecidableEq, Repr

/-- A paho token once completed: the error it carries, if any. -/
structure Token where
  Error : Option GoString

/-- Paho `Token.Wait`: blocks until the operation has completed, then reports
`true`. -/
def Token.Wait (_ : Token) : Bool := true

/-- The transport: the token each call completes with, which may depend on
every call made before it. -/
abbrev Transport := List BusOp → BusOp → Token

/-- What the program has done so far: the transport calls it issued, in order,
and the lines it logged (package `log`). -/
structure Effects where
  ops : List BusOp
  log : List GoString
deriving DecidableEq, Repr

/-- Package `log`, `Printf`: one more line. -/
def Effects.logPrintf (line : GoString) (w : Effects) : Effects :=
  { w with log := w.log ++ [line] }

/-! ## `internal/mqtt/client.go` -/

/-- The struct `Client`. -/
structure Client where
  client : Transport
  topicPrefix : GoString
  nodeID : GoString

/-- A call `c.client.Connect()`: recorded, answered by the transport. -/
def Client.transportConnect (c : Client) (w : Effects) : Token × Effects :=
  (c.client w.ops .connect, { w with ops := w.ops ++ [.connect] })

/-- A call `c.client.Publish(topic, qos, retained, payload)`. -/
def Client.transportPublish (c : Client) (topic : GoString) (qos : Nat) (retained : Bool)
    (payload : GoString) (w : Effects) : Token × Effects :=
  (c.client w.ops (.publish topic qos retained payload),
    { w with ops := w.ops ++ [.publish topic qos retained payload] })

/-- A call `c.client.Disconnect(quiesce)`. -/
def Client.transportDisconnect (_ : Client) (quiesce : Nat) (w : Effects) : Effects :=
  { w with ops := w.ops ++ [.disconnect quiesce] }

/-- The format `"%s/sensor/%s/availability"` of `Connect`, `Disconnect` and
`PublishDiscovery`. -/
def availabilityTopic (c : Client) : GoString :=
  c.topicPrefix ++ lit "/sensor/" ++ c.nodeID ++ lit "/availability"

/-- `Client.Connect` (client.go:106-118). -/
def Client.Connect (c : Client) (w : Effects) : Option GoString × Effects :=
  let (token, w) := c.transportConnect w
  if token.Wait && token.Error.isSome then
    (some (lit "failed to connect to MQTT broker: " ++ token.Error.getD []), w)
  else
    let availTopic := availabilityTopic c
    let (token, w) := c.transportPublish availTopic 0 true (lit "online") w
    let w :=
      if token.Wait && token.Error.isSome then
        w.logPrintf (lit "Failed to publish availability: " ++ token.Error.getD [])
      else w
    (none, w)

/-- `Client.Disconnect` (client.go:121-129). -/
def Client.Disconnect (c : Client) (w : Effects) : Effects :=
  let availTopic := availabilityTopic c
  let (token, w) := c.transportPublish availTopic 0 true (lit "offline") w
  let w :=
    if token.Wait && token.Error.isSome then
      w.logPrintf (lit "Failed to publish offline status: " ++ token.Error.getD [])
    else w
  c.transportDisconnect 250 w

/-- An entry of the table `sensors` of `PublishDiscovery`. -/
structure Sensor where
  ID : GoString
  Name : GoString
deriving DecidableEq, Repr

/-- The table `sensors` of `PublishDiscovery` (client.go:133-140). -/
def sensors : List Sensor :=
  [⟨lit "corename", lit "MiSTer Core Name"⟩,
   ⟨lit "activegame", lit "MiSTer Active Game"⟩,
   ⟨lit "rbfname", lit "MiSTer RBF Name"⟩]

/-- The value `device` of `PublishDiscovery` (client.go:142-148). -/
def discoveryDevice (c : Client) : Device :=
  { Identifiers := some [c.nodeID]
    Name := lit "MiSTer FPGA"
    Model := lit "MiSTer"
    Manufacturer := lit "MiSTer Project"
    SWVersion := lit "1.0.0" }

/-- The record `discovery` built in the loop of `PublishDiscovery`
(client.go:151-159). -/
def discoveryRecord (c : Client) (device : Device) (sensor : Sensor) :
    HomeAssistantDiscovery :=
  { Name := device.Name ++ lit " " ++ sensor.Name
    StateTopic := c.topicPrefix ++ lit "/sensor/" ++ c.nodeID ++ lit "/" ++ sensor.ID
      ++ lit "/state"
    UniqueID := c.nodeID ++ lit "_" ++ sensor.ID
    Device := device
    AvailabilityTopic := c.topicPrefix ++ lit "/sensor/" ++ c.nodeID ++ lit "/availability"
    PayloadAvailable := lit "online"
    PayloadNotAvailable := lit "offline" }

/-- The loop `for _, sensor := range sensors` of `PublishDiscovery`
(client.go:150-174), over the sensors still to do. -/
def Client.publishDiscoveryLoop (c : Client) (device : Device) :
    List Sensor → Effects → Option GoString × Effects
  | [], w => (none, w)
  | sensor :: rest, w =>
    let discovery := discoveryRecord c device sensor
    match Marshal discovery with
    | .error err =>
      (some (lit "failed to marshal discovery message for " ++ sensor.ID ++ lit ": " ++ err), w)
    | .ok payload =>
      let topic := c.topicPrefix ++ lit "/sensor/" ++ c.nodeID ++ lit "/" ++ sensor.ID
        ++ lit "/config"
      let (token, w) := c.transportPublish topic 0 true payload w
      if token.Wait && token.Error.isSome then
        (some (lit "failed to publish discovery for " ++ sensor.ID ++ lit ": "
          ++ token.Error.getD []), w)
      else
        let w := w.logPrintf (lit "Published discovery for " ++ sensor.Name)
        c.publishDiscoveryLoop device rest w

/-- `Client.PublishDiscovery` (client.go:132-175). -/
def Client.PublishDiscovery (c : Client) (w : Effects) : Option GoString × Effects :=
  c.publishDiscoveryLoop (discoveryDevice c) sensors w

/-- `Client.PublishState` (client.go:178-187). -/
def Client.PublishState (c : Client) (sensorID state : GoString) (w : Effects) :
    Option GoString × Effects :=
  let topic := c.topicPrefix ++ lit "/sensor/" ++ c.nodeID ++ lit "/" ++ sensorID
    ++ lit "/state"
  let (token, w) := c.transportPublish topic 0 false state w
  if token.Wait && token.Error.isSome then
    (some (lit "failed to publish state for " ++ sensorID ++ lit ": " ++ token.Error.getD []), w)
  else
    (none, w.logPrintf (lit "Published state for " ++ sensorID ++ lit ": " ++ state))

/-! ## The operating system and fsnotify as an environment -/

/-- The operating-system calls of the program, over a state `ε` of the
environment; each call answers and may change the state. -/
structure OS (ε : Type) where
  /-- Go `os.ReadFile`: the content, or an error. -/
  ReadFile : GoString → ε → Except GoString GoString × ε
  /-- The test `_, err := os.Stat(file); os.IsNotExist(err)`. -/
  StatIsNotExist : GoString → ε → Bool × ε
  /-- Go `os.WriteFile(name, data, perm)`. -/
  WriteFile : GoString → GoString → Nat → ε → Option GoString × ε
  /-- Go `fsnotify.NewWatcher()`. -/
  NewWatcher : ε → Option GoString × ε
  /-- Go `(*fsnotify.Watcher).Add(name)`. -/
  WatcherAdd : GoString → ε → Option GoString × ε
  /-- Go `(*fsnotify.Watcher).Close()`. -/
  WatcherClose : ε → Option GoString × ε

/-- What the watcher does to the rest of the program: it invokes the callback
`fw.onChange(filename, content)` or logs a line. Neither gives it anything
back. -/
inductive Act where
  | onChange (filename content : GoString)
  | log (line : GoString)
deriving DecidableEq, Repr

/-- The callback invocation an action is, if it is one. -/
def Act.call : Act → Option (GoString × GoString)
  | .onChange filename content => some (filename, content)
  | .log _ => none

/-- The `onChange` invocations among a sequence of actions, in order. -/
def invocations (acts : List Act) : List (GoString × GoString) :=
  acts.filterMap Act.call

/-- An `fsnotify.Event`: the path and the operation bits. -/
structure Event where
  Name : GoString
  Op : Nat
deriving DecidableEq, Repr

/-- The constant `fsnotify.Create`. -/
def Create : Nat := 1

/-- The constant `fsnotify.Write`. -/
def Write : Nat := 2

/-- The constant `fsnotify.Remove`. -/
def Remove : Nat := 4

/-- The constant `fsnotify.Rename`. -/
def Rename : Nat := 8

/-- The constant `fsnotify.Chmod`. -/
def Chmod : Nat := 16

/-- Go `fsnotify.Event.Has` / `Op.Has`: the operation has the bits of `h`. -/
def Event.Has (e : Event) (h : Nat) : Bool := decide (e.Op &&& h = h)

/-- One receive of the `select` in `watch`: a value or the closure of one of the
two channels `Events` and `Errors`. -/
inductive Recv where
  | event (e : Event)
  | eventsClosed
  | error (err : GoString)
  | errorsClosed
deriving DecidableEq, Repr

/-! ## `internal/watcher/watcher.go` -/

/-- The constant `CoreNameFile`. -/
def CoreNameFile : GoString := lit "/tmp/CORENAME"

/-- The constant `ActiveGameFile`. -/
def ActiveGameFile : GoString := lit "/tmp/ACTIVEGAME"

/-- The constant `RBFNameFile`. -/
def RBFNameFile : GoString := lit "/tmp/RBFNAME"

/-- The struct `FileWatcher`. The fsnotify handle lives in the environment and
the callback is reached through `Act.onChange`; the path list remains. -/
structure FileWatcher where
  files : List GoString
deriving DecidableEq, Repr

/-- `NewFileWatcher` (watcher.go:26-39). -/
def NewFileWatcher {ε : Type} (os : OS ε) (e : ε) : Except GoString FileWatcher × ε :=
  match os.NewWatcher e with
  | (some err, e) => (.error (lit "failed to create watcher: " ++ err), e)
  | (none, e) => (.ok { files := [CoreNameFile, ActiveGameFile, RBFNameFile] }, e)

/-- `FileWatcher.readFile` (watcher.go:102-108). -/
def FileWatcher.readFile {ε : Type} (os : OS ε) (filename : GoString) (e : ε) :
    Except GoString GoString × ε :=
  match os.ReadFile filename e with
  | (.error err, e) => (.error err, e)
  | (.ok content, e) => (.ok content, e)

/-- `FileWatcher.createFile` (watcher.go:110-112). -/
def FileWatcher.createFile {ε : Type} (os : OS ε) (filename : GoString) (e : ε) :
    Option GoString × ε :=
  os.WriteFile filename [] 0o644 e

/-- The first loop of `Start` (watcher.go:44-56): create what is missing and
register every path. -/
def FileWatcher.addFiles {ε : Type} (os : OS ε) : List GoString → ε → List Act × ε
  | [], e => ([], e)
  | file :: rest, e =>
    let (notExist, e) := os.StatIsNotExist file e
    let (acts1, e) :=
      if notExist then
        match FileWatcher.createFile os file e with
        | (some err, e) =>
          ([Act.log (lit "Warning: could not create " ++ file ++ lit ": " ++ err)], e)
        | (none, e) => ([], e)
      else ([], e)
    let (acts2, e) :=
      match os.WatcherAdd file e with
      | (some err, e) =>
        ([Act.log (lit "Warning: could not watch " ++ file ++ lit ": " ++ err)], e)
      | (none, e) => ([], e)
    let (acts3, e) := FileWatcher.addFiles os rest e
    (acts1 ++ acts2 ++ acts3, e)

/-- The second loop of `Start` (watcher.go:62-66): read the initial values. -/
def FileWatcher.readInitial {ε : Type} (os : OS ε) : List GoString → ε → List Act × ε
  | [], e => ([], e)
  | file :: rest, e =>
    match FileWatcher.readFile os file e with
    | (.ok content, e) =>
      let (acts, e) := FileWatcher.readInitial os rest e
      (Act.onChange (Base file) content :: acts, e)
    | (.error _, e) => FileWatcher.readInitial os rest e

/-- `FileWatcher.Start` (watcher.go:42-69) on the calling goroutine: the error
returned, the actions in order and the environment afterwards. The statement
`go fw.watch()` starts the loop `FileWatcher.watch`, modelled on its own. -/
def FileWatcher.Start {ε : Type} (os : OS ε) (fw : FileWatcher) (e : ε) :
    Option GoString × List Act × ε :=
  let (acts1, e) := FileWatcher.addFiles os fw.files e
  let (acts2, e) := FileWatcher.readInitial os fw.files e
  (none, acts1 ++ acts2, e)

/-- `FileWatcher.Stop` (watcher.go:72-74). -/
def FileWatcher.Stop {ε : Type} (os : OS ε) (e : ε) : Option GoString × ε :=
  os.WatcherClose e

/-- `FileWatcher.watch` (watcher.go:76-100) over the receives its `select`
makes, in order. The loop returns at a closed channel; at the end of the list it
is waiting for a receive that does not come. -/
def FileWatcher.watch {ε : Type} (os : OS ε) : List Recv → ε → List Act × ε
  | [], e => ([], e)
  | .eventsClosed :: _, e => ([], e)
  | .errorsClosed :: _, e => ([], e)
  | .error err :: rest, e =>
    let (acts, e) := FileWatcher.watch os rest e
    (Act.log (lit "Watcher error: " ++ err) :: acts, e)
  | .event event :: rest, e =>
    if event.Has Write || event.Has Create then
      match FileWatcher.readFile os event.Name e with
      | (.error err, e) =>
        let (acts, e) := FileWatcher.watch os rest e
        (Act.log (lit "Error reading file " ++ event.Name ++ lit ": " ++ err) :: acts, e)
      | (.ok content, e) =>
        let (acts, e) := FileWatcher.watch os rest e
        (Act.onChange (Base event.Name) content :: acts, e)
    else FileWatcher.watch os rest e

/-! ### The goroutines of `Start` and `watch` -/

/-- The goroutines that invoke the callback of one watcher: the one that called
`Start`, and the one `Start` launches with `go fw.watch()`. -/
inductive Goroutine where
  | start
  | watch
deriving DecidableEq, Repr

/-- A moment on the timeline of the callback: an invocation
`fw.onChange(filename, content)` begins on a goroutine, or the invocation that
goroutine is in returns. -/
inductive Moment where
  | enter (g : Goroutine) (filename content : GoString)
  | leave (g : Goroutine)
deriving DecidableEq, Repr

/-- The goroutine of a moment. -/
def Moment.goroutine : Moment → Goroutine
  | .enter g _ _ => g
  | .leave g => g

/-- The watcher from the statement `go fw.watch()` of `Start` on (watcher.go:59
and after): two goroutines over one environment. `files` are the paths the loop of
watcher.go:62-66 has still to read and `recvs` the receives the loop of `watch`
has still to make; `startIn` and `watchIn` tell whether the goroutine is inside
an invocation of the callback. -/
structure Running (ε : Type) where
  env : ε
  files : List GoString
  startIn : Bool
  recvs : List Recv
  watchIn : Bool
  timeline : List Moment
  log : List GoString

/-- The next step of the goroutine of `Start` (watcher.go:62-66): it returns
from the callback it is in, or reads the next path and, if the read succeeds,
enters the callback. -/
def Running.stepStart {ε : Type} (os : OS ε) (s : Running ε) : Running ε :=
  if s.startIn then
    { s with startIn := false, timeline := s.timeline ++ [.leave .start] }
  else
    match s.files with
    | [] => s
    | file :: rest =>
      match FileWatcher.readFile os file s.env with
      | (.ok content, e) =>
        { s with env := e, files := rest, startIn := true,
                 timeline := s.timeline ++ [.enter .start (Base file) content] }
      | (.error _, e) => { s with env := e, files := rest }

/-- The next step of the goroutine of `watch` (watcher.go:76-100): it returns
from the callback it is in, or makes the next receive of its `select` and
handles it, up to the call of the callback. After a closed channel the loop has
returned and makes no further receive. -/
def Running.stepWatch {ε : Type} (os : OS ε) (s : Running ε) : Running ε :=
  if s.watchIn then
    { s with watchIn := false, timeline := s.timeline ++ [.leave .watch] }
  else
    match s.recvs with
    | [] => s
    | .eventsClosed :: _ => { s with recvs := [] }
    | .errorsClosed :: _ => { s with recvs := [] }
    | .error err :: rest =>
      { s with recvs := rest, log := s.log ++ [lit "Watcher error: " ++ err] }
    | .event event :: rest =>
      if event.Has Write || event.Has Create then
        match FileWatcher.readFile os event.Name s.env with
        | (.error err, e) =>
          { s with env := e, recvs := rest,
                   log := s.log ++ [lit "Error reading file " ++ event.Name ++ lit ": " ++ err] }
        | (.ok content, e) =>
          { s with env := e, recvs := rest, watchIn := true,
                   timeline := s.timeline ++ [.enter .watch (Base event.Name) content] }
      else { s with recvs := rest }

/-- One step of the chosen goroutine. -/
def Running.step {ε : Type} (os : OS ε) (g : Goroutine) (s : Running ε) : Running ε :=
  match g with
  | .start => s.stepStart os
  | .watch => s.stepWatch os

/-- A run under a schedule: the goroutines step in the order the schedule
names them. Nothing in `watcher.go` orders a step of one goroutine against a
step of the other, so every schedule is a possible run. -/
def Running.run {ε : Type} (os : OS ε) : List Goroutine → Running ε → Running ε
  | [], s => s
  | g :: schedule, s => Running.run os schedule (s.step os g)

/-- The lines an action logs. -/
def Act.line : Act → Option GoString
  | .log line => some line
  | .onChange _ _ => none

/-- `FileWatcher.Start` up to and including its statement `go fw.watch()`
(watcher.go:42-59): the paths have been registered, the watch goroutine exists
and has all its receives before it, the snapshot loop has all the paths before
it. -/
def FileWatcher.launch {ε : Type} (os : OS ε) (fw : FileWatcher) (recvs : List Recv) (e : ε) :
    Running ε :=
  { env := (FileWatcher.addFiles os fw.files e).2
    files := fw.files
    startIn := false
    recvs := recvs
    watchIn := false
    timeline := []
    log := (FileWatcher.addFiles os fw.files e).1.filterMap Act.line }

/-! ## `main.go` -/

/-- The closure given to `watcher.NewFileWatcher` in `main` (main.go:57-76),
over the two functions it calls: `mqttClient.PublishState` and `log.Printf`. -/
def onChange {σ : Type} (PublishState : GoString → GoString → σ → Option GoString × σ)
    (logPrintf : GoString → σ → σ) (filename content : GoString) (w : σ) : σ :=
  let content := TrimSpace content
  let sensorID : Option GoString :=
    if filename = lit "CORENAME" then some (lit "corename")
    else if filename = lit "ACTIVEGAME" then some (lit "activegame")
    else if filename = lit "RBFNAME" then some (lit "rbfname")
    else none
  match sensorID with
  | none => logPrintf (lit "Unknown file: " ++ filename) w
  | some sensorID =>
    match PublishState sensorID content w with
    | (some err, w) =>
      logPrintf (lit "Failed to publish state for " ++ sensorID ++ lit ": " ++ err) w
    | (none, w) => w

/-- The closure of `main` with the client it captures. -/
def mainOnChange (mqttClient : Client) (filename content : GoString) (w : Effects) : Effects :=
  onChange mqttClient.PublishState Effects.logPrintf filename content w

/-- A recording stand-in for the Bus Session: every `PublishState` call and
every log line is kept, in order. -/
structure Spy where
  calls : List (GoString × GoString)
  log : List GoString
deriving DecidableEq, Repr

/-- The recorded `PublishState`; `answer` chooses what each call returns. -/
def Spy.PublishState (answer : Spy → GoString → GoString → Option GoString)
    (sensorID state : GoString) (s : Spy) : Option GoString × Spy :=
  (answer s sensorID state, { s with calls := s.calls ++ [(sensorID, state)] })

/-- The recorded `log.Printf`. -/
def Spy.logPrintf (line : GoString) (s : Spy) : Spy :=
  { s with log := s.log ++ [line] }

/-- The program acting on what the watcher does: a callback invocation runs the
closure of `main`, a log line is logged. -/
def runActs (mqttClient : Client) : List Act → Effects → Effects
  | [], w => w
  | .onChange filename content :: rest, w =>
    runActs mqttClient rest (mainOnChange mqttClient filename content w)
  | .log line :: rest, w => runActs mqttClient rest (w.logPrintf line)

/-- The command-line flags of `main.go`. -/
structure Flags where
  brokerAddr : GoString
  clientID : GoString
  username : GoString
  password : GoString
  topicPrefix : GoString

/-- The struct `Config` of `client.go`. -/
structure Config where
  BrokerAddr : GoString
  ClientID : GoString
  Username : GoString
  Password : GoString
  TopicPrefix : GoString

/-- `getNodeID` (client.go:91-103). -/
def getNodeID {ε : Type} (os : OS ε) (e : ε) : Except GoString GoString × ε :=
  match os.ReadFile (lit "/etc/hostname") e with
  | (.error err, e) => (.error (lit "failed to read /etc/hostname: " ++ err), e)
  | (.ok content, e) =>
    let hostname := TrimSpace content
    if hostname = [] then (.error (lit "hostname is empty"), e)
    else (.ok hostname, e)

/-- `NewClient` (client.go:50-88); `transport` is the paho client made from the
options. -/
def NewClient {ε : Type} (os : OS ε) (transport : Transport) (config : Config) (e : ε) :
    Except GoString Client × ε :=
  match getNodeID os e with
  | (.error err, e) => (.error (lit "failed to get node ID from hostname: " ++ err), e)
  | (.ok nodeID, e) =>
    (.ok { client := transport, topicPrefix := config.TopicPrefix, nodeID := nodeID }, e)

/-- The whole process state: environment, transport calls and log, standard
output. -/
structure World (ε : Type) where
  env : ε
  eff : Effects
  out : List GoString

/-- Package `log`, `Fatalf`: the line is logged and the process exits with
status 1; deferred calls do not run. -/
def fatalf {ε : Type} (line : GoString) (w : World ε) : World ε × Nat :=
  ({ w with eff := w.eff.logPrintf line }, 1)

/-! ### The process from the statement `go fw.watch()` on -/

/-- Where an invocation of the closure of `main` stands (main.go:57-76, with the
`PublishState` it calls, client.go:178-187): entered with its two arguments, or
past the call `c.client.Publish` and the wait for its token, holding the error
the token carries. -/
inductive Callback where
  | entered (filename content : GoString)
  | published (sensorID state : GoString) (err : Option GoString)
deriving DecidableEq, Repr

/-- The next step of an invocation of the closure of `main`, and `none` once it
has returned. From its entry: the line for an unknown file and the return, or
the transport publish of `PublishState` and the wait for its token. After the
publish: the line `PublishState` logs when the token carries no error, or the
line the closure logs for the error `PublishState` returns; then the return. -/
def Callback.step (mqttClient : Client) : Callback → Effects → Option Callback × Effects
  | .entered filename content, w =>
    let content := TrimSpace content
    let sensorID : Option GoString :=
      if filename = lit "CORENAME" then some (lit "corename")
      else if filename = lit "ACTIVEGAME" then some (lit "activegame")
      else if filename = lit "RBFNAME" then some (lit "rbfname")
      else none
    match sensorID with
    | none => (none, w.logPrintf (lit "Unknown file: " ++ filename))
    | some sensorID =>
      let topic := mqttClient.topicPrefix ++ lit "/sensor/" ++ mqttClient.nodeID ++ lit "/"
        ++ sensorID ++ lit "/state"
      let (token, w) := mqttClient.transportPublish topic 0 false content w
      (some (.published sensorID content (if token.Wait then token.Error else none)), w)
  | .published sensorID state err, w =>
    match err with
    | some err =>
      (none, w.logPrintf (lit "Failed to publish state for " ++ sensorID ++ lit ": "
        ++ (lit "failed to publish state for " ++ sensorID ++ lit ": " ++ err)))
    | none => (none, w.logPrintf (lit "Published state for " ++ sensorID ++ lit ": " ++ state))

/-- Where the goroutine of `main` stands once `Start` has executed
`go fw.watch()`. -/
inductive MainPc where
  /-- In the loop of watcher.go:62-66, these paths still to read. -/
  | snapshot (files : List GoString)
  /-- In the loop of watcher.go:62-66, inside `fw.onChange` for a path. -/
  | snapshotCall (cb : Callback) (files : List GoString)
  /-- After the return of `Start`, before the `Println` of main.go:90. -/
  | announce
  /-- At the receive `<-c` of main.go:91. -/
  | waiting
  /-- Before the deferred `fileWatcher.Stop()`. -/
  | stop
  /-- In the deferred `mqttClient.Disconnect()`, before its publish. -/
  | offline
  /-- In `Disconnect`, the publish failed: before its log line. -/
  | offlineFailed (err : GoString)
  /-- In `Disconnect`, before `c.client.Disconnect(250)`. -/
  | close
  /-- The deferred calls are done; `main` is about to return. -/
  | returning
  /-- The function `main` has returned: the process is over. -/
  | exited
deriving DecidableEq, Repr

/-- Where the goroutine of `watch` stands (watcher.go:76-100). -/
inductive WatchPc where
  /-- At the `select`. -/
  | receive
  /-- A create or write notification was received: before `fw.readFile`. -/
  | reading (name : GoString)
  /-- Before a `log.Printf` of the loop. -/
  | logging (line : GoString)
  /-- Inside `fw.onChange`. -/
  | call (cb : Callback)
  /-- The loop has returned at a closed channel. -/
  | returned
deriving DecidableEq, Repr

/-- The process from the statement `go fw.watch()` on: the state all goroutines
share, where each of the two stands, and the receives the `select` of `watch`
has still to make. -/
structure Proc (ε : Type) where
  world : World ε
  mainPc : MainPc
  watchPc : WatchPc
  recvs : List Recv

/-- The next step of the goroutine of `main`: one call into the operating
system, the transport, the log or the standard output. The rest of `Start`
(watcher.go:62-68), then main.go:82-95 with the deferred calls in their order,
last deferred first. The step at `waiting` is the arrival of the termination
signal, followed by the `Println` of main.go:93. -/
def Proc.stepMain {ε : Type} (os : OS ε) (mqttClient : Client) (p : Proc ε) : Proc ε :=
  match p.mainPc with
  | .snapshot [] => { p with mainPc := .announce }
  | .snapshot (file :: rest) =>
    match FileWatcher.readFile os file p.world.env with
    | (.ok content, e) =>
      { p with world := { p.world with env := e },
               mainPc := .snapshotCall (.entered (Base file) content) rest }
    | (.error _, e) => { p with world := { p.world with env := e }, mainPc := .snapshot rest }
  | .snapshotCall cb rest =>
    match cb.step mqttClient p.world.eff with
    | (some cb, eff) =>
      { p with world := { p.world with eff := eff }, mainPc := .snapshotCall cb rest }
    | (none, eff) => { p with world := { p.world with eff := eff }, mainPc := .snapshot rest }
  | .announce =>
    let out := p.world.out ++ [lit "mister-mqtt is running. Press Ctrl+C to exit.\n"]
    { p with world := { p.world with out := out }, mainPc := .waiting }
  | .waiting =>
    let out := p.world.out ++ [lit "\nShutting down mister-mqtt...\n"]
    { p with world := { p.world with out := out }, mainPc := .stop }
  | .stop =>
    let (_, e) := FileWatcher.Stop os p.world.env
    { p with world := { p.world with env := e }, mainPc := .offline }
  | .offline =>
    let (token, eff) :=
      mqttClient.transportPublish (availabilityTopic mqttClient) 0 true (lit "offline") p.world.eff
    if token.Wait && token.Error.isSome then
      { p with world := { p.world with eff := eff },
               mainPc := .offlineFailed (token.Error.getD []) }
    else { p with world := { p.world with eff := eff }, mainPc := .close }
  | .offlineFailed err =>
    let eff := p.world.eff.logPrintf (lit "Failed to publish offline status: " ++ err)
    { p with world := { p.world with eff := eff }, mainPc := .close }
  | .close =>
    let eff := mqttClient.transportDisconnect 250 p.world.eff
    { p with world := { p.world with eff := eff }, mainPc := .returning }
  | .returning => { p with mainPc := .exited }
  | .exited => p

/-- The next step of the goroutine of `watch` (watcher.go:76-100): a receive of
its `select`, or one call into the operating system, the transport or the log.
With no receive to make the goroutine stays blocked at the `select`. -/
def Proc.stepWatch {ε : Type} (os : OS ε) (mqttClient : Client) (p : Proc ε) : Proc ε :=
  match p.watchPc with
  | .receive =>
    match p.recvs with
    | [] => p
    | .eventsClosed :: rest => { p with recvs := rest, watchPc := .returned }
    | .errorsClosed :: rest => { p with recvs := rest, watchPc := .returned }
    | .error err :: rest =>
      { p with recvs := rest, watchPc := .logging (lit "Watcher error: " ++ err) }
    | .event event :: rest =>
      if event.Has Write || event.Has Create then
        { p with recvs := rest, watchPc := .reading event.Name }
      else { p with recvs := rest }
  | .reading name =>
    match FileWatcher.readFile os name p.world.env with
    | (.error err, e) =>
      { p with world := { p.world with env := e },
               watchPc := .logging (lit "Error reading file " ++ name ++ lit ": " ++ err) }
    | (.ok content, e) =>
      { p with world := { p.world with env := e },
               watchPc := .call (.entered (Base name) content) }
  | .logging line =>
    { p with world := { p.world with eff := p.world.eff.logPrintf line }, watchPc := .receive }
  | .call cb =>
    match cb.step mqttClient p.world.eff with
    | (some cb, eff) => { p with world := { p.world with eff := eff }, watchPc := .call cb }
    | (none, eff) => { p with world := { p.world with eff := eff }, watchPc := .receive }
  | .returned => p

/-- One step of the chosen goroutine. When `main` has returned the process is
over and no goroutine steps. -/
def Proc.step {ε : Type} (os : OS ε) (mqttClient : Client) (g : Goroutine) (p : Proc ε) :
    Proc ε :=
  match g with
  | .start => p.stepMain os mqttClient
  | .watch =>
    match p.mainPc with
    | .exited => p
    | _ => p.stepWatch os mqttClient

/-- A run of the process under a schedule: the goroutines step in the order the
schedule names them, `Goroutine.start` being the goroutine of `main`, which
called `Start`. Nothing orders a step of one goroutine against a step of the
other, so every schedule is a possible run; a schedule that ends before `main`
has returned leaves the process running. -/
def Proc.run {ε : Type} (os : OS ε) (mqttClient : Client) :
    List Goroutine → Proc ε → Proc ε
  | [], p => p
  | g :: schedule, p => Proc.run os mqttClient schedule (p.step os mqttClient g)

/-- The function `main` (main.go:24-95): the state of the process and its exit
status, `none` while it is running. Up to the statement `go fw.watch()` of
`Start` there is one goroutine; from there on `schedule` orders the steps of the
two goroutines and `recvs` are the receives of the `select` of `watch`. `Start`
returns nil, so the test of main.go:82 never exits. -/
def main {ε : Type} (os : OS ε) (transport : Transport) (flags : Flags) (recvs : List Recv)
    (schedule : List Goroutine) (e : ε) : World ε × Option Nat :=
  let w : World ε :=
    { env := e, eff := { ops := [], log := [] },
      out := [lit "mister-mqtt starting...\n",
              lit "MQTT Broker: " ++ flags.brokerAddr ++ lit "\n",
              lit "Client ID: " ++ flags.clientID ++ lit "\n",
              lit "Topic Prefix: " ++ flags.topicPrefix ++ lit "\n"] }
  let mqttConfig : Config :=
    { BrokerAddr := flags.brokerAddr, ClientID := flags.clientID, Username := flags.username,
      Password := flags.password, TopicPrefix := flags.topicPrefix }
  match NewClient os transport mqttConfig w.env with
  | (.error err, e) =>
    (fatalf (lit "Failed to create MQTT client: " ++ err) { w with env := e }).map id some
  | (.ok mqttClient, e) =>
    let w := { w with env := e }
    match mqttClient.Connect w.eff with
    | (some err, eff) =>
      (fatalf (lit "Failed to connect to MQTT broker: " ++ err) { w with eff := eff }).map id some
    | (none, eff) =>
      let w := { w with eff := eff }
      match mqttClient.PublishDiscovery w.eff with
      | (some err, eff) =>
        (fatalf (lit "Failed to publish discovery messages: " ++ err)
          { w with eff := eff }).map id some
      | (none, eff) =>
        let w := { w with eff := eff }
        match NewFileWatcher os w.env with
        | (.error err, e) =>
          (fatalf (lit "Failed to create file watcher: " ++ err) { w with env := e }).map id some
        | (.ok fileWatcher, e) =>
          let w := { w with env := e }
          let (acts, e) := FileWatcher.addFiles os fileWatcher.files w.env
          let w := { w with env := e, eff := runActs mqttClient acts w.eff }
          let p := Proc.run os mqttClient schedule
            { world := w, mainPc := .snapshot fileWatcher.files, watchPc := .receive,
              recvs := recvs }
          (p.world, if p.mainPc = .exited then some 0 else none)

/-! ## JSON decoding (package `encoding/json`, `Unmarshal`) -/

/-- A JSON value as the decoder reads it. A number keeps its text. -/
inductive JSON where
  | null
  | bool (b : Bool)
  | number (text : GoString)
  | string (s : GoString)
  | array (elems : List JSON)
  | object (members : List (GoString × JSON))

/-- The scanner's `isSpace`: space, tab, carriage return, line feed. -/
def isSpaceByte (b : Byte) : Bool :=
  decide (b.val = 0x20 ∨ b.val = 0x09 ∨ b.val = 0x0D ∨ b.val = 0x0A)

/-- Skip insignificant white space. -/
def skipSpace : GoString → GoString
  | [] => []
  | b :: rest => if isSpaceByte b then skipSpace rest else b :: rest

/-- The value of a hexadecimal digit, as in `getu4`. -/
def hexVal (b : Byte) : Option Nat :=
  if 0x30 ≤ b.val ∧ b.val ≤ 0x39 then some (b.val - 0x30)
  else if 0x61 ≤ b.val ∧ b.val ≤ 0x66 then some (b.val - 0x61 + 10)
  else if 0x41 ≤ b.val ∧ b.val ≤ 0x46 then some (b.val - 0x41 + 10)
  else none

/-- Four hexadecimal digits: their value and what follows them. -/
def hex4 : GoString → Option (Nat × GoString)
  | a :: b :: c :: d :: rest =>
    match hexVal a, hexVal b, hexVal c, hexVal d with
    | some x, some y, some z, some t => some (x * 4096 + y * 256 + z * 16 + t, rest)
    | _, _, _, _ => none
  | _ => none

/-- The byte a one-letter escape stands for. -/
def simpleEscape (c : Byte) : Option Byte :=
  if c.val = 0x22 ∨ c.val = 0x5C ∨ c.val = 0x2F then some c
  else if c.val = 0x62 then some 0x08
  else if c.val = 0x66 then some 0x0C
  else if c.val = 0x6E then some 0x0A
  else if c.val = 0x72 then some 0x0D
  else if c.val = 0x74 then some 0x09
  else none

/-- Go `utf16.DecodeRune`: the rune of a surrogate pair, `RuneError` when the two
values are not a pair. -/
def decodeSurrogates (r1 r2 : Nat) : Nat :=
  if 0xD800 ≤ r1 ∧ r1 < 0xDC00 ∧ 0xDC00 ≤ r2 ∧ r2 < 0xE000 then
    (r1 - 0xD800) * 1024 + (r2 - 0xDC00) + 0x10000
  else RuneError

/-- The second half of a surrogate pair written as an escape right here, or
`RuneError`. -/
def pairedRune (rr : Nat) (s : GoString) : Nat × GoString :=
  match s with
  | b0 :: b1 :: rest =>
    if b0.val = 0x5C ∧ b1.val = 0x75 then
      match hex4 rest with
      | some (rr1, rest1) =>
        if decodeSurrogates rr rr1 ≠ RuneError then (decodeSurrogates rr rr1, rest1)
        else (RuneError, s)
      | none => (RuneError, s)
    else (RuneError, s)
  | _ => (RuneError, s)

/-- Put decoded bytes in front of the result of decoding what follows. -/
def prepend (pre : GoString) : Option (GoString × GoString) → Option (GoString × GoString)
  | none => none
  | some (out, tail) => some (pre ++ out, tail)

/-- A JSON string after its opening quote (the scanner's string states and
`unquote`): the decoded bytes and what follows the closing quote. Escapes are
resolved, a lone surrogate escape becomes U+FFFD, raw bytes are coerced to
valid UTF-8; a control byte, an unknown escape or a missing closing quote is a
syntax error. -/
def unquoteBody : Nat → GoString → Option (GoString × GoString)
  | 0, _ => none
  | _ + 1, [] => none
  | fuel + 1, b :: rest =>
    if b.val = 0x22 then some ([], rest)
    else if b.val = 0x5C then
      match rest with
      | [] => none
      | c :: rest1 =>
        if c.val = 0x75 then
          match hex4 rest1 with
          | none => none
          | some (rr, rest2) =>
            if 0xD800 ≤ rr ∧ rr < 0xE000 then
              prepend (EncodeRune (pairedRune rr rest2).1)
                (unquoteBody fuel (pairedRune rr rest2).2)
            else prepend (EncodeRune rr) (unquoteBody fuel rest2)
        else
          match simpleEscape c with
          | none => none
          | some x => prepend [x] (unquoteBody fuel rest1)
    else if b.val < 0x20 then none
    else if b.val < 0x80 then prepend [b] (unquoteBody fuel rest)
    else
      prepend (EncodeRune (DecodeRune (b :: rest)).1)
        (unquoteBody fuel ((b :: rest).drop (DecodeRune (b :: rest)).2))

/-- A JSON string starting at its opening quote. -/
def parseString (s : GoString) : Option (GoString × GoString) :=
  match s with
  | b :: rest => if b.val = 0x22 then unquoteBody rest.length rest else none
  | [] => none

/-- The longest run of decimal digits at the front, and the rest. -/
def spanDigits : GoString → GoString × GoString
  | [] => ([], [])
  | b :: rest =>
    if 0x30 ≤ b.val ∧ b.val ≤ 0x39 then ((b :: (spanDigits rest).1), (spanDigits rest).2)
    else ([], b :: rest)

/-- A JSON number: `-`? then `0` or a digit run without leading zero, an
optional fraction, an optional exponent. -/
def scanNumber (s : GoString) : Option (GoString × GoString) :=
  let (sign, s1) : GoString × GoString :=
    match s with
    | b :: rest => if b.val = 0x2D then ([b], rest) else ([], s)
    | [] => ([], [])
  let intPart : Option (GoString × GoString) :=
    match s1 with
    | b :: rest =>
      if b.val = 0x30 then some ([b], rest)
      else if 0x31 ≤ b.val ∧ b.val ≤ 0x39 then some (spanDigits s1)
      else none
    | [] => none
  match intPart with
  | none => none
  | some (ds, s2) =>
    let frac : Option (GoString × GoString) :=
      match s2 with
      | b :: rest =>
        if b.val = 0x2E then
          (if (spanDigits rest).1 = [] then none
            else some (b :: (spanDigits rest).1, (spanDigits rest).2))
        else some ([], s2)
      | [] => some ([], [])
    match frac with
    | none => none
    | some (fs, s3) =>
      let exp : Option (GoString × GoString) :=
        match s3 with
        | b :: rest =>
          if b.val = 0x65 ∨ b.val = 0x45 then
            let (sg, s4) : GoString × GoString :=
              match rest with
              | c :: rest1 => if c.val = 0x2B ∨ c.val = 0x2D then ([c], rest1) else ([], rest)
              | [] => ([], [])
            (if (spanDigits s4).1 = [] then none
              else some (b :: sg ++ (spanDigits s4).1, (spanDigits s4).2))
          else some ([], s3)
        | [] => some ([], [])
      match exp with
      | none => none
      | some (es, s5) => some (sign ++ ds ++ fs ++ es, s5)

/-- The elements of an array after the first position: a value, then `,` and
more, or `]`. `value` reads one value. -/
def parseElements (value : GoString → Option (JSON × GoString)) :
    Nat → GoString → Option (List JSON × GoString)
  | 0, _ => none
  | fuel + 1, s =>
    match value s with
    | none => none
    | some (v, rest) =>
      match skipSpace rest with
      | b :: rest1 =>
        if b.val = 0x2C then
          match parseElements value fuel rest1 with
          | none => none
          | some (vs, tail) => some (v :: vs, tail)
        else if b.val = 0x5D then some ([v], rest1)
        else none
      | [] => none

/-- The members of an object: a string key, `:`, a value, then `,` and more, or
the closing brace. -/
def parseMembers (value : GoString → Option (JSON × GoString)) :
    Nat → GoString → Option (List (GoString × JSON) × GoString)
  | 0, _ => none
  | fuel + 1, s =>
    match parseString (skipSpace s) with
    | none => none
    | some (key, rest) =>
      match skipSpace rest with
      | b :: rest1 =>
        if b.val = 0x3A then
          match value rest1 with
          | none => none
          | some (v, rest2) =>
            match skipSpace rest2 with
            | d :: rest3 =>
              if d.val = 0x2C then
                match parseMembers value fuel rest3 with
                | none => none
                | some (ms, tail) => some ((key, v) :: ms, tail)
              else if d.val = 0x7D then some ([(key, v)], rest3)
              else none
            | [] => none
        else none
      | [] => none

/-- One JSON value, after optional white space; `fuel` bounds the nesting and
the number of elements. -/
def parseValue : Nat → GoString → Option (JSON × GoString)
  | 0, _ => none
  | fuel + 1, s =>
    match skipSpace s with
    | [] => none
    | b :: rest =>
      if b.val = 0x7B then
        match skipSpace rest with
        | c :: rest1 =>
          if c.val = 0x7D then some (.object [], rest1)
          else
            match parseMembers (parseValue fuel) fuel rest with
            | none => none
            | some (ms, tail) => some (.object ms, tail)
        | [] => none
      else if b.val = 0x5B then
        match skipSpace rest with
        | c :: rest1 =>
          if c.val = 0x5D then some (.array [], rest1)
          else
            match parseElements (parseValue fuel) fuel rest with
            | none => none
            | some (vs, tail) => some (.array vs, tail)
        | [] => none
      else if b.val = 0x22 then
        match parseString (b :: rest) with
        | none => none
        | some (str, tail) => some (.string str, tail)
      else if (b :: rest).take 4 = lit "true" then some (.bool true, (b :: rest).drop 4)
      else if (b :: rest).take 5 = lit "false" then some (.bool false, (b :: rest).drop 5)
      else if (b :: rest).take 4 = lit "null" then some (.null, (b :: rest).drop 4)
      else
        match scanNumber (b :: rest) with
        | none => none
        | some (text, tail) => some (.number text, tail)

/-- The syntax pass of `Unmarshal`: the whole input is one JSON value between
optional white space. -/
def parseJSON (data : GoString) : Option JSON :=
  match parseValue (data.length + 1) data with
  | none => none
  | some (v, rest) => if skipSpace rest = [] then some v else none

/-- The folding of a key for the case-insensitive match of field names: ASCII
letters to upper case, and the two non-ASCII runes whose simple folding is an
ASCII letter (U+017F to `S`, U+212A to `K`). Other runes are left as they are:
no folding of them gives an ASCII letter, and the field names are ASCII. -/
def foldName : Nat → GoString → GoString
  | 0, _ => []
  | _ + 1, [] => []
  | fuel + 1, b :: rest =>
    if b.val < 0x80 then
      (if 0x61 ≤ b.val ∧ b.val ≤ 0x7A then Fin.ofNat (b.val - 0x20) else b) :: foldName fuel rest
    else
      let (r, size) := DecodeRune (b :: rest)
      (if r = 0x17F then [0x53] else if r = 0x212A then [0x4B] else EncodeRune r)
        ++ foldName fuel ((b :: rest).drop size)

/-- A key selects the field tagged `name`: exactly, or up to case folding. -/
def keyMatches (key name : GoString) : Bool :=
  decide (key = name) || decide (foldName key.length key = foldName name.length name)

/-- Decoding into a `string`: a JSON string is stored, `null` changes nothing,
anything else is a type error. -/
def decodeString (v : JSON) (old : GoString) : Except GoString GoString :=
  match v with
  | .string s => .ok s
  | .null => .ok old
  | _ => .error (lit "json: cannot unmarshal into Go value of type string")

/-- The elements of an array decoded into the elements of a slice: the element
at index `i` starts from the old element there, or from the empty string (a
slice is taken without spare capacity). -/
def decodeElements : List JSON → Nat → List GoString → Except GoString (List GoString)
  | [], _, _ => .ok []
  | v :: vs, i, old =>
    match decodeString v (old.getD i []) with
    | .error err => .error err
    | .ok s =>
      match decodeElements vs (i + 1) old with
      | .error err => .error err
      | .ok ss => .ok (s :: ss)

/-- Decoding into a `[]string`: `null` gives the nil slice, an array gives its
elements, anything else is a type error. -/
def decodeStrings (v : JSON) (old : Option (List GoString)) :
    Except GoString (Option (List GoString)) :=
  match v with
  | .null => .ok none
  | .array elems =>
    match decodeElements elems 0 (old.getD []) with
    | .error err => .error err
    | .ok ss => .ok (some ss)
  | _ => .error (lit "json: cannot unmarshal into Go value of type []string")

/-- The members of an object stored into a `Device`, in order; a key that
matches no field is skipped. -/
def decodeDeviceMembers : List (GoString × JSON) → Device → Except GoString Device
  | [], d => .ok d
  | (key, v) :: rest, d =>
    if keyMatches key (lit "identifiers") then
      match decodeStrings v d.Identifiers with
      | .error err => .error err
      | .ok x => decodeDeviceMembers rest { d with Identifiers := x }
    else if keyMatches key (lit "name") then
      match decodeString v d.Name with
      | .error err => .error err
      | .ok x => decodeDeviceMembers rest { d with Name := x }
    else if keyMatches key (lit "model") then
      match decodeString v d.Model with
      | .error err => .error err
      | .ok x => decodeDeviceMembers rest { d with Model := x }
    else if keyMatches key (lit "manufacturer") then
      match decodeString v d.Manufacturer with
      | .error err => .error err
      | .ok x => decodeDeviceMembers rest { d with Manufacturer := x }
    else if keyMatches key (lit "sw_version") then
      match decodeString v d.SWVersion with
      | .error err => .error err
      | .ok x => decodeDeviceMembers rest { d with SWVersion := x }
    else decodeDeviceMembers rest d

/-- Decoding into a `Device`: an object fills the fields, `null` changes
nothing, anything else is a type error. -/
def decodeDevice (v : JSON) (old : Device) : Except GoString Device :=
  match v with
  | .object members => decodeDeviceMembers members old
  | .null => .ok old
  | _ => .error (lit "json: cannot unmarshal into Go value of type mqtt.Device")

/-- The members of an object stored into a `HomeAssistantDiscovery`. -/
def decodeDiscoveryMembers :
    List (GoString × JSON) → HomeAssistantDiscovery → Except GoString HomeAssistantDiscovery
  | [], d => .ok d
  | (key, v) :: rest, d =>
    if keyMatches key (lit "name") then
      match decodeString v d.Name with
      | .error err => .error err
      | .ok x => decodeDiscoveryMembers rest { d with Name := x }
    else if keyMatches key (lit "state_topic") then
      match decodeString v d.StateTopic with
      | .error err => .error err
      | .ok x => decodeDiscoveryMembers rest { d with StateTopic := x }
    else if keyMatches key (lit "unique_id") then
      match decodeString v d.UniqueID with
      | .error err => .error err
      | .ok x => decodeDiscoveryMembers rest { d with UniqueID := x }
    else if keyMatches key (lit "device") then
      match decodeDevice v d.Device with
      | .error err => .error err
      | .ok x => decodeDiscoveryMembers rest { d with Device := x }
    else if keyMatches key (lit "availability_topic") then
      match decodeString v d.AvailabilityTopic with
      | .error err => .error err
      | .ok x => decodeDiscoveryMembers rest { d with AvailabilityTopic := x }
    else if keyMatches key (lit "payload_available") then
      match decodeString v d.PayloadAvailable with
      | .error err => .error err
      | .ok x => decodeDiscoveryMembers rest { d with PayloadAvailable := x }
    else if keyMatches key (lit "payload_not_available") then
      match decodeString v d.PayloadNotAvailable with
      | .error err => .error err
      | .ok x => decodeDiscoveryMembers rest { d with PayloadNotAvailable := x }
    else decodeDiscoveryMembers rest d

/-- Go `json.Unmarshal(data, &target)` at type `HomeAssistantDiscovery`: the
value of `target` afterwards, or an error (a syntax error, or a JSON value of
the wrong type for a field). -/
def Unmarshal (data : GoString) (target : HomeAssistantDiscovery) :
    Except GoString HomeAssistantDiscovery :=
  match parseJSON data with
  | none => .error (lit "json: syntax error")
  | some (.object members) => decodeDiscoveryMembers members target
  | some .null => .ok target
  | some _ =>
    .error (lit "json: cannot unmarshal into Go value of type mqtt.HomeAssistantDiscovery")

/-- The zero value of `HomeAssistantDiscovery`, as `var unmarshaled
HomeAssistantDiscovery` declares it. -/
def zeroDiscovery : HomeAssistantDiscovery :=
  { Name := [], StateTopic := [], UniqueID := [],
    Device := { Identifiers := none, Name := [], Model := [], Manufacturer := [],
                SWVersion := [] },
    AvailabilityTopic := [], PayloadAvailable := [], PayloadNotAvailable := [] }

/-- What a string becomes on its way through `Marshal` and `Unmarshal`: every
byte that is not part of a valid UTF-8 encoding is replaced by U+FFFD. -/
def coerceUTF8 : Nat → GoString → GoString
  | 0, _ => []
  | _ + 1, [] => []
  | fuel + 1, b :: rest =>
    if b.val < 0x80 then b :: coerceUTF8 fuel rest
    else
      EncodeRune (DecodeRune (b :: rest)).1
        ++ coerceUTF8 fuel ((b :: rest).drop (DecodeRune (b :: rest)).2)

/-- Go `utf8.ValidString`, with `fuel` at least the length: the string consists
entirely of valid UTF-8 encoded runes. -/
def validUTF8 : Nat → GoString → Bool
  | 0, s => decide (s = [])
  | _ + 1, [] => true
  | fuel + 1, b :: rest =>
    if b.val < 0x80 then validUTF8 fuel rest
    else if (DecodeRune (b :: rest)).1 = RuneError ∧ (DecodeRune (b :: rest)).2 = 1 then false
    else validUTF8 fuel ((b :: rest).drop (DecodeRune (b :: rest)).2)

/-- Go `utf8.ValidString`. -/
def ValidString (s : GoString) : Bool := validUTF8 s.length s

/-! ## Notions used in the statements: the callback and the Bus Session -/

/-- What the closure of `main` does with the result of its `PublishState` call:
a failure is logged. -/
def afterPublish (sensorID : GoString) (r : Option GoString × Effects) : Effects :=
  match r with
  | (some err, w) =>
    w.logPrintf (lit "Failed to publish state for " ++ sensorID ++ lit ": " ++ err)
  | (none, w) => w

/-- The discovery record the specification describes for the sensor `sensorID`
with public name `name`. -/
def specRecord (c : Client) (sensorID name : GoString) : HomeAssistantDiscovery :=
  { Name := name
    StateTopic := c.topicPrefix ++ lit "/sensor/" ++ c.nodeID ++ lit "/" ++ sensorID
      ++ lit "/state"
    UniqueID := c.nodeID ++ lit "_" ++ sensorID
    Device :=
      { Identifiers := some [c.nodeID]
        Name := lit "MiSTer FPGA"
        Model := lit "MiSTer"
        Manufacturer := lit "MiSTer Project"
        SWVersion := lit "1.0.0" }
    AvailabilityTopic := c.topicPrefix ++ lit "/sensor/" ++ c.nodeID ++ lit "/availability"
    PayloadAvailable := lit "online"
    PayloadNotAvailable := lit "offline" }

/-- The retained discovery publish the specification describes for a sensor. -/
def specDiscoveryOp (c : Client) (sensorID name : GoString) : BusOp :=
  .publish (c.topicPrefix ++ lit "/sensor/" ++ c.nodeID ++ lit "/" ++ sensorID ++ lit "/config")
    0 true (encodeDiscovery (specRecord c sensorID name))

/-- The three discovery publishes the specification describes, in order. -/
def specDiscoveryOps (c : Client) : List BusOp :=
  [specDiscoveryOp c (lit "corename") (lit "MiSTer FPGA MiSTer Core Name"),
   specDiscoveryOp c (lit "activegame") (lit "MiSTer FPGA MiSTer Active Game"),
   specDiscoveryOp c (lit "rbfname") (lit "MiSTer FPGA MiSTer RBF Name")]

/-- The transport answers the `k`-th discovery publish, after the ones before
it, without an error. -/
def discoveryPublishOk (c : Client) (w : Effects) (k : Nat) : Prop :=
  (c.client (w.ops ++ (specDiscoveryOps c).take k)
    ((specDiscoveryOps c).getD k .connect)).Error = none

/-- Whether the transport answers a discovery publish without an error can be
computed. -/
instance (c : Client) (w : Effects) (k : Nat) : Decidable (discoveryPublishOk c w k) := by
  unfold discoveryPublishOk; infer_instance

/-- A transport that fails the second call made to it and no other. -/
def failSecond : Transport :=
  fun history _ => if history.length = 1 then ⟨some (lit "timeout")⟩ else ⟨none⟩

/-- The retained availability publish with the given payload. -/
def availabilityOp (c : Client) (payload : GoString) : BusOp :=
  .publish (c.topicPrefix ++ lit "/sensor/" ++ c.nodeID ++ lit "/availability") 0 true payload

/-- A state publish: a publish to a topic that ends in `/state`. -/
def BusOp.isStatePublish : BusOp → Bool
  | .publish topic _ _ _ => (lit "/state").isSuffixOf topic
  | _ => false

/-- A discovery publish: a publish to a topic that ends in `/config`. -/
def BusOp.isDiscoveryPublish : BusOp → Bool
  | .publish topic _ _ _ => (lit "/config").isSuffixOf topic
  | _ => false

/-- An operating system where every file reads as `MiSTer` and a line feed and
every other call succeeds. -/
def quietOS : OS Unit :=
  { ReadFile := fun _ e => (.ok (lit "MiSTer\n"), e)
    StatIsNotExist := fun _ e => (false, e)
    WriteFile := fun _ _ _ e => (none, e)
    NewWatcher := fun e => (none, e)
    WatcherAdd := fun _ e => (none, e)
    WatcherClose := fun e => (none, e) }

/-- The default values of the flags of `main.go`. -/
def defaultFlags : Flags :=
  { brokerAddr := lit "localhost:1883", clientID := lit "mister-mqtt", username := [],
    password := [], topicPrefix := lit "homeassistant" }

/-! ## Notions used in the statements and proofs: JSON

How `DecodeRune` answers, what a string becomes on its way through `Marshal` and
`Unmarshal`, and the JSON values the encodings are read back as. -/

/-- The ways `DecodeRune` answers on a non-empty string. -/
inductive Decoded (s0 : Byte) (t : GoString) : Nat × Nat → Prop where
  | ascii : s0.val < 0x80 → Decoded s0 t (s0.val, 1)
  | invalid : 0x80 ≤ s0.val → Decoded s0 t (RuneError, 1)
  | two (s1 : Byte) (t1 : GoString) : t = s1 :: t1 → 0xC2 ≤ s0.val → s0.val ≤ 0xDF →
      0x80 ≤ s1.val → s1.val ≤ 0xBF → Decoded s0 t (s0.val % 32 * 64 + s1.val % 64, 2)
  | three (s1 s2 : Byte) (t2 : GoString) : t = s1 :: s2 :: t2 → 0xE0 ≤ s0.val → s0.val ≤ 0xEF →
      (if s0.val = 0xE0 then 0xA0 else 0x80) ≤ s1.val →
      s1.val ≤ (if s0.val = 0xED then 0x9F else 0xBF) →
      0x80 ≤ s2.val → s2.val ≤ 0xBF →
      Decoded s0 t (s0.val % 16 * 4096 + s1.val % 64 * 64 + s2.val % 64, 3)
  | four (s1 s2 s3 : Byte) (t3 : GoString) : t = s1 :: s2 :: s3 :: t3 → 0xF0 ≤ s0.val →
      s0.val ≤ 0xF4 →
      (if s0.val = 0xF0 then 0x90 else 0x80) ≤ s1.val →
      s1.val ≤ (if s0.val = 0xF4 then 0x8F else 0xBF) →
      0x80 ≤ s2.val → s2.val ≤ 0xBF → 0x80 ≤ s3.val → s3.val ≤ 0xBF →
      Decoded s0 t
        (s0.val % 8 * 262144 + s1.val % 64 * 4096 + s2.val % 64 * 64 + s3.val % 64, 4)

/-- The string as `Unmarshal` gives it back after `Marshal`. -/
def coerce (s : GoString) : GoString := coerceUTF8 s.length s

/-- The JSON value an encoded `[]string` is read back as. -/
def stringsJSON : Option (List GoString) → JSON
  | none => .null
  | some xs => .array (xs.map (fun s => JSON.string (coerce s)))

/-- The value read after a colon agrees with the encoder: reading `enc` in front
of any continuation gives `v` and leaves the continuation. -/
def ReadsAs (value : GoString → Option (JSON × GoString)) (enc : GoString) (v : JSON) : Prop :=
  ∀ t, value (enc ++ t) = some (v, t)

/-- The JSON object an encoded `Device` is read back as. -/
def deviceJSON (d : Device) : JSON :=
  .object [(coerce (lit "identifiers"), stringsJSON d.Identifiers),
    (coerce (lit "name"), .string (coerce d.Name)),
    (coerce (lit "model"), .string (coerce d.Model)),
    (coerce (lit "manufacturer"), .string (coerce d.Manufacturer)),
    (coerce (lit "sw_version"), .string (coerce d.SWVersion))]

/-- The JSON object an encoded `HomeAssistantDiscovery` is read back as. -/
def discoveryJSON (d : HomeAssistantDiscovery) : JSON :=
  .object [(coerce (lit "name"), .string (coerce d.Name)),
    (coerce (lit "state_topic"), .string (coerce d.StateTopic)),
    (coerce (lit "unique_id"), .string (coerce d.UniqueID)),
    (coerce (lit "device"), deviceJSON d.Device),
    (coerce (lit "availability_topic"), .string (coerce d.AvailabilityTopic)),
    (coerce (lit "payload_available"), .string (coerce d.PayloadAvailable)),
    (coerce (lit "payload_not_available"), .string (coerce d.PayloadNotAvailable))]

/-- The device `Unmarshal` gives back after `Marshal`: every string coerced to
valid UTF-8. -/
def coerceDevice (d : Device) : Device :=
  { Identifiers := d.Identifiers.map (fun xs => xs.map coerce)
    Name := coerce d.Name
    Model := coerce d.Model
    Manufacturer := coerce d.Manufacturer
    SWVersion := coerce d.SWVersion }

/-- The record `Unmarshal` gives back after `Marshal`: every string coerced to
valid UTF-8. -/
def coerceDiscovery (d : HomeAssistantDiscovery) : HomeAssistantDiscovery :=
  { Name := coerce d.Name
    StateTopic := coerce d.StateTopic
    UniqueID := coerce d.UniqueID
    Device := coerceDevice d.Device
    AvailabilityTopic := coerce d.AvailabilityTopic
    PayloadAvailable := coerce d.PayloadAvailable
    PayloadNotAvailable := coerce d.PayloadNotAvailable }

/-- Every string of the record is valid UTF-8 (`utf8.ValidString`). -/
def HomeAssistantDiscovery.validUTF8 (d : HomeAssistantDiscovery) : Bool :=
  ValidString d.Name && ValidString d.StateTopic && ValidString d.UniqueID
    && (d.Device.Identifiers.getD []).all ValidString
    && ValidString d.Device.Name && ValidString d.Device.Model
    && ValidString d.Device.Manufacturer && ValidString d.Device.SWVersion
    && ValidString d.AvailabilityTopic && ValidString d.PayloadAvailable
    && ValidString d.PayloadNotAvailable

/-- Encoding then decoding, as `TestHomeAssistantDiscoveryJSON` does it:
`json.Marshal(discovery)`, then `json.Unmarshal` of the bytes into `target`. -/
def roundTrip (d target : HomeAssistantDiscovery) : Except GoString HomeAssistantDiscovery :=
  match Marshal d with
  | .error err => .error err
  | .ok jsonData => Unmarshal jsonData target

/-- The record of `TestHomeAssistantDiscoveryJSON` (client_test.go:46-62). -/
def testDiscovery : HomeAssistantDiscovery :=
  { Name := lit "MiSTer FPGA Core Name"
    StateTopic := lit "homeassistant/sensor/test-node/corename/state"
    UniqueID := lit "test-node_corename"
    Device :=
      { Identifiers := some [lit "test-node"]
        Name := lit "MiSTer FPGA"
        Model := lit "MiSTer"
        Manufacturer := lit "MiSTer Project"
        SWVersion := lit "1.0.0" }
    AvailabilityTopic := lit "homeassistant/sensor/test-node/availability"
    PayloadAvailable := lit "online"
    PayloadNotAvailable := lit "offline" }

/-- The test record with a name that is not valid UTF-8: the single byte FF. -/
def invalidNameDiscovery : HomeAssistantDiscovery :=
  { testDiscovery with Name := [0xFF] }

/-! ## Notions used in the statements: the watcher -/

/-- The results of reading the given paths one after the other. -/
def readEach {ε : Type} (os : OS ε) :
    List GoString → ε → List (GoString × Except GoString GoString) × ε
  | [], e => ([], e)
  | path :: rest, e =>
    let (r, e) := os.ReadFile path e
    let (rs, e) := readEach os rest e
    ((path, r) :: rs, e)

/-- The callback invocation the specification asks for after a read: the base
name and the content when the read succeeded, none when it failed. -/
def callAfterRead : GoString × Except GoString GoString → Option (GoString × GoString)
  | (path, .ok content) => some (Base path, content)
  | (_, .error _) => none

/-- The receives that reach the loop: those before the first closed channel. -/
def delivered : List Recv → List Recv
  | [] => []
  | .eventsClosed :: _ => []
  | .errorsClosed :: _ => []
  | r :: rest => r :: delivered rest

/-- The path of a notification that is a create or a write. -/
def createOrWritePath : Recv → Option GoString
  | .event e => if e.Has Write || e.Has Create then some e.Name else none
  | _ => none

/-! ## Notions used in the statements: the timeline of the callback -/

/-- The invocation that begins at a moment, if one does. -/
def Moment.call : Moment → Option (GoString × GoString)
  | .enter _ filename content => some (filename, content)
  | .leave _ => none

/-- The part of a timeline that belongs to one goroutine. -/
def onGoroutine (g : Goroutine) (timeline : List Moment) : List Moment :=
  timeline.filter (fun m => m.goroutine = g)

/-- Scanning a timeline, one moment: whether an invocation is running after
it; `none` once an invocation has begun while another was running, or a return
has come with no invocation running. -/
def scanMoment : Option Bool → Moment → Option Bool
  | some false, .enter _ _ _ => some true
  | some true, .leave _ => some false
  | _, _ => none

/-- No two invocations of a timeline overlap: each one returns before the next
begins. -/
def noOverlap (timeline : List Moment) : Bool :=
  (timeline.foldl scanMoment (some false)).isSome

/-- Every moment of the goroutine of `Start` comes before every moment of the
goroutine of `watch`. -/
def snapshotFirst (timeline : List Moment) : Bool :=
  (timeline.dropWhile (fun m => m.goroutine = .start)).all (fun m => m.goroutine = .watch)

/-- The timeline of one goroutine making the given invocations one after the
other, each returning before the next begins. -/
def callMoments (g : Goroutine) : List (GoString × GoString) → List Moment
  | [] => []
  | (filename, content) :: rest => .enter g filename content :: .leave g :: callMoments g rest

/-- A write notification for the file `CORENAME`. -/
def coreNameWritten : Recv := .event { Name := CoreNameFile, Op := Write }

/-- The watcher `NewFileWatcher` returns: the three status files. -/
def statusWatcher : FileWatcher :=
  { files := [CoreNameFile, ActiveGameFile, RBFNameFile] }

/-! ## Notions used in the statements: the runs of the process -/

/-- Past the `offline` publish of the deferred `Disconnect`. -/
def MainPc.offlineDone : MainPc → Bool
  | .offlineFailed _ => true
  | .close => true
  | .returning => true
  | .exited => true
  | _ => false

/-- Past the transport disconnect of the deferred `Disconnect`. -/
def MainPc.disconnected : MainPc → Bool
  | .returning => true
  | .exited => true
  | _ => false

/-- The availability sequencing of the transport calls of a connected client:
they begin with the handshake and the retained `online` publish, and before
every transport disconnect stands the retained `offline` publish. -/
def Sequenced (c : Client) (ops : List BusOp) : Prop :=
  (∃ rest, ops = .connect :: availabilityOp c (lit "online") :: rest)
    ∧ ∀ (pre post : List BusOp) (quiesce : Nat),
        ops = pre ++ .disconnect quiesce :: post → availabilityOp c (lit "offline") ∈ pre

/-- What holds of the process at every step of every run: its transport calls
are sequenced, and they hold the `offline` publish and the transport disconnect
once `main` is past them. -/
def Proc.Sequenced {ε : Type} (c : Client) (p : Proc ε) : Prop :=
  MisterMqtt.Sequenced c p.world.eff.ops
    ∧ (p.mainPc.offlineDone = true → availabilityOp c (lit "offline") ∈ p.world.eff.ops)
    ∧ (p.mainPc.disconnected = true → BusOp.disconnect 250 ∈ p.world.eff.ops)

/-- A write notification for the file `ACTIVEGAME`. -/
def activeGameWritten : Recv := .event { Name := ActiveGameFile, Op := Write }

/-- A schedule of the two goroutines that interleaves them. The goroutine of
`watch` handles a first notification up to its publish (three steps) before
`main` reads its first file; `main` publishes its first state while that
invocation has not returned; `main` then goes on to the `offline` publish of
`Disconnect`; the goroutine of `watch` handles a second notification up to its
publish; `main` disconnects the transport and returns. -/
def quietSchedule : List Goroutine :=
  [.watch, .watch, .watch, .start, .start, .watch] ++ List.replicate 12 .start
    ++ [.watch, .watch, .watch, .start, .watch, .start]

/-- The transport calls of the run of `main` with the default flags on `quietOS`,
a transport that never fails, write notifications for `CORENAME` and
`ACTIVEGAME`, and the schedule `quietSchedule`. -/
def quietRun : List BusOp :=
  (main quietOS (fun _ _ => ⟨none⟩) defaultFlags [coreNameWritten, activeGameWritten]
    quietSchedule ()).1.eff.ops

/-! ## C1 to C3: the callback of `main` and `PublishState` -/

/-- C1. For every content string `C` and each of the three file names, the
callback built in `main` makes exactly one `PublishState` call: sensor
`corename` for `CORENAME`, `activegame` for `ACTIVEGAME`, `rbfname` for
`RBFNAME`, and the value is `C` with the surrounding white space trimmed. First
with a recording `PublishState` (whatever the calls return): one call is
recorded, with these arguments. Then with the client of `main`: what the
callback does is what this one call does, followed by a log line when the call
fails. -/
theorem onChange_routes (C : GoString) :
    (∀ (answer : Spy → GoString → GoString → Option GoString) (s : Spy),
      (onChange (Spy.PublishState answer) Spy.logPrintf (lit "CORENAME") C s).calls
          = s.calls ++ [(lit "corename", TrimSpace C)]
        ∧ (onChange (Spy.PublishState answer) Spy.logPrintf (lit "ACTIVEGAME") C s).calls
          = s.calls ++ [(lit "activegame", TrimSpace C)]
        ∧ (onChange (Spy.PublishState answer) Spy.logPrintf (lit "RBFNAME") C s).calls
          = s.calls ++ [(lit "rbfname", TrimSpace C)])
      ∧ ∀ (mqttClient : Client) (w : Effects),
        mainOnChange mqttClient (lit "CORENAME") C w
            = afterPublish (lit "corename")
                (mqttClient.PublishState (lit "corename") (TrimSpace C) w)
          ∧ mainOnChange mqttClient (lit "ACTIVEGAME") C w
            = afterPublish (lit "activegame")
                (mqttClient.PublishState (lit "activegame") (TrimSpace C) w)
          ∧ mainOnChange mqttClient (lit "RBFNAME") C w
            = afterPublish (lit "rbfname")
                (mqttClient.PublishState (lit "rbfname") (TrimSpace C) w) := by
  have h1 : lit "ACTIVEGAME" ≠ lit "CORENAME" := by decide
  have h2 : lit "RBFNAME" ≠ lit "CORENAME" := by decide
  have h3 : lit "RBFNAME" ≠ lit "ACTIVEGAME" := by decide
  constructor
  · intro answer s
    refine ⟨?_, ?_, ?_⟩
    · simp only [onChange, Spy.PublishState, if_true]
      cases answer s (lit "corename") (TrimSpace C) <;> rfl
    · simp only [onChange, Spy.PublishState, if_true, if_neg h1]
      cases answer s (lit "activegame") (TrimSpace C) <;> rfl
    · simp only [onChange, Spy.PublishState, if_true, if_neg h2, if_neg h3]
      cases answer s (lit "rbfname") (TrimSpace C) <;> rfl
  · intro mqttClient w
    refine ⟨?_, ?_, ?_⟩
    · simp only [mainOnChange, onChange, if_true, afterPublish]
      rcases mqttClient.PublishState (lit "corename") (TrimSpace C) w with ⟨_ | err, w1⟩ <;> rfl
    · simp only [mainOnChange, onChange, if_true, if_neg h1, afterPublish]
      rcases mqttClient.PublishState (lit "activegame") (TrimSpace C) w with ⟨_ | err, w1⟩ <;> rfl
    · simp only [mainOnChange, onChange, if_true, if_neg h2, if_neg h3, afterPublish]
      rcases mqttClient.PublishState (lit "rbfname") (TrimSpace C) w with ⟨_ | err, w1⟩ <;> rfl

/-- C2. `PublishState` issues exactly one publish, to the topic prefix +
`/sensor/` + node + `/` + sensor + `/state`, not retained, with the value
unchanged as payload, and it returns an error exactly when the transport reports
one for that publish. In particular a `CORENAME` event with content
`SuperFamicom` followed by a line feed, under the prefix `homeassistant`, is
published to `homeassistant/sensor/<node>/corename/state` with payload
`SuperFamicom`. -/
theorem PublishState_publishes :
    (∀ (c : Client) (sensorID state : GoString) (w : Effects),
      (c.PublishState sensorID state w).2.ops
          = w.ops ++ [BusOp.publish (c.topicPrefix ++ lit "/sensor/" ++ c.nodeID ++ lit "/"
              ++ sensorID ++ lit "/state") 0 false state]
        ∧ (c.PublishState sensorID state w).1.isSome
          = (c.client w.ops (BusOp.publish (c.topicPrefix ++ lit "/sensor/" ++ c.nodeID
              ++ lit "/" ++ sensorID ++ lit "/state") 0 false state)).Error.isSome)
      ∧ ∀ (transport : Transport) (node : GoString) (w : Effects),
          (mainOnChange ⟨transport, lit "homeassistant", node⟩ (lit "CORENAME")
              (lit "SuperFamicom\n") w).ops
            = w.ops ++ [BusOp.publish (lit "homeassistant/sensor/" ++ node
                ++ lit "/corename/state") 0 false (lit "SuperFamicom")] := by
  constructor
  · intro c sensorID state w
    simp only [Client.PublishState, Client.transportPublish, Token.Wait, Bool.true_and]
    cases (c.client w.ops _).Error <;> simp [Effects.logPrintf]
  · intro transport node w
    have ht : TrimSpace (lit "SuperFamicom\n") = lit "SuperFamicom" := by decide
    have hl : lit "homeassistant" ++ lit "/sensor/" ++ node ++ lit "/" ++ lit "corename"
        ++ lit "/state" = lit "homeassistant/sensor/" ++ node ++ lit "/corename/state" := by
      have a : lit "homeassistant" ++ lit "/sensor/" = lit "homeassistant/sensor/" := by decide
      have b : lit "/" ++ lit "corename" ++ lit "/state" = lit "/corename/state" := by decide
      rw [a, ← b]; simp only [List.append_assoc]
    simp only [mainOnChange, onChange, if_true, ht, Client.PublishState, Client.transportPublish,
      Token.Wait, Bool.true_and, hl]
    cases (transport w.ops _).Error <;> simp [Effects.logPrintf]

/-- C3. For every file name other than `CORENAME`, `ACTIVEGAME` and `RBFNAME`
(compared byte for byte) and every content, the callback makes no `PublishState`
call and logs exactly one line, the warning naming the file: with a recording
`PublishState` nothing is recorded, and with the client of `main` no transport
call is made. -/
theorem onChange_unknown (filename content : GoString)
    (h1 : filename ≠ lit "CORENAME") (h2 : filename ≠ lit "ACTIVEGAME")
    (h3 : filename ≠ lit "RBFNAME") :
    (∀ (answer : Spy → GoString → GoString → Option GoString) (s : Spy),
      (onChange (Spy.PublishState answer) Spy.logPrintf filename content s).calls = s.calls
        ∧ (onChange (Spy.PublishState answer) Spy.logPrintf filename content s).log
            = s.log ++ [lit "Unknown file: " ++ filename])
      ∧ ∀ (mqttClient : Client) (w : Effects),
          mainOnChange mqttClient filename content w
            = { ops := w.ops, log := w.log ++ [lit "Unknown file: " ++ filename] } := by
  constructor
  · intro answer s
    simp only [onChange, if_neg h1, if_neg h2, if_neg h3, Spy.logPrintf, and_self]
  · intro mqttClient w
    simp only [mainOnChange, onChange, if_neg h1, if_neg h2, if_neg h3, Effects.logPrintf]

/-- C3 at the lower-case name `corename`, which is not one of the three names.
-/
theorem onChange_unknown_witness :
    lit "corename" ≠ lit "CORENAME" ∧ lit "corename" ≠ lit "ACTIVEGAME"
      ∧ lit "corename" ≠ lit "RBFNAME"
      ∧ (onChange (Spy.PublishState (fun _ _ _ => none)) Spy.logPrintf (lit "corename")
            (lit "Genesis\n") ⟨[], []⟩).calls = []
      ∧ (onChange (Spy.PublishState (fun _ _ _ => none)) Spy.logPrintf (lit "corename")
            (lit "Genesis\n") ⟨[], []⟩).log = [] ++ [lit "Unknown file: " ++ lit "corename"] :=
  ⟨by decide, by decide, by decide,
    (onChange_unknown (lit "corename") (lit "Genesis\n") (by decide) (by decide)
      (by decide)).1 (fun _ _ _ => none) ⟨[], []⟩⟩

/-! ## C4 to C6: `PublishDiscovery` and `Connect` -/

/-- The records built in the loop of `PublishDiscovery` are the specified ones.
-/
theorem discoveryRecord_eq (c : Client) :
    discoveryRecord c (discoveryDevice c) ⟨lit "corename", lit "MiSTer Core Name"⟩
        = specRecord c (lit "corename") (lit "MiSTer FPGA MiSTer Core Name")
      ∧ discoveryRecord c (discoveryDevice c) ⟨lit "activegame", lit "MiSTer Active Game"⟩
        = specRecord c (lit "activegame") (lit "MiSTer FPGA MiSTer Active Game")
      ∧ discoveryRecord c (discoveryDevice c) ⟨lit "rbfname", lit "MiSTer RBF Name"⟩
        = specRecord c (lit "rbfname") (lit "MiSTer FPGA MiSTer RBF Name") := by
  have h1 : lit "MiSTer FPGA" ++ lit " " ++ lit "MiSTer Core Name"
      = lit "MiSTer FPGA MiSTer Core Name" := by decide
  have h2 : lit "MiSTer FPGA" ++ lit " " ++ lit "MiSTer Active Game"
      = lit "MiSTer FPGA MiSTer Active Game" := by decide
  have h3 : lit "MiSTer FPGA" ++ lit " " ++ lit "MiSTer RBF Name"
      = lit "MiSTer FPGA MiSTer RBF Name" := by decide
  simp only [discoveryRecord, discoveryDevice, specRecord, h1, h2, h3, and_self]

/-- One turn of the discovery loop. -/
theorem publishDiscoveryLoop_cons (c : Client) (device : Device) (sensor : Sensor)
    (rest : List Sensor) (w : Effects) :
    c.publishDiscoveryLoop device (sensor :: rest) w
      = match (c.client w.ops (.publish (c.topicPrefix ++ lit "/sensor/" ++ c.nodeID ++ lit "/"
            ++ sensor.ID ++ lit "/config") 0 true
            (encodeDiscovery (discoveryRecord c device sensor)))).Error with
        | some err =>
          (some (lit "failed to publish discovery for " ++ sensor.ID ++ lit ": " ++ err),
            { w with ops := w.ops ++ [.publish (c.topicPrefix ++ lit "/sensor/" ++ c.nodeID
                ++ lit "/" ++ sensor.ID ++ lit "/config") 0 true
                (encodeDiscovery (discoveryRecord c device sensor))] })
        | none =>
          c.publishDiscoveryLoop device rest
            { ops := w.ops ++ [.publish (c.topicPrefix ++ lit "/sensor/" ++ c.nodeID
                ++ lit "/" ++ sensor.ID ++ lit "/config") 0 true
                (encodeDiscovery (discoveryRecord c device sensor))],
              log := w.log ++ [lit "Published discovery for " ++ sensor.Name] } := by
  simp only [Client.publishDiscoveryLoop, Marshal, Client.transportPublish, Token.Wait,
    Bool.true_and, Effects.logPrintf]
  cases (c.client w.ops _).Error <;> simp

/-- The three turns of `PublishDiscovery`, over the specified publishes. -/
theorem PublishDiscovery_unfold (c : Client) (w : Effects) :
    c.PublishDiscovery w
      = match (c.client w.ops ((specDiscoveryOps c).getD 0 .connect)).Error with
        | some err =>
          (some (lit "failed to publish discovery for " ++ lit "corename" ++ lit ": " ++ err),
            { w with ops := w.ops ++ (specDiscoveryOps c).take 1 })
        | none =>
          match (c.client (w.ops ++ (specDiscoveryOps c).take 1)
              ((specDiscoveryOps c).getD 1 .connect)).Error with
          | some err =>
            (some (lit "failed to publish discovery for " ++ lit "activegame" ++ lit ": " ++ err),
              { ops := w.ops ++ (specDiscoveryOps c).take 2,
                log := w.log ++ [lit "Published discovery for " ++ lit "MiSTer Core Name"] })
          | none =>
            match (c.client (w.ops ++ (specDiscoveryOps c).take 2)
                ((specDiscoveryOps c).getD 2 .connect)).Error with
            | some err =>
              (some (lit "failed to publish discovery for " ++ lit "rbfname" ++ lit ": " ++ err),
                { ops := w.ops ++ (specDiscoveryOps c).take 3,
                  log := w.log ++ [lit "Published discovery for " ++ lit "MiSTer Core Name",
                    lit "Published discovery for " ++ lit "MiSTer Active Game"] })
            | none =>
              (none,
                { ops := w.ops ++ specDiscoveryOps c,
                  log := w.log ++ [lit "Published discovery for " ++ lit "MiSTer Core Name",
                    lit "Published discovery for " ++ lit "MiSTer Active Game",
                    lit "Published discovery for " ++ lit "MiSTer RBF Name"] }) := by
  obtain ⟨r1, r2, r3⟩ := discoveryRecord_eq c
  have hnil : ∀ w', c.publishDiscoveryLoop (discoveryDevice c) [] w' = (none, w') := fun _ => rfl
  simp only [Client.PublishDiscovery, sensors, publishDiscoveryLoop_cons, r1, r2, r3, hnil,
    specDiscoveryOps, specDiscoveryOp, List.getD_cons_zero, List.getD_cons_succ, List.take,
    List.append_assoc, List.singleton_append, List.cons_append, List.nil_append]

/-- C4. When each of the three publishes succeeds, `PublishDiscovery` returns no
error and issues exactly the three specified publishes, in the order corename,
activegame, rbfname: each retained, to prefix/sensor/node/<sensor>/config, with
the JSON encoding of the specified record as payload (name, state topic, unique
id node_sensor, the shared device with identifiers = [node], the availability
topic, and the tokens `online` and `offline`); the state topic of the record is
the topic `PublishState` publishes to. -/
theorem PublishDiscovery_all_succeed (c : Client) (w : Effects)
    (h : ∀ k, k < 3 → discoveryPublishOk c w k) :
    (c.PublishDiscovery w).1 = none
      ∧ (c.PublishDiscovery w).2.ops = w.ops ++ specDiscoveryOps c
      ∧ ∀ (sensorID name state : GoString) (w1 : Effects),
          (c.PublishState sensorID state w1).2.ops
            = w1.ops ++ [.publish (specRecord c sensorID name).StateTopic 0 false state] := by
  have h0 := h 0 (by decide)
  have h1 := h 1 (by decide)
  have h2 := h 2 (by decide)
  simp only [discoveryPublishOk, List.take_zero, List.append_nil] at h0 h1 h2
  refine ⟨?_, ?_, ?_⟩
  · rw [PublishDiscovery_unfold]; simp only [h0, h1, h2]
  · rw [PublishDiscovery_unfold]; simp only [h0, h1, h2]
  · intro sensorID name state w1
    simp only [Client.PublishState, Client.transportPublish, Token.Wait, Bool.true_and,
      specRecord]
    cases (c.client w1.ops _).Error <;> simp [Effects.logPrintf]

/-- C4 with a transport that never fails. -/
theorem PublishDiscovery_all_succeed_witness :
    (∀ k, k < 3 → discoveryPublishOk ⟨fun _ _ => ⟨none⟩, lit "homeassistant", lit "mister"⟩
        ⟨[], []⟩ k)
      ∧ ((⟨fun _ _ => ⟨none⟩, lit "homeassistant", lit "mister"⟩ : Client).PublishDiscovery
          ⟨[], []⟩).1 = none
      ∧ ((⟨fun _ _ => ⟨none⟩, lit "homeassistant", lit "mister"⟩ : Client).PublishDiscovery
          ⟨[], []⟩).2.ops
        = [] ++ specDiscoveryOps ⟨fun _ _ => ⟨none⟩, lit "homeassistant", lit "mister"⟩ :=
  ⟨fun _ _ => rfl,
    (PublishDiscovery_all_succeed ⟨fun _ _ => ⟨none⟩, lit "homeassistant", lit "mister"⟩ ⟨[], []⟩
      (fun _ _ => rfl)).1,
    (PublishDiscovery_all_succeed ⟨fun _ _ => ⟨none⟩, lit "homeassistant", lit "mister"⟩ ⟨[], []⟩
      (fun _ _ => rfl)).2.1⟩

/-- C5. If the publish for sensor number `k + 1` is the first to fail,
`PublishDiscovery` returns an error and has attempted exactly the first `k + 1`
publishes, none for a later sensor; and it returns no error only if all three
publishes succeeded. -/
theorem PublishDiscovery_first_failure (c : Client) (w : Effects) :
    (∀ k, k < 3 → (∀ j, j < k → discoveryPublishOk c w j) → ¬ discoveryPublishOk c w k →
        (c.PublishDiscovery w).1.isSome = true
          ∧ (c.PublishDiscovery w).2.ops = w.ops ++ (specDiscoveryOps c).take (k + 1))
      ∧ ((c.PublishDiscovery w).1 = none → ∀ k, k < 3 → discoveryPublishOk c w k) := by
  constructor
  · intro k hk hok hfail
    have hk3 : k = 0 ∨ k = 1 ∨ k = 2 := by omega
    rcases hk3 with rfl | rfl | rfl
    · simp only [discoveryPublishOk, List.take_zero, List.append_nil] at hfail
      rw [PublishDiscovery_unfold]
      cases h0 : (c.client w.ops ((specDiscoveryOps c).getD 0 .connect)).Error with
      | none => exact absurd h0 hfail
      | some err => simp
    · have h0 := hok 0 (by decide)
      simp only [discoveryPublishOk, List.take_zero, List.append_nil] at h0 hfail
      rw [PublishDiscovery_unfold]
      simp only [h0]
      cases h1 : (c.client (w.ops ++ (specDiscoveryOps c).take 1)
          ((specDiscoveryOps c).getD 1 .connect)).Error with
      | none => exact absurd h1 hfail
      | some err => simp
    · have h0 := hok 0 (by decide)
      have h1 := hok 1 (by decide)
      simp only [discoveryPublishOk, List.take_zero, List.append_nil] at h0 h1 hfail
      rw [PublishDiscovery_unfold]
      simp only [h0, h1]
      cases h2 : (c.client (w.ops ++ (specDiscoveryOps c).take 2)
          ((specDiscoveryOps c).getD 2 .connect)).Error with
      | none => exact absurd h2 hfail
      | some err => simp
  · intro hnone k hk
    rw [PublishDiscovery_unfold] at hnone
    have hk3 : k = 0 ∨ k = 1 ∨ k = 2 := by omega
    cases h0 : (c.client w.ops ((specDiscoveryOps c).getD 0 .connect)).Error with
    | some err => simp only [h0, reduceCtorEq] at hnone
    | none =>
      simp only [h0] at hnone
      cases h1 : (c.client (w.ops ++ (specDiscoveryOps c).take 1)
          ((specDiscoveryOps c).getD 1 .connect)).Error with
      | some err => simp only [h1, reduceCtorEq] at hnone
      | none =>
        simp only [h1] at hnone
        cases h2 : (c.client (w.ops ++ (specDiscoveryOps c).take 2)
            ((specDiscoveryOps c).getD 2 .connect)).Error with
        | some err => simp only [h2, reduceCtorEq] at hnone
        | none =>
          rcases hk3 with rfl | rfl | rfl
          · simpa [discoveryPublishOk] using h0
          · exact h1
          · exact h2

/-- C5 with a transport that fails the second publish. -/
theorem PublishDiscovery_first_failure_witness :
    (1 < 3) ∧ (∀ j, j < 1 → discoveryPublishOk ⟨failSecond, lit "ha", lit "n"⟩ ⟨[], []⟩ j)
      ∧ ¬ discoveryPublishOk ⟨failSecond, lit "ha", lit "n"⟩ ⟨[], []⟩ 1
      ∧ ((⟨failSecond, lit "ha", lit "n"⟩ : Client).PublishDiscovery ⟨[], []⟩).1.isSome = true
      ∧ ((⟨failSecond, lit "ha", lit "n"⟩ : Client).PublishDiscovery ⟨[], []⟩).2.ops
          = [] ++ (specDiscoveryOps ⟨failSecond, lit "ha", lit "n"⟩).take (1 + 1) :=
  have hok : ∀ j, j < 1 → discoveryPublishOk ⟨failSecond, lit "ha", lit "n"⟩ ⟨[], []⟩ j := by
    intro j hj
    have : j = 0 := by omega
    subst this
    rfl
  have hfail : ¬ discoveryPublishOk ⟨failSecond, lit "ha", lit "n"⟩ ⟨[], []⟩ 1 := by
    simp [discoveryPublishOk, failSecond, specDiscoveryOps]
  ⟨by decide, hok, hfail,
    (PublishDiscovery_first_failure ⟨failSecond, lit "ha", lit "n"⟩ ⟨[], []⟩).1 1 (by decide)
      hok hfail⟩

/-- C6. `Connect` returns an error exactly when the handshake fails, and then it
issues no publish; when the handshake succeeds it issues exactly one publish,
retained, of `online` to prefix/sensor/node/availability, and returns no error
whatever that publish reports. -/
theorem Connect_spec (c : Client) (w : Effects) :
    (c.Connect w).1.isSome = (c.client w.ops .connect).Error.isSome
      ∧ (c.Connect w).2.ops
          = w.ops ++ (if (c.client w.ops .connect).Error.isSome then [BusOp.connect]
              else [BusOp.connect, .publish (c.topicPrefix ++ lit "/sensor/" ++ c.nodeID
                ++ lit "/availability") 0 true (lit "online")]) := by
  simp only [Client.Connect, Client.transportConnect, Client.transportPublish, Token.Wait,
    Bool.true_and, availabilityTopic]
  cases (c.client w.ops .connect).Error
  · simp only [Option.isSome_none, Bool.false_eq_true, if_false, true_and]
    cases (c.client (w.ops ++ [BusOp.connect]) _).Error <;> simp [Effects.logPrintf]
  · simp

/-! ## C7: availability sequencing -/

/-- A call of `PublishState` only adds transport calls, none of them a transport
disconnect. -/
theorem PublishState_ops (c : Client) (sensorID state : GoString) (w : Effects) :
    ∃ rest, (c.PublishState sensorID state w).2.ops = w.ops ++ rest
      ∧ ∀ q, BusOp.disconnect q ∉ rest := by
  refine ⟨[.publish (c.topicPrefix ++ lit "/sensor/" ++ c.nodeID ++ lit "/" ++ sensorID
    ++ lit "/state") 0 false state], ?_, by simp⟩
  simp only [Client.PublishState, Client.transportPublish, Token.Wait, Bool.true_and]
  cases (c.client w.ops _).Error <;> simp [Effects.logPrintf]

/-- A call of the closure of `main` only adds transport calls, none of them a
transport disconnect. -/
theorem mainOnChange_ops (c : Client) (filename content : GoString) (w : Effects) :
    ∃ rest, (mainOnChange c filename content w).ops = w.ops ++ rest
      ∧ ∀ q, BusOp.disconnect q ∉ rest := by
  unfold mainOnChange onChange
  simp only []
  split
  · exact ⟨[], by simp [Effects.logPrintf]⟩
  · rename_i sid _
    obtain ⟨rest, h, hd⟩ := PublishState_ops c sid (TrimSpace content) w
    rcases hp : c.PublishState sid (TrimSpace content) w with ⟨_ | err, w1⟩
    · rw [hp] at h; exact ⟨rest, h, hd⟩
    · rw [hp] at h; exact ⟨rest, by simpa [Effects.logPrintf] using h, hd⟩

/-- Acting on the watcher only adds transport calls, none of them a transport
disconnect. -/
theorem runActs_ops (c : Client) (acts : List Act) (w : Effects) :
    ∃ rest, (runActs c acts w).ops = w.ops ++ rest ∧ ∀ q, BusOp.disconnect q ∉ rest := by
  induction acts generalizing w with
  | nil => exact ⟨[], by simp [runActs]⟩
  | cons a tail ih =>
    cases a with
    | onChange filename content =>
      obtain ⟨r1, h1, d1⟩ := mainOnChange_ops c filename content w
      obtain ⟨r2, h2, d2⟩ := ih (mainOnChange c filename content w)
      exact ⟨r1 ++ r2, by simp only [runActs, h2, h1, List.append_assoc],
        fun q hq => (List.mem_append.mp hq).elim (d1 q) (d2 q)⟩
    | log line =>
      obtain ⟨r2, h2, d2⟩ := ih (w.logPrintf line)
      exact ⟨r2, h2, d2⟩

/-- A call of `PublishDiscovery` only adds transport calls, none of them a
transport disconnect. -/
theorem PublishDiscovery_ops (c : Client) (w : Effects) :
    ∃ rest, (c.PublishDiscovery w).2.ops = w.ops ++ rest ∧ ∀ q, BusOp.disconnect q ∉ rest := by
  unfold Client.PublishDiscovery
  generalize sensors = l
  induction l generalizing w with
  | nil => exact ⟨[], by simp [Client.publishDiscoveryLoop]⟩
  | cons s tail ih =>
    simp only [Client.publishDiscoveryLoop, Marshal, Client.transportPublish, Token.Wait,
      Bool.true_and]
    cases (c.client w.ops _).Error
    · simp only [Option.isSome_none, Bool.false_eq_true, if_false]
      obtain ⟨r, h, d⟩ := ih (Effects.logPrintf (lit "Published discovery for " ++ s.Name)
        { w with ops := w.ops ++ [.publish (c.topicPrefix ++ lit "/sensor/" ++ c.nodeID
          ++ lit "/" ++ s.ID ++ lit "/config") 0 true
          (encodeDiscovery (discoveryRecord c (discoveryDevice c) s))] })
      exact ⟨[.publish (c.topicPrefix ++ lit "/sensor/" ++ c.nodeID
          ++ lit "/" ++ s.ID ++ lit "/config") 0 true
          (encodeDiscovery (discoveryRecord c (discoveryDevice c) s))] ++ r,
        by rw [h]; simp only [Effects.logPrintf, List.append_assoc],
        fun q hq => by
          rcases List.mem_append.mp hq with hq | hq
          · simp at hq
          · exact d q hq⟩
    · exact ⟨[.publish (c.topicPrefix ++ lit "/sensor/" ++ c.nodeID
          ++ lit "/" ++ s.ID ++ lit "/config") 0 true
          (encodeDiscovery (discoveryRecord c (discoveryDevice c) s))], by simp⟩

/-- The transport calls of `Disconnect`. -/
theorem Disconnect_ops (c : Client) (w : Effects) :
    (c.Disconnect w).ops = w.ops ++ [availabilityOp c (lit "offline"), .disconnect 250] := by
  simp only [Client.Disconnect, Client.transportPublish, Client.transportDisconnect, Token.Wait,
    Bool.true_and, availabilityTopic, availabilityOp]
  cases (c.client w.ops _).Error <;> simp [Effects.logPrintf]

/-- The transport calls of `Connect`. -/
theorem Connect_ops (c : Client) (w : Effects) :
    (c.Connect w).2.ops
      = w.ops ++ (if (c.Connect w).1.isSome then [BusOp.connect]
          else [BusOp.connect, availabilityOp c (lit "online")]) := by
  simp only [Client.Connect, Client.transportConnect, Client.transportPublish, Token.Wait,
    Bool.true_and, availabilityTopic, availabilityOp]
  cases (c.client w.ops .connect).Error
  · simp only [Option.isSome_none, Bool.false_eq_true, if_false]
    cases (c.client (w.ops ++ [BusOp.connect]) _).Error <;> simp [Effects.logPrintf]
  · simp

/-- An availability publish is neither a state publish nor a discovery publish:
its topic ends in `/availability`. -/
theorem availabilityOp_not_state_or_discovery (c : Client) (payload : GoString) :
    (availabilityOp c payload).isStatePublish = false
      ∧ (availabilityOp c payload).isDiscoveryPublish = false := by
  have h1 : (lit "/state").reverse = [0x65, 0x74, 0x61, 0x74, 0x73, 0x2F] := by decide
  have h2 : (lit "/config").reverse = [0x67, 0x69, 0x66, 0x6E, 0x6F, 0x63, 0x2F] := by decide
  have h3 : (lit "/availability").reverse
      = [0x79, 0x74, 0x69, 0x6C, 0x69, 0x62, 0x61, 0x6C, 0x69, 0x61, 0x76, 0x61, 0x2F] := by
    decide
  simp +decide [availabilityOp, BusOp.isStatePublish, BusOp.isDiscoveryPublish, List.isSuffixOf,
    List.reverse_append, h1, h2, h3, List.isPrefixOf]

/-- Where a call stands in a sequence that was extended: in the old part, or
among the calls added. -/
theorem append_split {α : Type} (ops r pre post : List α) (x : α)
    (h : ops ++ r = pre ++ x :: post) :
    (∃ post0, ops = pre ++ x :: post0) ∨ (x ∈ r ∧ ∃ pre1, pre = ops ++ pre1) := by
  rcases List.append_eq_append_iff.mp h with ⟨a, h1, h2⟩ | ⟨c, h1, h2⟩
  · right
    exact ⟨by rw [h2]; simp, a, h1⟩
  · rcases c with _ | ⟨y, c⟩
    · right
      simp only [List.nil_append] at h2
      exact ⟨by rw [← h2]; simp, [], by simpa using h1.symm⟩
    · left
      simp only [List.cons_append, List.cons.injEq] at h2
      exact ⟨c, by rw [h1, h2.1]⟩

/-- Calls that are no transport disconnect keep a sequence sequenced. -/
theorem Sequenced_append (c : Client) (ops r : List BusOp) (hs : Sequenced c ops)
    (hr : ∀ q, BusOp.disconnect q ∉ r) : Sequenced c (ops ++ r) := by
  obtain ⟨⟨rest, h1⟩, h2⟩ := hs
  refine ⟨⟨rest ++ r, by rw [h1]; rfl⟩, ?_⟩
  intro pre post q h
  rcases append_split ops r pre post _ h with ⟨post0, h3⟩ | ⟨h3, _⟩
  · exact h2 pre post0 q h3
  · exact absurd h3 (hr q)

/-- A transport disconnect after the `offline` publish keeps a sequence
sequenced. -/
theorem Sequenced_close (c : Client) (ops : List BusOp) (q : Nat) (hs : Sequenced c ops)
    (hoff : availabilityOp c (lit "offline") ∈ ops) :
    Sequenced c (ops ++ [.disconnect q]) := by
  obtain ⟨⟨rest, h1⟩, h2⟩ := hs
  refine ⟨⟨rest ++ [.disconnect q], by rw [h1]; rfl⟩, ?_⟩
  intro pre post q1 h
  rcases append_split ops _ pre post _ h with ⟨post0, h3⟩ | ⟨_, pre1, h3⟩
  · exact h2 pre post0 q1 h3
  · rw [h3]
    exact List.mem_append_left _ hoff

/-- A step of the closure of `main` adds at most a publish. -/
theorem Callback_step_ops (c : Client) (cb : Callback) (w : Effects) :
    ∃ r, (cb.step c w).2.ops = w.ops ++ r ∧ ∀ q, BusOp.disconnect q ∉ r := by
  cases cb with
  | entered filename content =>
    simp only [Callback.step]
    split
    · exact ⟨[], by simp [Effects.logPrintf]⟩
    · rename_i sid _
      exact ⟨[.publish (c.topicPrefix ++ lit "/sensor/" ++ c.nodeID ++ lit "/" ++ sid
          ++ lit "/state") 0 false (TrimSpace content)],
        by simp [Client.transportPublish]⟩
  | published sensorID state err =>
    cases err with
    | none => exact ⟨[], by simp [Callback.step, Effects.logPrintf]⟩
    | some e => exact ⟨[], by simp [Callback.step, Effects.logPrintf]⟩

/-- A step that adds no transport disconnect and does not take `main` past its
`offline` publish or its transport disconnect keeps the process sequenced. -/
theorem sequenced_grow {ε : Type} (c : Client) (p p1 : Proc ε) (r : List BusOp)
    (hs : p.Sequenced c) (hops : p1.world.eff.ops = p.world.eff.ops ++ r)
    (hr : ∀ q, BusOp.disconnect q ∉ r)
    (h1 : p1.mainPc.offlineDone = true → p.mainPc.offlineDone = true)
    (h2 : p1.mainPc.disconnected = true → p.mainPc.disconnected = true) :
    p1.Sequenced c := by
  obtain ⟨s1, s2, s3⟩ := hs
  refine ⟨?_, ?_, ?_⟩
  · rw [hops]; exact Sequenced_append c _ r s1 hr
  · intro h; rw [hops]; exact List.mem_append_left _ (s2 (h1 h))
  · intro h; rw [hops]; exact List.mem_append_left _ (s3 (h2 h))

/-- A step of the goroutine of `watch` adds at most a publish and leaves the
goroutine of `main` where it is. -/
theorem stepWatch_ops {ε : Type} (os : OS ε) (c : Client) (p : Proc ε) :
    (∃ r, (p.stepWatch os c).world.eff.ops = p.world.eff.ops ++ r
        ∧ ∀ q, BusOp.disconnect q ∉ r)
      ∧ (p.stepWatch os c).mainPc = p.mainPc := by
  rcases p with ⟨w, pc, wpc, recvs⟩
  cases wpc with
  | receive =>
    rcases recvs with _ | ⟨r, rest⟩
    · exact ⟨⟨[], by simp [Proc.stepWatch]⟩, rfl⟩
    · cases r with
      | eventsClosed => exact ⟨⟨[], by simp [Proc.stepWatch]⟩, rfl⟩
      | errorsClosed => exact ⟨⟨[], by simp [Proc.stepWatch]⟩, rfl⟩
      | error err => exact ⟨⟨[], by simp [Proc.stepWatch]⟩, rfl⟩
      | event ev =>
        simp only [Proc.stepWatch]
        split
        · exact ⟨⟨[], by simp⟩, rfl⟩
        · exact ⟨⟨[], by simp⟩, rfl⟩
  | reading name =>
    simp only [Proc.stepWatch]
    rcases FileWatcher.readFile os name w.env with ⟨err | content, e1⟩
    · exact ⟨⟨[], by simp⟩, rfl⟩
    · exact ⟨⟨[], by simp⟩, rfl⟩
  | logging line => exact ⟨⟨[], by simp [Proc.stepWatch, Effects.logPrintf]⟩, rfl⟩
  | call cb =>
    obtain ⟨r, h1, h2⟩ := Callback_step_ops c cb w.eff
    simp only [Proc.stepWatch]
    rcases hcb : cb.step c w.eff with ⟨_ | cb1, eff⟩
    · rw [hcb] at h1; exact ⟨⟨r, h1, h2⟩, rfl⟩
    · rw [hcb] at h1; exact ⟨⟨r, h1, h2⟩, rfl⟩
  | returned => exact ⟨⟨[], by simp [Proc.stepWatch]⟩, rfl⟩

/-- A step of the goroutine of `watch` keeps the process sequenced. -/
theorem stepWatch_sequenced {ε : Type} (os : OS ε) (c : Client) (p : Proc ε)
    (hs : p.Sequenced c) : (p.stepWatch os c).Sequenced c := by
  obtain ⟨⟨r, h1, h2⟩, h3⟩ := stepWatch_ops os c p
  exact sequenced_grow c p _ r hs h1 h2 (by rw [h3]; exact id) (by rw [h3]; exact id)

/-- A step of the goroutine of `main` keeps the process sequenced. -/
theorem stepMain_sequenced {ε : Type} (os : OS ε) (c : Client) (p : Proc ε)
    (hs : p.Sequenced c) : (p.stepMain os c).Sequenced c := by
  rcases p with ⟨w, pc, wpc, recvs⟩
  cases pc with
  | snapshot files =>
    rcases files with _ | ⟨file, rest⟩
    · exact sequenced_grow c _ _ [] hs (by simp [Proc.stepMain]) (by simp)
        (by simp [Proc.stepMain, MainPc.offlineDone]) (by simp [Proc.stepMain, MainPc.disconnected])
    · simp only [Proc.stepMain]
      rcases FileWatcher.readFile os file w.env with ⟨err | content, e1⟩
      · exact sequenced_grow c _ _ [] hs (by simp) (by simp)
          (by simp [MainPc.offlineDone]) (by simp [MainPc.disconnected])
      · exact sequenced_grow c _ _ [] hs (by simp) (by simp)
          (by simp [MainPc.offlineDone]) (by simp [MainPc.disconnected])
  | snapshotCall cb rest =>
    obtain ⟨r, h1, h2⟩ := Callback_step_ops c cb w.eff
    simp only [Proc.stepMain]
    rcases hcb : cb.step c w.eff with ⟨_ | cb1, eff⟩
    · rw [hcb] at h1
      exact sequenced_grow c _ _ r hs h1 h2
        (by simp [MainPc.offlineDone]) (by simp [MainPc.disconnected])
    · rw [hcb] at h1
      exact sequenced_grow c _ _ r hs h1 h2
        (by simp [MainPc.offlineDone]) (by simp [MainPc.disconnected])
  | announce =>
    exact sequenced_grow c _ _ [] hs (by simp [Proc.stepMain]) (by simp)
      (by simp [Proc.stepMain, MainPc.offlineDone]) (by simp [Proc.stepMain, MainPc.disconnected])
  | waiting =>
    exact sequenced_grow c _ _ [] hs (by simp [Proc.stepMain]) (by simp)
      (by simp [Proc.stepMain, MainPc.offlineDone]) (by simp [Proc.stepMain, MainPc.disconnected])
  | stop =>
    exact sequenced_grow c _ _ [] hs (by simp [Proc.stepMain]) (by simp)
      (by simp [Proc.stepMain, MainPc.offlineDone]) (by simp [Proc.stepMain, MainPc.disconnected])
  | offline =>
    obtain ⟨s1, s2, s3⟩ := hs
    have hops : ∀ q, BusOp.disconnect q ∉ [availabilityOp c (lit "offline")] := by
      simp [availabilityOp]
    have hseq := Sequenced_append c _ _ s1 hops
    simp only [Proc.stepMain, Client.transportPublish, Token.Wait, Bool.true_and]
    split
    · exact ⟨hseq, fun _ => by simp [availabilityOp, availabilityTopic],
        fun h => by simp [MainPc.disconnected] at h⟩
    · exact ⟨hseq, fun _ => by simp [availabilityOp, availabilityTopic],
        fun h => by simp [MainPc.disconnected] at h⟩
  | offlineFailed err =>
    exact sequenced_grow c _ _ [] hs (by simp [Proc.stepMain, Effects.logPrintf]) (by simp)
      (by simp [Proc.stepMain, MainPc.offlineDone]) (by simp [Proc.stepMain, MainPc.disconnected])
  | close =>
    obtain ⟨s1, s2, s3⟩ := hs
    have hoff := s2 rfl
    exact ⟨Sequenced_close c _ 250 s1 hoff,
      fun _ => List.mem_append_left _ hoff,
      fun _ => by simp [Proc.stepMain, Client.transportDisconnect]⟩
  | returning =>
    exact sequenced_grow c _ _ [] hs (by simp [Proc.stepMain]) (by simp)
      (by simp [Proc.stepMain, MainPc.offlineDone]) (by simp [Proc.stepMain, MainPc.disconnected])
  | exited =>
    exact hs

/-- Every run keeps the process sequenced. -/
theorem run_sequenced {ε : Type} (os : OS ε) (c : Client) (schedule : List Goroutine)
    (p : Proc ε) (hs : p.Sequenced c) : (Proc.run os c schedule p).Sequenced c := by
  induction schedule generalizing p with
  | nil => exact hs
  | cons g rest ih =>
    apply ih
    cases g with
    | start => exact stepMain_sequenced os c p hs
    | watch =>
      simp only [Proc.step]
      split
      · exact hs
      · exact stepWatch_sequenced os c p hs

/-- In a sequence that begins with the handshake and the `online` publish, the
`online` publish stands before every discovery publish and every state
publish. -/
theorem online_first (c : Client) (ops rest : List BusOp)
    (h : ops = .connect :: availabilityOp c (lit "online") :: rest)
    (pre post : List BusOp) (op : BusOp) (hops : ops = pre ++ op :: post)
    (hop : (op.isDiscoveryPublish || op.isStatePublish) = true) :
    availabilityOp c (lit "online") ∈ pre := by
  rw [h] at hops
  rcases pre with _ | ⟨p, _ | ⟨q, pre⟩⟩
  · simp only [List.nil_append, List.cons.injEq] at hops
    rw [← hops.1] at hop
    simp [BusOp.isDiscoveryPublish, BusOp.isStatePublish] at hop
  · simp only [List.cons_append, List.nil_append, List.cons.injEq] at hops
    rw [← hops.2.1] at hop
    have hn := availabilityOp_not_state_or_discovery c (lit "online")
    simp [hn.1, hn.2] at hop
  · simp only [List.cons_append, List.cons.injEq] at hops
    rw [← hops.2.1]
    simp

/-- The runs of `main`: it exits with status 1 before any transport call, or
after a failed handshake, or after the `online` publish and discovery publishes;
or it reaches the statement `go fw.watch()` and is from there on a process that
is sequenced. -/
theorem main_cases {ε : Type} (os : OS ε) (transport : Transport) (flags : Flags)
    (recvs : List Recv) (schedule : List Goroutine) (e : ε) :
    ((main os transport flags recvs schedule e).1.eff.ops = []
        ∧ (main os transport flags recvs schedule e).2 = some 1)
      ∨ ((main os transport flags recvs schedule e).1.eff.ops = [.connect]
        ∧ (main os transport flags recvs schedule e).2 = some 1)
      ∨ (∃ nodeID rest,
          (main os transport flags recvs schedule e).1.eff.ops
            = .connect :: availabilityOp ⟨transport, flags.topicPrefix, nodeID⟩ (lit "online")
                :: rest
          ∧ (∀ q, BusOp.disconnect q ∉ rest)
          ∧ (main os transport flags recvs schedule e).2 = some 1)
      ∨ ∃ nodeID, ∃ p : Proc ε, p.Sequenced ⟨transport, flags.topicPrefix, nodeID⟩
          ∧ main os transport flags recvs schedule e
            = (p.world, if p.mainPc = .exited then some 0 else none) := by
  unfold main
  simp only []
  rcases hN : NewClient os transport _ e with ⟨err | mqttClient, e1⟩
  · left; simp [fatalf, Effects.logPrintf]
  · have hc : mqttClient = ⟨transport, flags.topicPrefix, mqttClient.nodeID⟩ := by
      unfold NewClient at hN
      rcases hg : getNodeID os e with ⟨err | node, e2⟩
      · rw [hg] at hN; simp at hN
      · rw [hg] at hN
        simp only [Prod.mk.injEq, Except.ok.injEq] at hN
        rw [← hN.1]
    simp only []
    have hC := Connect_ops mqttClient { ops := [], log := [] }
    rcases hConn : mqttClient.Connect { ops := [], log := [] } with ⟨_ | err, eff1⟩
    · rw [hConn] at hC
      simp only [Option.isSome_none, Bool.false_eq_true, if_false, List.nil_append] at hC
      right; right
      simp only []
      obtain ⟨r1, h1, d1⟩ := PublishDiscovery_ops mqttClient eff1
      rcases hD : mqttClient.PublishDiscovery eff1 with ⟨_ | err, eff2⟩
      · rw [hD] at h1
        simp only [] at h1
        simp only []
        rcases hW : NewFileWatcher os e1 with ⟨err | fileWatcher, e3⟩
        · left
          refine ⟨mqttClient.nodeID, r1, ?_, d1, ?_⟩
          · rw [← hc]; simp [fatalf, Effects.logPrintf, h1, hC]
          · simp [fatalf]
        · right
          refine ⟨mqttClient.nodeID, _, ?_, rfl⟩
          rw [← hc]
          apply run_sequenced
          obtain ⟨r2, h2, d2⟩ := runActs_ops mqttClient
            (FileWatcher.addFiles os fileWatcher.files e3).1 eff2
          refine ⟨⟨⟨r1 ++ r2, ?_⟩, ?_⟩, ?_, ?_⟩
          · simp only [h2, h1, hC, List.cons_append, List.nil_append]
          · intro pre post q hq
            have hmem : BusOp.disconnect q ∈ [BusOp.connect,
                availabilityOp mqttClient (lit "online")] ++ (r1 ++ r2) := by
              have : (runActs mqttClient (FileWatcher.addFiles os fileWatcher.files e3).1
                  eff2).ops = [BusOp.connect, availabilityOp mqttClient (lit "online")]
                    ++ (r1 ++ r2) := by
                simp only [h2, h1, hC, List.cons_append, List.nil_append, List.append_assoc]
              rw [← this]
              simp only [] at hq
              rw [hq]
              simp
            rcases List.mem_append.mp hmem with hm | hm
            · simp [availabilityOp] at hm
            · exact absurd hm (fun hq => (List.mem_append.mp hq).elim (d1 q) (d2 q))
          · intro h; simp [MainPc.offlineDone] at h
          · intro h; simp [MainPc.disconnected] at h
      · rw [hD] at h1
        simp only [] at h1
        left
        refine ⟨mqttClient.nodeID, r1, ?_, d1, ?_⟩
        · rw [← hc]; simp [fatalf, Effects.logPrintf, h1, hC]
        · simp [fatalf]
    · rw [hConn] at hC
      simp only [Option.isSome_some, if_true, List.nil_append] at hC
      right; left
      simp [fatalf, Effects.logPrintf, hC]

/-- A run of the process under two schedules, one after the other. -/
theorem process_run_append {ε : Type} (os : OS ε) (c : Client) (a b : List Goroutine)
    (p : Proc ε) : Proc.run os c (a ++ b) p = Proc.run os c b (Proc.run os c a p) := by
  induction a generalizing p with
  | nil => rfl
  | cons g rest ih => exact ih (p.step os c g)

/-- The steps of an invocation of the closure of `main`, taken one after the
other, do what the closure does: it returns at its first step or at its second,
and the effects are then those of `mainOnChange`. -/
theorem Callback_steps (c : Client) (filename content : GoString) (w : Effects) :
    (Callback.entered filename content).step c w = (none, mainOnChange c filename content w)
      ∨ ∃ cb w1, (Callback.entered filename content).step c w = (some cb, w1)
          ∧ cb.step c w1 = (none, mainOnChange c filename content w) := by
  unfold mainOnChange onChange
  simp only [Callback.step]
  split
  · rename_i heq
    left
    simp only [heq]
  · rename_i sid heq
    right
    refine ⟨_, _, rfl, ?_⟩
    simp only [heq, Client.PublishState, Client.transportPublish, Token.Wait, Bool.true_and,
      if_true]
    cases (c.client w.ops _).Error with
    | none => rfl
    | some err => rfl

/-- A run of one goroutine alone, one step on. -/
theorem process_run_succ {ε : Type} (os : OS ε) (c : Client) (n : Nat) (g : Goroutine)
    (p : Proc ε) :
    Proc.run os c (List.replicate (n + 1) g) p
      = Proc.run os c (List.replicate n g) (p.step os c g) := rfl

/-- The goroutine of `main` running alone through an invocation of the closure
in its snapshot loop: the effects are those of `mainOnChange`. -/
theorem snapshotCall_alone {ε : Type} (os : OS ε) (c : Client) (filename content : GoString)
    (rest : List GoString) (w : World ε) (wpc : WatchPc) (recvs : List Recv) :
    ∃ n, Proc.run os c (List.replicate n .start)
        { world := w, mainPc := .snapshotCall (.entered filename content) rest,
          watchPc := wpc, recvs := recvs }
      = { world := { w with eff := mainOnChange c filename content w.eff },
          mainPc := .snapshot rest, watchPc := wpc, recvs := recvs } := by
  rcases Callback_steps c filename content w.eff with h | ⟨cb, w1, h1, h2⟩
  · refine ⟨1, ?_⟩
    simp only [List.replicate_succ, List.replicate_zero, Proc.run, Proc.step, Proc.stepMain, h]
  · refine ⟨2, ?_⟩
    simp only [List.replicate_succ, List.replicate_zero, Proc.run, Proc.step, Proc.stepMain, h1,
      h2]

/-- The goroutine of `main` running alone through its snapshot loop: it reads as
`FileWatcher.readInitial` does, and the effects are those of the closure of
`main` on the invocations of that loop. -/
theorem snapshot_alone {ε : Type} (os : OS ε) (c : Client) (files : List GoString)
    (w : World ε) (wpc : WatchPc) (recvs : List Recv) :
    ∃ n, Proc.run os c (List.replicate n .start)
        { world := w, mainPc := .snapshot files, watchPc := wpc, recvs := recvs }
      = { world := { w with
            env := (FileWatcher.readInitial os files w.env).2
            eff := runActs c (FileWatcher.readInitial os files w.env).1 w.eff },
          mainPc := .announce, watchPc := wpc, recvs := recvs } := by
  induction files generalizing w with
  | nil => exact ⟨1, rfl⟩
  | cons file rest ih =>
    rcases hr : FileWatcher.readFile os file w.env with ⟨err | content, e1⟩
    · obtain ⟨n, hn⟩ := ih { w with env := e1 }
      refine ⟨n + 1, ?_⟩
      rw [process_run_succ]
      simp only [Proc.step, Proc.stepMain, hr, FileWatcher.readInitial]
      exact hn
    · obtain ⟨k, hk⟩ := snapshotCall_alone os c (Base file) content rest { w with env := e1 }
        wpc recvs
      obtain ⟨n, hn⟩ := ih { w with env := e1, eff := mainOnChange c (Base file) content w.eff }
      refine ⟨1 + (k + n), ?_⟩
      rw [Nat.add_comm 1, process_run_succ, List.replicate_add, process_run_append]
      simp only [Proc.step, Proc.stepMain, hr, FileWatcher.readInitial, runActs]
      rw [hk]
      exact hn

/-- The goroutine of `main` running alone through the deferred `Disconnect`:
the effects are those of `Client.Disconnect`. -/
theorem Disconnect_alone {ε : Type} (os : OS ε) (c : Client) (w : World ε) (wpc : WatchPc)
    (recvs : List Recv) :
    ∃ n, Proc.run os c (List.replicate n .start)
        { world := w, mainPc := .offline, watchPc := wpc, recvs := recvs }
      = { world := { w with eff := c.Disconnect w.eff },
          mainPc := .returning, watchPc := wpc, recvs := recvs } := by
  cases hE : (c.client w.eff.ops
      (.publish (availabilityTopic c) 0 true (lit "offline"))).Error with
  | none =>
    refine ⟨2, ?_⟩
    simp only [List.replicate_succ, List.replicate_zero, Proc.run, Proc.step, Proc.stepMain,
      Client.Disconnect, Client.transportPublish, Token.Wait, Bool.true_and, hE,
      Option.isSome_none, Bool.false_eq_true, if_false]
  | some err =>
    refine ⟨3, ?_⟩
    simp only [List.replicate_succ, List.replicate_zero, Proc.run, Proc.step, Proc.stepMain,
      Client.Disconnect, Client.transportPublish, Token.Wait, Bool.true_and, hE,
      Option.isSome_some, if_true, Option.getD_some]

/-- While `main` has not returned, a step of the goroutine of `watch` is a step
of its loop. -/
theorem step_watch_running {ε : Type} (os : OS ε) (c : Client) (p : Proc ε)
    (h : p.mainPc ≠ .exited) : p.step os c .watch = p.stepWatch os c := by
  cases hpc : p.mainPc with
  | exited => exact absurd hpc h
  | _ => simp only [Proc.step, hpc]

/-- The goroutine of `watch` running alone through an invocation of the
closure: the effects are those of `mainOnChange`. -/
theorem call_alone {ε : Type} (os : OS ε) (c : Client) (filename content : GoString)
    (w : World ε) (pc : MainPc) (recvs : List Recv) (h : pc ≠ .exited) :
    ∃ n, Proc.run os c (List.replicate n .watch)
        { world := w, mainPc := pc, watchPc := .call (.entered filename content),
          recvs := recvs }
      = { world := { w with eff := mainOnChange c filename content w.eff },
          mainPc := pc, watchPc := .receive, recvs := recvs } := by
  rcases Callback_steps c filename content w.eff with h0 | ⟨cb, w1, h1, h2⟩
  · refine ⟨1, ?_⟩
    rw [process_run_succ, step_watch_running os c _ h]
    simp only [List.replicate_zero, Proc.run, Proc.stepWatch, h0]
  · refine ⟨2, ?_⟩
    rw [process_run_succ, step_watch_running os c _ h]
    simp only [Proc.stepWatch, h1]
    rw [process_run_succ, step_watch_running os c _ h]
    simp only [List.replicate_zero, Proc.run, Proc.stepWatch, h2]

/-- The goroutine of `watch` running alone through its receives, while `main`
has not returned: it reads as `FileWatcher.watch` does, and the effects are
those of the closure of `main` and of the log on the actions of that loop. -/
theorem watch_alone {ε : Type} (os : OS ε) (c : Client) (recvs : List Recv) (w : World ε)
    (pc : MainPc) (h : pc ≠ .exited) :
    ∃ n, (Proc.run os c (List.replicate n .watch)
        { world := w, mainPc := pc, watchPc := .receive, recvs := recvs }).world
      = { w with
          env := (FileWatcher.watch os recvs w.env).2
          eff := runActs c (FileWatcher.watch os recvs w.env).1 w.eff } := by
  induction recvs generalizing w with
  | nil => exact ⟨0, rfl⟩
  | cons r rest ih =>
    cases r with
    | eventsClosed => exact ⟨0, rfl⟩
    | errorsClosed => exact ⟨0, rfl⟩
    | error err =>
      obtain ⟨n, hn⟩ := ih { w with eff := w.eff.logPrintf (lit "Watcher error: " ++ err) }
      refine ⟨n + 2, ?_⟩
      rw [process_run_succ, step_watch_running os c _ h]
      simp only [Proc.stepWatch]
      rw [process_run_succ, step_watch_running os c _ h]
      simp only [Proc.stepWatch, FileWatcher.watch, runActs]
      exact hn
    | event ev =>
      cases hk : (ev.Has Write || ev.Has Create)
      · obtain ⟨n, hn⟩ := ih w
        refine ⟨n + 1, ?_⟩
        rw [process_run_succ, step_watch_running os c _ h]
        simp only [Proc.stepWatch, FileWatcher.watch, hk, Bool.false_eq_true, if_false]
        exact hn
      · rcases hr : FileWatcher.readFile os ev.Name w.env with ⟨err | content, e1⟩
        · obtain ⟨n, hn⟩ := ih { w with
            env := e1
            eff := w.eff.logPrintf (lit "Error reading file " ++ ev.Name ++ lit ": " ++ err) }
          refine ⟨n + 3, ?_⟩
          rw [process_run_succ, step_watch_running os c _ h]
          simp only [Proc.stepWatch, hk, if_true]
          rw [process_run_succ, step_watch_running os c _ h]
          simp only [Proc.stepWatch, hr]
          rw [process_run_succ, step_watch_running os c _ h]
          simp only [Proc.stepWatch, FileWatcher.watch, hk, hr, if_true, runActs]
          exact hn
        · obtain ⟨k, hk1⟩ := call_alone os c (Base ev.Name) content { w with env := e1 } pc rest h
          obtain ⟨n, hn⟩ := ih { w with
            env := e1, eff := mainOnChange c (Base ev.Name) content w.eff }
          refine ⟨(k + n) + 2, ?_⟩
          rw [process_run_succ, step_watch_running os c _ h]
          simp only [Proc.stepWatch, hk, if_true]
          rw [process_run_succ, step_watch_running os c _ h]
          simp only [Proc.stepWatch, hr]
          rw [List.replicate_add, process_run_append, hk1]
          simp only [FileWatcher.watch, hk, hr, if_true, runActs]
          exact hn

/-- C7. For every run of `main`, whatever the operating system, the transport,
the receives of the watch loop and the schedule of the two goroutines (so with
the notification-triggered publishes interleaved with the snapshot of `Start`
and with the shutdown): the transport calls are none at all (no client could be
made), or the handshake alone (it failed), or the handshake, then the retained
`online` availability publish of `Connect`, then everything else; wherever a
discovery publish or a state publish stands in the sequence, the retained
`online` publish stands before it; wherever a transport disconnect stands, the
retained `offline` availability publish stands before it; and a process that
has exited with status 0 has made the transport disconnect, whatever its
`offline` publish reported. And `Disconnect` issues the retained `offline`
availability publish and then the transport disconnect, whatever the publish
reports. -/
theorem availability_sequencing :
    (∀ {ε : Type} (os : OS ε) (transport : Transport) (flags : Flags) (recvs : List Recv)
        (schedule : List Goroutine) (e : ε),
        ((main os transport flags recvs schedule e).1.eff.ops = []
          ∨ (main os transport flags recvs schedule e).1.eff.ops = [.connect]
          ∨ ∃ nodeID rest,
              (main os transport flags recvs schedule e).1.eff.ops
                = .connect :: availabilityOp ⟨transport, flags.topicPrefix, nodeID⟩ (lit "online")
                    :: rest)
        ∧ (∀ (pre post : List BusOp) (op : BusOp),
            (main os transport flags recvs schedule e).1.eff.ops = pre ++ op :: post →
            (op.isDiscoveryPublish || op.isStatePublish) = true →
            ∃ nodeID, availabilityOp ⟨transport, flags.topicPrefix, nodeID⟩ (lit "online") ∈ pre)
        ∧ (∀ (pre post : List BusOp) (quiesce : Nat),
            (main os transport flags recvs schedule e).1.eff.ops
              = pre ++ .disconnect quiesce :: post →
            ∃ nodeID,
              availabilityOp ⟨transport, flags.topicPrefix, nodeID⟩ (lit "offline") ∈ pre)
        ∧ ((main os transport flags recvs schedule e).2 = some 0 →
            BusOp.disconnect 250 ∈ (main os transport flags recvs schedule e).1.eff.ops))
      ∧ ∀ (c : Client) (w : Effects),
          (c.Disconnect w).ops
            = w.ops ++ [availabilityOp c (lit "offline"), .disconnect 250] := by
  refine ⟨?_, Disconnect_ops⟩
  intro ε os transport flags recvs schedule e
  rcases main_cases os transport flags recvs schedule e with
    ⟨h, hx⟩ | ⟨h, hx⟩ | ⟨nodeID, rest, h, hd, hx⟩ | ⟨nodeID, p, hs, hp⟩
  · refine ⟨Or.inl h, ?_, ?_, ?_⟩
    · intro pre post op hops _
      rw [h] at hops
      exact absurd hops (by simp)
    · intro pre post q hops
      rw [h] at hops
      exact absurd hops (by simp)
    · intro h0
      rw [hx] at h0
      exact absurd h0 (by decide)
  · refine ⟨Or.inr (Or.inl h), ?_, ?_, ?_⟩
    · intro pre post op hops hop
      rw [h] at hops
      rcases pre with _ | ⟨p, pre⟩
      · simp only [List.nil_append, List.cons.injEq] at hops
        rw [← hops.1] at hop
        simp [BusOp.isDiscoveryPublish, BusOp.isStatePublish] at hop
      · simp at hops
    · intro pre post q hops
      rw [h] at hops
      rcases pre with _ | ⟨p, pre⟩
      · simp at hops
      · simp at hops
    · intro h0
      rw [hx] at h0
      exact absurd h0 (by decide)
  · refine ⟨Or.inr (Or.inr ⟨nodeID, rest, h⟩), ?_, ?_, ?_⟩
    · intro pre post op hops hop
      exact ⟨nodeID, online_first _ _ rest h pre post op hops hop⟩
    · intro pre post q hops
      have hmem : BusOp.disconnect q ∈ (main os transport flags recvs schedule e).1.eff.ops := by
        rw [hops]; simp
      rw [h] at hmem
      simp only [List.mem_cons, reduceCtorEq, false_or] at hmem
      rcases hmem with hm | hm
      · simp [availabilityOp] at hm
      · exact absurd hm (hd q)
    · intro h0
      rw [hx] at h0
      exact absurd h0 (by decide)
  · rw [hp]
    obtain ⟨⟨⟨rest, h1⟩, h2⟩, h3, h4⟩ := hs
    refine ⟨Or.inr (Or.inr ⟨nodeID, rest, h1⟩), ?_, ?_, ?_⟩
    · intro pre post op hops hop
      exact ⟨nodeID, online_first _ _ rest h1 pre post op hops hop⟩
    · intro pre post q hops
      exact ⟨nodeID, h2 pre post q hops⟩
    · intro h0
      apply h4
      by_cases hex : p.mainPc = .exited
      · rw [hex]; rfl
      · simp [hex] at h0

set_option maxRecDepth 100000 in
/-- The run `quietRun` split at its sixth transport call. -/
theorem quietRun_split :
    (main quietOS (fun _ _ => ⟨none⟩) defaultFlags [coreNameWritten, activeGameWritten]
        quietSchedule ()).1.eff.ops
      = quietRun.take 5 ++ quietRun.getD 5 .connect :: quietRun.drop 6 := by
  decide

set_option maxRecDepth 100000 in
/-- The sixth transport call of `quietRun` is a state publish. -/
theorem quietRun_state : ((quietRun.getD 5 .connect).isDiscoveryPublish
    || (quietRun.getD 5 .connect).isStatePublish) = true := by
  decide

set_option maxRecDepth 100000 in
/-- The run `quietRun` split at its twelfth transport call, the transport
disconnect. -/
theorem quietRun_disconnect :
    (main quietOS (fun _ _ => ⟨none⟩) defaultFlags [coreNameWritten, activeGameWritten]
        quietSchedule ()).1.eff.ops
      = quietRun.take 11 ++ .disconnect 250 :: quietRun.drop 12 := by
  decide

set_option maxRecDepth 100000 in
/-- The run `quietRun` in full. -/
theorem quietRun_ops :
    quietRun.map (fun op => (op.isDiscoveryPublish, op.isStatePublish))
        = [(false, false), (false, false), (true, false), (true, false), (true, false),
           (false, true), (false, true), (false, true), (false, true), (false, false),
           (false, true), (false, false)]
      ∧ quietRun.getD 9 .connect
          = availabilityOp ⟨fun _ _ => ⟨none⟩, lit "homeassistant", lit "MiSTer"⟩ (lit "offline")
      ∧ quietRun.getD 11 .connect = .disconnect 250
      ∧ (main quietOS (fun _ _ => ⟨none⟩) defaultFlags [coreNameWritten, activeGameWritten]
          quietSchedule ()).2 = some 0 := by
  decide

/-- C7 at the run `quietRun`, where the two goroutines interleave. Its sixth
transport call is a state publish, made by the watch loop before `Start` has
read its first file, and the `online` publish is among the five calls before
it. Its twelfth call is the transport disconnect, made after a state publish of
the watch loop during the shutdown, and the `offline` publish is among the
eleven calls before it. -/
theorem availability_sequencing_witness :
    (main quietOS (fun _ _ => ⟨none⟩) defaultFlags [coreNameWritten, activeGameWritten]
        quietSchedule ()).1.eff.ops
        = quietRun.take 5 ++ quietRun.getD 5 .connect :: quietRun.drop 6
      ∧ ((quietRun.getD 5 .connect).isDiscoveryPublish
          || (quietRun.getD 5 .connect).isStatePublish) = true
      ∧ (∃ nodeID, availabilityOp ⟨fun _ _ => ⟨none⟩, defaultFlags.topicPrefix, nodeID⟩
          (lit "online") ∈ quietRun.take 5)
      ∧ (main quietOS (fun _ _ => ⟨none⟩) defaultFlags [coreNameWritten, activeGameWritten]
          quietSchedule ()).1.eff.ops
        = quietRun.take 11 ++ .disconnect 250 :: quietRun.drop 12
      ∧ ∃ nodeID, availabilityOp ⟨fun _ _ => ⟨none⟩, defaultFlags.topicPrefix, nodeID⟩
          (lit "offline") ∈ quietRun.take 11 :=
  ⟨quietRun_split, quietRun_state,
    (availability_sequencing.1 quietOS (fun _ _ => ⟨none⟩) defaultFlags
      [coreNameWritten, activeGameWritten] quietSchedule ()).2.1
      (quietRun.take 5) (quietRun.drop 6) (quietRun.getD 5 .connect) quietRun_split
      quietRun_state,
    quietRun_disconnect,
    (availability_sequencing.1 quietOS (fun _ _ => ⟨none⟩) defaultFlags
      [coreNameWritten, activeGameWritten] quietSchedule ()).2.2.1
      (quietRun.take 11) (quietRun.drop 12) 250 quietRun_disconnect⟩

/-! ## C8: the discovery record through `Marshal` and `Unmarshal`

First UTF-8 and JSON strings, then the reading back of what `Marshal` wrote. -/

/-- `DecodeRune` on a non-empty string answers in one of the five ways of
`Decoded`. -/
theorem DecodeRune_cases (s0 : Byte) (t : GoString) :
    Decoded s0 t (DecodeRune (s0 :: t)) := by
  unfold DecodeRune
  by_cases h0 : s0.val < 0x80
  · simp only [h0, if_true]; exact .ascii h0
  have hge : 0x80 ≤ s0.val := by omega
  simp only [h0, if_false]
  by_cases h2 : 0xC2 ≤ s0.val ∧ s0.val ≤ 0xDF
  · simp only [h2, and_self, if_true]
    rcases t with _ | ⟨s1, t1⟩
    · exact .invalid hge
    · simp only []
      split_ifs with h
      · exact .two s1 t1 rfl h2.1 h2.2 h.1 h.2
      · exact .invalid hge
  simp only [h2, if_false]
  by_cases h3 : 0xE0 ≤ s0.val ∧ s0.val ≤ 0xEF
  · simp only [h3, and_self, if_true]
    rcases t with _ | ⟨s1, _ | ⟨s2, t2⟩⟩
    · exact .invalid hge
    · exact .invalid hge
    · simp only []
      by_cases h : (if s0.val = 0xE0 then 0xA0 else 0x80) ≤ s1.val
            ∧ s1.val ≤ (if s0.val = 0xED then 0x9F else 0xBF)
            ∧ 0x80 ≤ s2.val ∧ s2.val ≤ 0xBF
      · rw [if_pos h]
        exact .three s1 s2 t2 rfl h3.1 h3.2 h.1 h.2.1 h.2.2.1 h.2.2.2
      · rw [if_neg h]; exact .invalid hge
  simp only [h3, if_false]
  by_cases h4 : 0xF0 ≤ s0.val ∧ s0.val ≤ 0xF4
  · simp only [h4, and_self, if_true]
    rcases t with _ | ⟨s1, _ | ⟨s2, _ | ⟨s3, t3⟩⟩⟩
    · exact .invalid hge
    · exact .invalid hge
    · exact .invalid hge
    · simp only []
      by_cases h : (if s0.val = 0xF0 then 0x90 else 0x80) ≤ s1.val
            ∧ s1.val ≤ (if s0.val = 0xF4 then 0x8F else 0xBF)
            ∧ 0x80 ≤ s2.val ∧ s2.val ≤ 0xBF ∧ 0x80 ≤ s3.val ∧ s3.val ≤ 0xBF
      · rw [if_pos h]
        exact .four s1 s2 s3 t3 rfl h4.1 h4.2 h.1 h.2.1 h.2.2.1 h.2.2.2.1 h.2.2.2.2.1
          h.2.2.2.2.2
      · rw [if_neg h]; exact .invalid hge
  simp only [h4, if_false]
  exact .invalid hge

/-- A decoded rune that is not an invalid byte: the bytes taken are its
encoding, and they decode the same whatever follows. -/
theorem DecodeRune_valid (s0 : Byte) (t : GoString)
    (h : ¬ ((DecodeRune (s0 :: t)).1 = RuneError ∧ (DecodeRune (s0 :: t)).2 = 1)) :
    1 ≤ (DecodeRune (s0 :: t)).2
      ∧ (DecodeRune (s0 :: t)).2 ≤ (s0 :: t).length
      ∧ EncodeRune (DecodeRune (s0 :: t)).1 = (s0 :: t).take (DecodeRune (s0 :: t)).2
      ∧ ∀ t1, DecodeRune ((s0 :: t).take (DecodeRune (s0 :: t)).2 ++ t1)
          = DecodeRune (s0 :: t) := by
  have hc := DecodeRune_cases s0 t
  generalize DecodeRune (s0 :: t) = r at hc h
  cases hc with
  | ascii h0 =>
    refine ⟨by simp, by simp, ?_, ?_⟩
    · simp only [EncodeRune, h0, if_true, List.take_succ_cons, List.take_zero]
      congr 1
      apply Fin.ext
      simp [Fin.ofNat]
    · intro t1
      simp [DecodeRune, h0]
  | invalid h0 => exact absurd ⟨rfl, rfl⟩ h
  | two s1 t1 ht a b c d =>
    subst ht
    refine ⟨by simp, by simp, ?_, ?_⟩
    · have e1 : ¬ (s0.val % 32 * 64 + s1.val % 64 < 0x80) := by omega
      have e2 : s0.val % 32 * 64 + s1.val % 64 < 0x800 := by omega
      simp only [EncodeRune, e1, e2, if_true, if_false, List.take_succ_cons, List.take_zero]
      congr 1
      · apply Fin.ext; simp only [Fin.ofNat]; omega
      · congr 1; apply Fin.ext; simp only [Fin.ofNat]; omega
    · intro t2
      have e0 : ¬ s0.val < 0x80 := by omega
      simp [DecodeRune, e0, a, b, c, d]
  | three s1 s2 t2 ht a b c d e f =>
    subst ht
    have c1 : 0x80 ≤ s1.val := by split_ifs at c <;> omega
    have d1 : s1.val ≤ 0xBF := by split_ifs at d <;> omega
    refine ⟨by simp, by simp, ?_, ?_⟩
    · have e1 : ¬ (s0.val % 16 * 4096 + s1.val % 64 * 64 + s2.val % 64 < 0x80) := by
        split_ifs at c <;> omega
      have e2 : ¬ (s0.val % 16 * 4096 + s1.val % 64 * 64 + s2.val % 64 < 0x800) := by
        split_ifs at c <;> omega
      have e3 : ¬ (0x10FFFF < s0.val % 16 * 4096 + s1.val % 64 * 64 + s2.val % 64
          ∨ (0xD800 ≤ s0.val % 16 * 4096 + s1.val % 64 * 64 + s2.val % 64
            ∧ s0.val % 16 * 4096 + s1.val % 64 * 64 + s2.val % 64 ≤ 0xDFFF)) := by
        split_ifs at d <;> omega
      have e4 : s0.val % 16 * 4096 + s1.val % 64 * 64 + s2.val % 64 < 0x10000 := by omega
      simp only [EncodeRune, e1, e2, e3, e4, if_true, if_false, List.take_succ_cons,
        List.take_zero]
      congr 1
      · apply Fin.ext; simp only [Fin.ofNat]; omega
      · congr 1
        · apply Fin.ext; simp only [Fin.ofNat]; omega
        · congr 1; apply Fin.ext; simp only [Fin.ofNat]; omega
    · intro t3
      have e0 : ¬ s0.val < 0x80 := by omega
      have e2 : ¬ (0xC2 ≤ s0.val ∧ s0.val ≤ 0xDF) := by omega
      simp only [DecodeRune, e0, e2, a, b, c, d, e, f, if_true, if_false, and_self,
        List.take_succ_cons, List.take_zero, List.cons_append, List.nil_append]
  | four s1 s2 s3 t3 ht a b c d e f g k =>
    subst ht
    have c1 : 0x80 ≤ s1.val := by split_ifs at c <;> omega
    have d1 : s1.val ≤ 0xBF := by split_ifs at d <;> omega
    refine ⟨by simp, by simp, ?_, ?_⟩
    · have e1 : ¬ (s0.val % 8 * 262144 + s1.val % 64 * 4096 + s2.val % 64 * 64 + s3.val % 64
          < 0x80) := by split_ifs at c <;> omega
      have e2 : ¬ (s0.val % 8 * 262144 + s1.val % 64 * 4096 + s2.val % 64 * 64 + s3.val % 64
          < 0x800) := by split_ifs at c <;> omega
      have e3 : ¬ (0x10FFFF < s0.val % 8 * 262144 + s1.val % 64 * 4096 + s2.val % 64 * 64
            + s3.val % 64
          ∨ (0xD800 ≤ s0.val % 8 * 262144 + s1.val % 64 * 4096 + s2.val % 64 * 64 + s3.val % 64
            ∧ s0.val % 8 * 262144 + s1.val % 64 * 4096 + s2.val % 64 * 64 + s3.val % 64
              ≤ 0xDFFF)) := by
        split_ifs at c d <;> omega
      have e4 : ¬ (s0.val % 8 * 262144 + s1.val % 64 * 4096 + s2.val % 64 * 64 + s3.val % 64
          < 0x10000) := by split_ifs at c <;> omega
      simp only [EncodeRune, e1, e2, e3, e4, if_true, if_false, List.take_succ_cons,
        List.take_zero]
      congr 1
      · apply Fin.ext; simp only [Fin.ofNat]; omega
      · congr 1
        · apply Fin.ext; simp only [Fin.ofNat]; omega
        · congr 1
          · apply Fin.ext; simp only [Fin.ofNat]; omega
          · congr 1; apply Fin.ext; simp only [Fin.ofNat]; omega
    · intro t4
      have e0 : ¬ s0.val < 0x80 := by omega
      have e2 : ¬ (0xC2 ≤ s0.val ∧ s0.val ≤ 0xDF) := by omega
      have e3 : ¬ (0xE0 ≤ s0.val ∧ s0.val ≤ 0xEF) := by omega
      simp only [DecodeRune, e0, e2, e3, a, b, c, d, e, f, g, k, if_true, if_false, and_self,
        List.take_succ_cons, List.take_zero, List.cons_append, List.nil_append]

/-- The function `prepend` on a successful result. -/
theorem prepend_some (pre out tail : GoString) :
    prepend pre (some (out, tail)) = some (pre ++ out, tail) := rfl

/-- Decoding undoes the escape of one ASCII byte outside `htmlSafeSet`. -/
theorem unquoteBody_escapeASCII (fuel : Nat) (b : Byte) (x : GoString) (h : b.val < 0x80)
    (hs : htmlSafe b = false) :
    unquoteBody (fuel + 1) (escapeASCII b ++ x) = prepend [b] (unquoteBody fuel x) := by
  have hb : b.val < 0x20 ∨ b.val = 0x22 ∨ b.val = 0x5C ∨ b.val = 0x3C ∨ b.val = 0x3E
      ∨ b.val = 0x26 := by
    simp only [htmlSafe, decide_eq_false_iff_not] at hs
    omega
  rcases b with ⟨n, hn⟩
  simp only at hb h
  rcases hb with hb | hb | hb | hb | hb | hb
  · interval_cases n <;>
      simp +decide [escapeASCII, lit, utf8, EncodeRune, hexDigit, unquoteBody, hex4,
        hexVal, simpleEscape, Fin.ofNat] <;> rfl
  all_goals
    subst hb
    simp +decide [escapeASCII, lit, utf8, EncodeRune, hexDigit, unquoteBody, hex4,
      hexVal, simpleEscape, Fin.ofNat] <;> rfl

/-- An escape is never empty. -/
theorem escapeASCII_length_pos (b : Byte) : 1 ≤ (escapeASCII b).length := by
  unfold escapeASCII
  split_ifs <;> simp [lit, utf8, EncodeRune]

/-- The closing quote ends the string. -/
theorem unquoteBody_close (f : Nat) (rest : GoString) :
    unquoteBody (f + 1) (0x22 :: rest) = some ([], rest) := by
  simp only [unquoteBody]
  rfl

/-- One step of `unquoteBody` at a raw byte that is not ASCII. -/
theorem unquoteBody_raw (f : Nat) (b : Byte) (y : GoString) (hb : ¬ b.val < 0x80) :
    unquoteBody (f + 1) (b :: y)
      = prepend (EncodeRune (DecodeRune (b :: y)).1)
          (unquoteBody f ((b :: y).drop (DecodeRune (b :: y)).2)) := by
  have e1 : ¬ b.val = 0x22 := by omega
  have e2 : ¬ b.val = 0x5C := by omega
  have e3 : ¬ b.val < 0x20 := by omega
  simp only [unquoteBody, e1, e2, e3, hb, if_false]

/-- Decoding the escaped bytes of a string, up to the closing quote, gives the
string coerced to valid UTF-8. -/
theorem unquoteBody_escapeString (fuel : Nat) :
    ∀ (s : GoString), s.length ≤ fuel → ∀ (fuel2 : Nat) (rest : GoString),
      (escapeString fuel s).length + 1 ≤ fuel2 →
      unquoteBody fuel2 (escapeString fuel s ++ 0x22 :: rest)
        = some (coerceUTF8 fuel s, rest) := by
  induction fuel with
  | zero =>
    intro s hs fuel2 rest hf
    obtain ⟨f, rfl⟩ : ∃ f, fuel2 = f + 1 := ⟨fuel2 - 1, by omega⟩
    simp only [escapeString, coerceUTF8, List.nil_append, unquoteBody_close]
  | succ fuel ih =>
    intro s hs fuel2 rest hf
    obtain ⟨f, rfl⟩ : ∃ f, fuel2 = f + 1 := ⟨fuel2 - 1, by omega⟩
    rcases s with _ | ⟨b, r⟩
    · simp only [escapeString, coerceUTF8, List.nil_append, unquoteBody_close]
    · have hr : r.length ≤ fuel := by simpa using hs
      by_cases hb : b.val < 0x80
      · simp only [escapeString, coerceUTF8, hb, if_true] at hf ⊢
        cases hsafe : htmlSafe b
        · simp only [hsafe, Bool.false_eq_true, if_false, List.append_assoc,
            List.length_append] at hf ⊢
          have hp := escapeASCII_length_pos b
          rw [unquoteBody_escapeASCII f b _ hb hsafe, ih r hr f rest (by omega), prepend_some]
          rfl
        · simp only [hsafe, if_true, List.length_append, List.length_singleton,
            List.singleton_append, List.cons_append, List.nil_append, List.length_cons] at hf ⊢
          have hs2 := hsafe
          simp only [htmlSafe, decide_eq_true_eq] at hs2
          have e1 : ¬ b.val = 0x22 := by omega
          have e2 : ¬ b.val = 0x5C := by omega
          have e3 : ¬ b.val < 0x20 := by omega
          simp only [unquoteBody, e1, e2, e3, hb, if_true, if_false]
          rw [ih r hr f rest (by omega), prepend_some]
          rfl
      · have hdec := DecodeRune_valid b r
        simp only [escapeString, coerceUTF8, hb, if_false] at hf ⊢
        by_cases hinv : (DecodeRune (b :: r)).1 = RuneError ∧ (DecodeRune (b :: r)).2 = 1
        · simp only [hinv, and_self, if_true, List.append_assoc, List.length_append] at hf ⊢
          have hl : (lit "\\ufffd").length = 6 := by decide
          have hstep : ∀ x, unquoteBody (f + 1) (lit "\\ufffd" ++ x)
              = prepend (EncodeRune RuneError) (unquoteBody f x) := by
            intro x
            show unquoteBody (f + 1) (0x5C :: 0x75 :: 0x66 :: 0x66 :: 0x66 :: 0x64 :: x) = _
            simp only [unquoteBody]
            rfl
          rw [hstep, List.drop_one, List.tail_cons, ih r hr f rest (by omega), prepend_some]
        · simp only [hinv, if_false] at hf ⊢
          obtain ⟨h1, h2, h3, h4⟩ := hdec hinv
          have hdrop : ((b :: r).drop (DecodeRune (b :: r)).2).length ≤ fuel := by
            simp only [List.length_drop, List.length_cons] at hs ⊢
            omega
          by_cases hls : (DecodeRune (b :: r)).1 = 0x2028 ∨ (DecodeRune (b :: r)).1 = 0x2029
          · simp only [hls, if_true, List.append_assoc, List.length_append] at hf ⊢
            have hstep : ∀ x, unquoteBody (f + 1)
                (lit "\\u202" ++ ([hexDigit ((DecodeRune (b :: r)).1 % 16)] ++ x))
                = prepend (EncodeRune (DecodeRune (b :: r)).1) (unquoteBody f x) := by
              intro x
              rcases hls with e | e
              · rw [e]
                show unquoteBody (f + 1) (0x5C :: 0x75 :: 0x32 :: 0x30 :: 0x32 :: 0x38 :: x) = _
                simp only [unquoteBody]
                rfl
              · rw [e]
                show unquoteBody (f + 1) (0x5C :: 0x75 :: 0x32 :: 0x30 :: 0x32 :: 0x39 :: x) = _
                simp only [unquoteBody]
                rfl
            have hl : (lit "\\u202").length = 5 := by decide
            rw [hstep, ih _ hdrop f rest (by omega), prepend_some]
          · simp only [hls, if_false, List.append_assoc, List.length_append] at hf ⊢
            have htl : ((b :: r).take (DecodeRune (b :: r)).2).length
                = (DecodeRune (b :: r)).2 := by
              simp only [List.length_take, List.length_cons] at h2 ⊢
              omega
            obtain ⟨n, hn⟩ : ∃ n, (DecodeRune (b :: r)).2 = n + 1 :=
              ⟨(DecodeRune (b :: r)).2 - 1, by omega⟩
            have hform : (b :: r).take (DecodeRune (b :: r)).2 = b :: r.take n := by
              rw [hn, List.take_succ_cons]
            have hstep : ∀ x, unquoteBody (f + 1) ((b :: r).take (DecodeRune (b :: r)).2 ++ x)
                = prepend (EncodeRune (DecodeRune (b :: r)).1) (unquoteBody f x) := by
              intro x
              have hd := h4 x
              rw [hform, List.cons_append] at hd
              rw [hform, List.cons_append, unquoteBody_raw f b _ hb, hd]
              congr 2
              rw [← List.cons_append, ← hform, List.drop_append_of_le_length (by omega),
                List.drop_of_length_le (by omega), List.nil_append]
            rw [hstep, ih _ hdrop f rest (by omega), prepend_some]

/-- Coercion leaves a valid string as it is. -/
theorem coerceUTF8_valid (fuel : Nat) :
    ∀ (s : GoString), validUTF8 fuel s = true → coerceUTF8 fuel s = s := by
  induction fuel with
  | zero =>
    intro s h
    simp only [validUTF8, decide_eq_true_eq] at h
    subst h; rfl
  | succ fuel ih =>
    intro s h
    rcases s with _ | ⟨b, r⟩
    · rfl
    · by_cases hb : b.val < 0x80
      · simp only [validUTF8, hb, if_true] at h
        simp only [coerceUTF8, hb, if_true, ih r h]
      · simp only [validUTF8, hb, if_false] at h
        by_cases hinv : (DecodeRune (b :: r)).1 = RuneError ∧ (DecodeRune (b :: r)).2 = 1
        · simp [hinv] at h
        · simp only [hinv, if_false] at h
          obtain ⟨_, _, h3, _⟩ := DecodeRune_valid b r hinv
          simp only [coerceUTF8, hb, if_false, ih _ h, h3, List.take_append_drop]

/-- Coercion leaves a valid string as it is (at the length of the string). -/
theorem coerce_valid (s : GoString) (h : ValidString s = true) : coerce s = s :=
  coerceUTF8_valid s.length s h

/-- An encoded string starts with a quote, then the escaped bytes and the
closing quote. -/
theorem quote_cons (s : GoString) (t : GoString) :
    quote s ++ t = 0x22 :: (escapeString s.length s ++ 0x22 :: t) := by
  have h : lit "\"" = [0x22] := by decide
  simp only [quote, h, List.singleton_append, List.cons_append, List.append_assoc,
    List.nil_append]

/-- Reading an encoded string gives the coerced string and leaves what follows.
-/
theorem parseString_quote (s t : GoString) :
    parseString (quote s ++ t) = some (coerce s, t) := by
  rw [quote_cons]
  simp only [parseString]
  rw [if_pos (by rfl)]
  exact unquoteBody_escapeString s.length s (le_refl _) _ t (by simp)

/-- An encoded string does not start with white space. -/
theorem skipSpace_quote (s t : GoString) : skipSpace (quote s ++ t) = quote s ++ t := by
  rw [quote_cons]; rfl

/-- The value reader on an encoded string. -/
theorem parseValue_quote (fuel : Nat) (s t : GoString) :
    parseValue (fuel + 1) (quote s ++ t) = some (.string (coerce s), t) := by
  have h := parseString_quote s t
  simp only [parseValue, skipSpace_quote]
  rw [quote_cons] at h ⊢
  simp only []
  rw [if_neg (by decide), if_neg (by decide), if_pos (by rfl), h]

/-- The constant `,`. -/
theorem lit_comma : lit "," = [0x2C] := by decide

/-- The constant `:`. -/
theorem lit_colon : lit ":" = [0x3A] := by decide

/-- The constant `[`. -/
theorem lit_lbracket : lit "[" = [0x5B] := by decide

/-- The constant `]`. -/
theorem lit_rbracket : lit "]" = [0x5D] := by decide

/-- The constant for the opening brace. -/
theorem lit_lbrace : lit "\x7b" = [0x7B] := by decide

/-- The constant for the closing brace. -/
theorem lit_rbrace : lit "\x7d" = [0x7D] := by decide

/-- The elements of an encoded string array, read back. -/
theorem parseElements_quotes (fuel : Nat) (xs : List GoString) :
    ∀ (x : GoString) (k : Nat) (t : GoString), xs.length + 1 ≤ k →
      parseElements (parseValue (fuel + 1)) k
          (quote x ++ (xs.flatMap (fun y => 0x2C :: quote y) ++ 0x5D :: t))
        = some ((x :: xs).map (fun s => JSON.string (coerce s)), t) := by
  induction xs with
  | nil =>
    intro x k t hk
    obtain ⟨k, rfl⟩ : ∃ j, k = j + 1 := ⟨k - 1, by simp at hk; omega⟩
    simp only [List.flatMap_nil, List.nil_append, parseElements, parseValue_quote]
    rfl
  | cons y ys ih =>
    intro x k t hk
    obtain ⟨k, rfl⟩ : ∃ j, k = j + 1 := ⟨k - 1, by simp at hk; omega⟩
    simp only [List.flatMap_cons, List.cons_append, List.append_assoc, parseElements,
      parseValue_quote]
    have hsk : ∀ u, skipSpace (0x2C :: u) = 0x2C :: u := fun _ => rfl
    rw [hsk]
    simp only []
    rw [if_pos (by rfl), ih y k t (by simp at hk ⊢; omega)]
    rfl

/-- The elements of an encoded array, written as the first one followed by
comma-led ones. -/
theorem intercalate_quotes (x : GoString) (xs : List GoString) :
    (lit ",").intercalate ((x :: xs).map quote)
      = quote x ++ xs.flatMap (fun y => 0x2C :: quote y) := by
  induction xs generalizing x with
  | nil => simp [List.intercalate]
  | cons y ys ih =>
    have h := ih y
    simp only [List.intercalate, List.map_cons, List.intersperse, List.flatten_cons,
      List.flatMap_cons, lit_comma, List.singleton_append, List.cons_append,
      List.nil_append] at h ⊢
    rw [h]

/-- One unfolding of `parseValue`. -/
theorem parseValue_succ (fuel : Nat) (s : GoString) :
    parseValue (fuel + 1) s
      = match skipSpace s with
        | [] => none
        | b :: rest =>
          if b.val = 0x7B then
            match skipSpace rest with
            | c :: rest1 =>
              if c.val = 0x7D then some (.object [], rest1)
              else
                match parseMembers (parseValue fuel) fuel rest with
                | none => none
                | some (ms, tail) => some (.object ms, tail)
            | [] => none
          else if b.val = 0x5B then
            match skipSpace rest with
            | c :: rest1 =>
              if c.val = 0x5D then some (.array [], rest1)
              else
                match parseElements (parseValue fuel) fuel rest with
                | none => none
                | some (vs, tail) => some (.array vs, tail)
            | [] => none
          else if b.val = 0x22 then
            match parseString (b :: rest) with
            | none => none
            | some (str, tail) => some (.string str, tail)
          else if (b :: rest).take 4 = lit "true" then some (.bool true, (b :: rest).drop 4)
          else if (b :: rest).take 5 = lit "false" then some (.bool false, (b :: rest).drop 5)
          else if (b :: rest).take 4 = lit "null" then some (.null, (b :: rest).drop 4)
          else
            match scanNumber (b :: rest) with
            | none => none
            | some (text, tail) => some (.number text, tail) := rfl

/-- The value reader on an encoded `[]string`. -/
theorem parseValue_encodeStrings (f : Nat) (ids : Option (List GoString)) (t : GoString)
    (h : (ids.getD []).length ≤ f + 1) :
    parseValue (f + 2) (encodeStrings ids ++ t) = some (stringsJSON ids, t) := by
  rcases ids with _ | xs
  · have hn : lit "null" = [0x6E, 0x75, 0x6C, 0x6C] := by decide
    simp only [encodeStrings, hn, List.cons_append, List.nil_append, stringsJSON]
    rw [parseValue_succ]
    have hsk : ∀ u, skipSpace (0x6E :: u) = 0x6E :: u := fun _ => rfl
    have e1 : ¬ (List.take 4 (0x6E :: 0x75 :: 0x6C :: 0x6C :: t) = lit "true") := by
      have hl : lit "true" = [0x74, 0x72, 0x75, 0x65] := by decide
      rw [hl]; intro hc; simp +decide at hc
    have e2 : ¬ (List.take 5 (0x6E :: 0x75 :: 0x6C :: 0x6C :: t) = lit "false") := by
      have hl : lit "false" = [0x66, 0x61, 0x6C, 0x73, 0x65] := by decide
      rw [hl]; intro hc; simp +decide at hc
    have e3 : List.take 4 (0x6E :: 0x75 :: 0x6C :: 0x6C :: t) = lit "null" := by
      rw [hn]; rfl
    rw [hsk]
    simp only []
    rw [if_neg (by decide), if_neg (by decide), if_neg (by decide), if_neg e1, if_neg e2,
      if_pos e3]
    rfl
  · rcases xs with _ | ⟨x, xs⟩
    · simp only [encodeStrings, lit_lbracket, lit_rbracket, List.intercalate, List.map_nil,
        List.intersperse, List.flatten_nil, List.append_nil, List.singleton_append,
        List.cons_append, List.nil_append, stringsJSON]
      rfl
    · simp only [encodeStrings, intercalate_quotes, lit_lbracket, lit_rbracket,
        List.singleton_append, List.cons_append, List.append_assoc, List.nil_append,
        stringsJSON]
      rw [parseValue_succ]
      have hsk : ∀ u, skipSpace (0x5B :: u) = 0x5B :: u := fun _ => rfl
      rw [hsk]
      simp only []
      rw [if_neg (by decide), if_pos (by rfl), skipSpace_quote]
      have hp := parseElements_quotes f xs x (f + 1) t (by simpa using h)
      rw [quote_cons] at hp ⊢
      simp only []
      rw [if_neg (by decide), hp]

/-- Reading one member that is followed by a comma and more members. -/
theorem parseMembers_more (value : GoString → Option (JSON × GoString)) (k : Nat)
    (key enc more : GoString) (v : JSON) (ms : List (GoString × JSON)) (tail : GoString)
    (hv : ReadsAs value enc v) (hm : parseMembers value k more = some (ms, tail)) :
    parseMembers value (k + 1) (quote key ++ 0x3A :: (enc ++ 0x2C :: more))
      = some ((coerce key, v) :: ms, tail) := by
  simp only [parseMembers, skipSpace_quote, parseString_quote, hv _]
  have h1 : ∀ u, skipSpace (0x3A :: u) = 0x3A :: u := fun _ => rfl
  have h2 : ∀ u, skipSpace (0x2C :: u) = 0x2C :: u := fun _ => rfl
  rw [h1]
  simp only []
  rw [if_pos (by rfl), hv _]
  simp only []
  rw [h2]
  simp only []
  rw [if_pos (by rfl), hm]

/-- Reading the last member of an object. -/
theorem parseMembers_last (value : GoString → Option (JSON × GoString)) (k : Nat)
    (key enc t : GoString) (v : JSON) (hv : ReadsAs value enc v) :
    parseMembers value (k + 1) (quote key ++ 0x3A :: (enc ++ 0x7D :: t))
      = some ([(coerce key, v)], t) := by
  simp only [parseMembers, skipSpace_quote, parseString_quote]
  have h1 : ∀ u, skipSpace (0x3A :: u) = 0x3A :: u := fun _ => rfl
  have h2 : ∀ u, skipSpace (0x7D :: u) = 0x7D :: u := fun _ => rfl
  rw [h1]
  simp only []
  rw [if_pos (by rfl), hv _]
  simp only []
  rw [h2]
  simp only []
  rw [if_neg (by decide), if_pos (by rfl)]

/-- The value reader at the opening brace of a non-empty object. -/
theorem parseValue_object (fuel : Nat) (key x : GoString) :
    parseValue (fuel + 1) (0x7B :: (quote key ++ x))
      = match parseMembers (parseValue fuel) fuel (quote key ++ x) with
        | none => none
        | some (ms, tail) => some (.object ms, tail) := by
  rw [parseValue_succ]
  have h1 : ∀ u, skipSpace (0x7B :: u) = 0x7B :: u := fun _ => rfl
  rw [h1]
  simp only []
  rw [if_pos (by rfl), skipSpace_quote]
  rw [quote_cons]
  simp only []
  rw [if_neg (by decide)]

/-- An encoded string is read as its coerced string. -/
theorem readsAs_quote (fuel : Nat) (s : GoString) :
    ReadsAs (parseValue (fuel + 1)) (quote s) (.string (coerce s)) :=
  fun t => parseValue_quote fuel s t

/-- An encoded `[]string` is read as `stringsJSON`. -/
theorem readsAs_strings (f : Nat) (ids : Option (List GoString))
    (h : (ids.getD []).length ≤ f + 1) :
    ReadsAs (parseValue (f + 2)) (encodeStrings ids) (stringsJSON ids) :=
  fun t => parseValue_encodeStrings f ids t h

/-- The encoding of a `Device`, byte by byte and piece by piece. -/
theorem encodeDevice_append (d : Device) (t : GoString) :
    encodeDevice d ++ t
      = 0x7B :: (quote (lit "identifiers") ++ 0x3A :: (encodeStrings d.Identifiers ++ 0x2C ::
          (quote (lit "name") ++ 0x3A :: (quote d.Name ++ 0x2C ::
          (quote (lit "model") ++ 0x3A :: (quote d.Model ++ 0x2C ::
          (quote (lit "manufacturer") ++ 0x3A :: (quote d.Manufacturer ++ 0x2C ::
          (quote (lit "sw_version") ++ 0x3A :: (quote d.SWVersion ++ 0x7D :: t)))))))))) := by
  simp only [encodeDevice, lit_lbrace, lit_rbrace, lit_colon, lit_comma, List.append_assoc,
    List.singleton_append, List.cons_append, List.nil_append]

/-- An encoded `Device` is read as `deviceJSON`, given enough fuel. -/
theorem readsAs_device (f : Nat) (d : Device) (h5 : 5 ≤ f)
    (hid : (d.Identifiers.getD []).length + 2 ≤ f) :
    ReadsAs (parseValue (f + 1)) (encodeDevice d) (deviceJSON d) := by
  intro t
  obtain ⟨g, rfl⟩ : ∃ g, f = g + 5 := ⟨f - 5, by omega⟩
  have m5 : parseMembers (parseValue (g + 5)) (g + 1)
      (quote (lit "sw_version") ++ 0x3A :: (quote d.SWVersion ++ 0x7D :: t)) = _ :=
    parseMembers_last _ g _ _ t _ (readsAs_quote (g + 4) _)
  have m4 : parseMembers (parseValue (g + 5)) (g + 2) _ = _ :=
    parseMembers_more _ (g + 1) (lit "manufacturer") (quote d.Manufacturer) _ _ _ _
      (readsAs_quote (g + 4) _) m5
  have m3 : parseMembers (parseValue (g + 5)) (g + 3) _ = _ :=
    parseMembers_more _ (g + 2) (lit "model") (quote d.Model) _ _ _ _
      (readsAs_quote (g + 4) _) m4
  have m2 : parseMembers (parseValue (g + 5)) (g + 4) _ = _ :=
    parseMembers_more _ (g + 3) (lit "name") (quote d.Name) _ _ _ _
      (readsAs_quote (g + 4) _) m3
  have m1 : parseMembers (parseValue (g + 5)) (g + 5) _ = _ :=
    parseMembers_more _ (g + 4) (lit "identifiers") (encodeStrings d.Identifiers) _ _ _ _
      (readsAs_strings (g + 3) _ (by omega)) m2
  rw [encodeDevice_append, parseValue_object, m1]
  rfl

/-- The encoding of a `HomeAssistantDiscovery`, piece by piece. -/
theorem encodeDiscovery_append (d : HomeAssistantDiscovery) (t : GoString) :
    encodeDiscovery d ++ t
      = 0x7B :: (quote (lit "name") ++ 0x3A :: (quote d.Name ++ 0x2C ::
          (quote (lit "state_topic") ++ 0x3A :: (quote d.StateTopic ++ 0x2C ::
          (quote (lit "unique_id") ++ 0x3A :: (quote d.UniqueID ++ 0x2C ::
          (quote (lit "device") ++ 0x3A :: (encodeDevice d.Device ++ 0x2C ::
          (quote (lit "availability_topic") ++ 0x3A :: (quote d.AvailabilityTopic ++ 0x2C ::
          (quote (lit "payload_available") ++ 0x3A :: (quote d.PayloadAvailable ++ 0x2C ::
          (quote (lit "payload_not_available") ++ 0x3A ::
            (quote d.PayloadNotAvailable ++ 0x7D :: t)))))))))))))) := by
  simp only [encodeDiscovery, lit_lbrace, lit_rbrace, lit_colon, lit_comma, List.append_assoc,
    List.singleton_append, List.cons_append, List.nil_append]

/-- An encoded `HomeAssistantDiscovery` is read as `discoveryJSON`, given enough
fuel. -/
theorem readsAs_discovery (f : Nat) (d : HomeAssistantDiscovery) (h7 : 7 ≤ f)
    (hid : (d.Device.Identifiers.getD []).length + 3 ≤ f) :
    ReadsAs (parseValue (f + 1)) (encodeDiscovery d) (discoveryJSON d) := by
  intro t
  obtain ⟨g, rfl⟩ : ∃ g, f = g + 7 := ⟨f - 7, by omega⟩
  have m7 : parseMembers (parseValue (g + 7)) (g + 1)
      (quote (lit "payload_not_available") ++ 0x3A ::
        (quote d.PayloadNotAvailable ++ 0x7D :: t)) = _ :=
    parseMembers_last _ g _ _ t _ (readsAs_quote (g + 6) _)
  have m6 : parseMembers (parseValue (g + 7)) (g + 2) _ = _ :=
    parseMembers_more _ (g + 1) (lit "payload_available") (quote d.PayloadAvailable) _ _ _ _
      (readsAs_quote (g + 6) _) m7
  have m5 : parseMembers (parseValue (g + 7)) (g + 3) _ = _ :=
    parseMembers_more _ (g + 2) (lit "availability_topic") (quote d.AvailabilityTopic) _ _ _ _
      (readsAs_quote (g + 6) _) m6
  have m4 : parseMembers (parseValue (g + 7)) (g + 4) _ = _ :=
    parseMembers_more _ (g + 3) (lit "device") (encodeDevice d.Device) _ _ _ _
      (readsAs_device (g + 6) _ (by omega) (by omega)) m5
  have m3 : parseMembers (parseValue (g + 7)) (g + 5) _ = _ :=
    parseMembers_more _ (g + 4) (lit "unique_id") (quote d.UniqueID) _ _ _ _
      (readsAs_quote (g + 6) _) m4
  have m2 : parseMembers (parseValue (g + 7)) (g + 6) _ = _ :=
    parseMembers_more _ (g + 5) (lit "state_topic") (quote d.StateTopic) _ _ _ _
      (readsAs_quote (g + 6) _) m3
  have m1 : parseMembers (parseValue (g + 7)) (g + 7) _ = _ :=
    parseMembers_more _ (g + 6) (lit "name") (quote d.Name) _ _ _ _
      (readsAs_quote (g + 6) _) m2
  rw [encodeDiscovery_append, parseValue_object, m1]
  rfl

/-- The length of an encoded string. -/
theorem quote_length (s : GoString) : (quote s).length = (escapeString s.length s).length + 2 := by
  have h := congrArg List.length (quote_cons s [])
  simp only [List.append_nil, List.length_cons, List.length_append, List.length_nil] at h
  omega

/-- Comma-led encoded strings are at least as many bytes as there are strings.
-/
theorem flatMap_quotes_length (xs : List GoString) :
    xs.length ≤ (xs.flatMap (fun y => 0x2C :: quote y)).length := by
  induction xs with
  | nil => simp
  | cons y ys ih =>
    simp only [List.flatMap_cons, List.length_append, List.length_cons]
    omega

/-- An encoded `[]string` is longer than the slice. -/
theorem encodeStrings_length (ids : Option (List GoString)) :
    (ids.getD []).length + 2 ≤ (encodeStrings ids).length := by
  rcases ids with _ | xs
  · have hn : lit "null" = [0x6E, 0x75, 0x6C, 0x6C] := by decide
    simp [encodeStrings, hn]
  · rcases xs with _ | ⟨x, xs⟩
    · simp [encodeStrings, lit_lbracket, lit_rbracket]
    · have h := flatMap_quotes_length xs
      simp only [encodeStrings, intercalate_quotes, lit_lbracket, lit_rbracket,
        List.length_append, List.length_singleton, List.length_cons, quote_length,
        Option.getD_some]
      omega

/-- The encoding of a record is long enough to serve as fuel for reading it. -/
theorem encodeDiscovery_length (d : HomeAssistantDiscovery) :
    7 ≤ (encodeDiscovery d).length
      ∧ (d.Device.Identifiers.getD []).length + 3 ≤ (encodeDiscovery d).length := by
  have h := congrArg List.length (encodeDiscovery_append d [])
  have h2 := congrArg List.length (encodeDevice_append d.Device [0x2C])
  have h3 := encodeStrings_length d.Device.Identifiers
  simp only [List.append_nil, List.length_cons, List.length_append, List.length_nil,
    quote_length, List.length_singleton] at h h2
  omega

/-- The syntax pass accepts what `Marshal` wrote and reads it as
`discoveryJSON`. -/
theorem parseJSON_encodeDiscovery (d : HomeAssistantDiscovery) :
    parseJSON (encodeDiscovery d) = some (discoveryJSON d) := by
  obtain ⟨h7, hid⟩ := encodeDiscovery_length d
  have h := readsAs_discovery (encodeDiscovery d).length d h7 hid []
  rw [List.append_nil] at h
  simp only [parseJSON, h]
  rfl

/-- Decoding the elements of a read-back string array. -/
theorem decodeElements_strings (xs : List GoString) (i : Nat) (old : List GoString) :
    decodeElements (xs.map (fun s => JSON.string (coerce s))) i old = .ok (xs.map coerce) := by
  induction xs generalizing i with
  | nil => rfl
  | cons x xs ih => simp only [List.map_cons, decodeElements, decodeString, ih]

/-- Decoding a read-back `[]string`. -/
theorem decodeStrings_stringsJSON (ids old : Option (List GoString)) :
    decodeStrings (stringsJSON ids) old = .ok (ids.map (fun xs => xs.map coerce)) := by
  rcases ids with _ | xs
  · rfl
  · simp only [stringsJSON, decodeStrings, decodeElements_strings, Option.map_some']

/-- The field names of `Device` are valid UTF-8. -/
theorem keys_device :
    coerce (lit "identifiers") = lit "identifiers" ∧ coerce (lit "name") = lit "name"
      ∧ coerce (lit "model") = lit "model" ∧ coerce (lit "manufacturer") = lit "manufacturer"
      ∧ coerce (lit "sw_version") = lit "sw_version" := by decide

/-- Decoding a read-back `Device` gives the coerced device, whatever the target
held. -/
theorem decodeDevice_deviceJSON (d old : Device) :
    decodeDevice (deviceJSON d) old = .ok (coerceDevice d) := by
  obtain ⟨k1, k2, k3, k4, k5⟩ := keys_device
  have e2 : keyMatches (lit "name") (lit "identifiers") = false := by decide
  have e3 : keyMatches (lit "model") (lit "identifiers") = false
      ∧ keyMatches (lit "model") (lit "name") = false := by decide
  have e4 : keyMatches (lit "manufacturer") (lit "identifiers") = false
      ∧ keyMatches (lit "manufacturer") (lit "name") = false
      ∧ keyMatches (lit "manufacturer") (lit "model") = false := by decide
  have e5 : keyMatches (lit "sw_version") (lit "identifiers") = false
      ∧ keyMatches (lit "sw_version") (lit "name") = false
      ∧ keyMatches (lit "sw_version") (lit "model") = false
      ∧ keyMatches (lit "sw_version") (lit "manufacturer") = false := by decide
  have t1 : keyMatches (lit "identifiers") (lit "identifiers") = true
      ∧ keyMatches (lit "name") (lit "name") = true
      ∧ keyMatches (lit "model") (lit "model") = true
      ∧ keyMatches (lit "manufacturer") (lit "manufacturer") = true
      ∧ keyMatches (lit "sw_version") (lit "sw_version") = true := by decide
  simp only [deviceJSON, decodeDevice, k1, k2, k3, k4, k5]
  rw [decodeDeviceMembers]
  simp only [t1, if_true, decodeStrings_stringsJSON]
  rw [decodeDeviceMembers]
  simp only [t1, e2, if_true, Bool.false_eq_true, if_false, decodeString]
  rw [decodeDeviceMembers]
  simp only [t1, e3, if_true, Bool.false_eq_true, if_false, decodeString]
  rw [decodeDeviceMembers]
  simp only [t1, e4, if_true, Bool.false_eq_true, if_false, decodeString]
  rw [decodeDeviceMembers]
  simp only [t1, e5, if_true, Bool.false_eq_true, if_false, decodeString]
  rfl

/-- The field names of `HomeAssistantDiscovery` are valid UTF-8. -/
theorem keys_discovery :
    coerce (lit "name") = lit "name" ∧ coerce (lit "state_topic") = lit "state_topic"
      ∧ coerce (lit "unique_id") = lit "unique_id" ∧ coerce (lit "device") = lit "device"
      ∧ coerce (lit "availability_topic") = lit "availability_topic"
      ∧ coerce (lit "payload_available") = lit "payload_available"
      ∧ coerce (lit "payload_not_available") = lit "payload_not_available" := by decide

/-- Decoding the read-back members gives the coerced record, whatever the target
held. -/
theorem decodeDiscoveryMembers_discoveryJSON (d old : HomeAssistantDiscovery) :
    decodeDiscoveryMembers
        [(lit "name", .string (coerce d.Name)),
         (lit "state_topic", .string (coerce d.StateTopic)),
         (lit "unique_id", .string (coerce d.UniqueID)),
         (lit "device", deviceJSON d.Device),
         (lit "availability_topic", .string (coerce d.AvailabilityTopic)),
         (lit "payload_available", .string (coerce d.PayloadAvailable)),
         (lit "payload_not_available", .string (coerce d.PayloadNotAvailable))] old
      = .ok (coerceDiscovery d) := by
  have t1 : keyMatches (lit "name") (lit "name") = true := by decide
  have t2 : keyMatches (lit "state_topic") (lit "name") = false
      ∧ keyMatches (lit "state_topic") (lit "state_topic") = true := by decide
  have t3 : keyMatches (lit "unique_id") (lit "name") = false
      ∧ keyMatches (lit "unique_id") (lit "state_topic") = false
      ∧ keyMatches (lit "unique_id") (lit "unique_id") = true := by decide
  have t4 : keyMatches (lit "device") (lit "name") = false
      ∧ keyMatches (lit "device") (lit "state_topic") = false
      ∧ keyMatches (lit "device") (lit "unique_id") = false
      ∧ keyMatches (lit "device") (lit "device") = true := by decide
  have t5 : keyMatches (lit "availability_topic") (lit "name") = false
      ∧ keyMatches (lit "availability_topic") (lit "state_topic") = false
      ∧ keyMatches (lit "availability_topic") (lit "unique_id") = false
      ∧ keyMatches (lit "availability_topic") (lit "device") = false
      ∧ keyMatches (lit "availability_topic") (lit "availability_topic") = true := by decide
  have t6 : keyMatches (lit "payload_available") (lit "name") = false
      ∧ keyMatches (lit "payload_available") (lit "state_topic") = false
      ∧ keyMatches (lit "payload_available") (lit "unique_id") = false
      ∧ keyMatches (lit "payload_available") (lit "device") = false
      ∧ keyMatches (lit "payload_available") (lit "availability_topic") = false
      ∧ keyMatches (lit "payload_available") (lit "payload_available") = true := by decide
  have t7 : keyMatches (lit "payload_not_available") (lit "name") = false
      ∧ keyMatches (lit "payload_not_available") (lit "state_topic") = false
      ∧ keyMatches (lit "payload_not_available") (lit "unique_id") = false
      ∧ keyMatches (lit "payload_not_available") (lit "device") = false
      ∧ keyMatches (lit "payload_not_available") (lit "availability_topic") = false
      ∧ keyMatches (lit "payload_not_available") (lit "payload_available") = false
      ∧ keyMatches (lit "payload_not_available") (lit "payload_not_available") = true := by
    decide
  rw [decodeDiscoveryMembers]
  simp only [t1, if_true, decodeString]
  rw [decodeDiscoveryMembers]
  simp only [t2, if_true, Bool.false_eq_true, if_false, decodeString]
  rw [decodeDiscoveryMembers]
  simp only [t3, if_true, Bool.false_eq_true, if_false, decodeString]
  rw [decodeDiscoveryMembers]
  simp only [t4, if_true, Bool.false_eq_true, if_false, decodeDevice_deviceJSON]
  rw [decodeDiscoveryMembers]
  simp only [t5, if_true, Bool.false_eq_true, if_false, decodeString]
  rw [decodeDiscoveryMembers]
  simp only [t6, if_true, Bool.false_eq_true, if_false, decodeString]
  rw [decodeDiscoveryMembers]
  simp only [t7, if_true, Bool.false_eq_true, if_false, decodeString]
  rfl

/-- What `Unmarshal` gives for the bytes `Marshal` wrote, for every record and
every target: the record with its strings coerced to valid UTF-8. -/
theorem Unmarshal_encodeDiscovery (d target : HomeAssistantDiscovery) :
    Unmarshal (encodeDiscovery d) target = .ok (coerceDiscovery d) := by
  obtain ⟨k1, k2, k3, k4, k5, k6, k7⟩ := keys_discovery
  simp only [Unmarshal, parseJSON_encodeDiscovery, discoveryJSON, k1, k2, k3, k4, k5, k6, k7]
  exact decodeDiscoveryMembers_discoveryJSON d target

/-- Coercion leaves a record of valid strings as it is. -/
theorem coerceDiscovery_valid (d : HomeAssistantDiscovery) (h : d.validUTF8 = true) :
    coerceDiscovery d = d := by
  simp only [HomeAssistantDiscovery.validUTF8, Bool.and_eq_true, List.all_eq_true] at h
  obtain ⟨⟨⟨⟨⟨⟨⟨⟨⟨⟨h1, h2⟩, h3⟩, h4⟩, h5⟩, h6⟩, h7⟩, h8⟩, h9⟩, h10⟩, h11⟩ := h
  have hids : d.Device.Identifiers.map (fun xs => xs.map coerce) = d.Device.Identifiers := by
    rcases hi : d.Device.Identifiers with _ | xs
    · rfl
    · rw [hi] at h4
      simp only [Option.getD_some] at h4
      simp only [Option.map_some', Option.some.injEq]
      conv_rhs => rw [← List.map_id xs]
      exact List.map_congr_left (fun x hx => coerce_valid x (h4 x hx))
  rcases d with ⟨n, st, u, ⟨ids, dn, dm, dma, dsw⟩, a, pa, pna⟩
  simp only at h1 h2 h3 h5 h6 h7 h8 h9 h10 h11 hids
  simp only [coerceDiscovery, coerceDevice, coerce_valid _ h1, coerce_valid _ h2,
    coerce_valid _ h3, coerce_valid _ h5, coerce_valid _ h6, coerce_valid _ h7,
    coerce_valid _ h8, coerce_valid _ h9, coerce_valid _ h10, coerce_valid _ h11, hids]

/-- C8 (amended). For every record whose strings, identifiers included, are
valid UTF-8, and every target, decoding the JSON encoding of the record gives a
record equal to the original in every field. -/
theorem roundTrip_valid (d target : HomeAssistantDiscovery) (h : d.validUTF8 = true) :
    roundTrip d target = .ok d := by
  simp only [roundTrip, Marshal, Unmarshal_encodeDiscovery, coerceDiscovery_valid d h]

/-- C8 (amended) at the record of `TestHomeAssistantDiscoveryJSON`, decoded into
the zero value. -/
theorem roundTrip_valid_witness :
    testDiscovery.validUTF8 = true ∧ roundTrip testDiscovery zeroDiscovery = .ok testDiscovery :=
  ⟨by rfl, roundTrip_valid testDiscovery zeroDiscovery (by rfl)⟩

set_option maxRecDepth 4000 in
/-- Coercion replaces the invalid name of `invalidNameDiscovery` by U+FFFD. -/
theorem coerceDiscovery_invalidName :
    coerceDiscovery invalidNameDiscovery
      = { invalidNameDiscovery with Name := [0xEF, 0xBF, 0xBD] } := by
  rfl

/-- C8 as stated fails: the record whose name is the single byte FF, which is
not valid UTF-8, comes back with the name U+FFFD (three bytes), not equal to the
original. -/
theorem roundTrip_invalid_name :
    roundTrip invalidNameDiscovery zeroDiscovery
        = .ok { invalidNameDiscovery with Name := [0xEF, 0xBF, 0xBD] }
      ∧ roundTrip invalidNameDiscovery zeroDiscovery ≠ .ok invalidNameDiscovery := by
  have h := coerceDiscovery_invalidName
  have e : roundTrip invalidNameDiscovery zeroDiscovery
      = .ok { invalidNameDiscovery with Name := [0xEF, 0xBF, 0xBD] } := by
    simp only [roundTrip, Marshal, Unmarshal_encodeDiscovery, h]
  refine ⟨e, ?_⟩
  rw [e]
  intro hc
  have hn := congrArg (fun r => match r with
    | Except.ok (x : HomeAssistantDiscovery) => x.Name
    | Except.error _ => []) hc
  revert hn
  decide

/-! ## C9 and C10: the watcher -/

/-- The invocations of two runs of actions, one after the other. -/
theorem invocations_append (a b : List Act) :
    invocations (a ++ b) = invocations a ++ invocations b := by
  simp only [invocations, List.filterMap_append]

/-- The registration loop of `Start` never invokes the callback. -/
theorem addFiles_invocations {ε : Type} (os : OS ε) (files : List GoString) (e : ε) :
    invocations (FileWatcher.addFiles os files e).1 = [] := by
  induction files generalizing e with
  | nil => rfl
  | cons file rest ih =>
    simp only [FileWatcher.addFiles, FileWatcher.createFile]
    cases (os.StatIsNotExist file e).1
    · simp only [Bool.false_eq_true, if_false]
      rcases os.WatcherAdd file (os.StatIsNotExist file e).2 with ⟨_ | err, e2⟩
      · simp only [invocations_append, ih]; rfl
      · simp only [invocations_append, ih]; rfl
    · simp only [if_true]
      rcases os.WriteFile file [] 0o644 (os.StatIsNotExist file e).2 with ⟨_ | err3, e3⟩
      · simp only []
        rcases os.WatcherAdd file e3 with ⟨_ | err, e2⟩
        · simp only [invocations_append, ih]; rfl
        · simp only [invocations_append, ih]; rfl
      · simp only []
        rcases os.WatcherAdd file e3 with ⟨_ | err, e2⟩
        · simp only [invocations_append, ih]; rfl
        · simp only [invocations_append, ih]; rfl

/-- The snapshot loop of `Start` invokes the callback for the successful reads,
in order. -/
theorem readInitial_invocations {ε : Type} (os : OS ε) (files : List GoString) (e : ε) :
    invocations (FileWatcher.readInitial os files e).1
        = (readEach os files e).1.filterMap callAfterRead
      ∧ (FileWatcher.readInitial os files e).2 = (readEach os files e).2 := by
  induction files generalizing e with
  | nil => exact ⟨rfl, rfl⟩
  | cons file rest ih =>
    rcases h : os.ReadFile file e with ⟨err | content, e1⟩
    · simp only [FileWatcher.readInitial, FileWatcher.readFile, readEach, h,
        List.filterMap_cons, callAfterRead]
      exact ih e1
    · simp only [FileWatcher.readInitial, FileWatcher.readFile, readEach, h,
        List.filterMap_cons, callAfterRead, invocations, Act.call]
      exact ⟨congrArg _ (ih e1).1, (ih e1).2⟩

/-- The function `readEach` reads every path once, in order. -/
theorem readEach_paths {ε : Type} (os : OS ε) (files : List GoString) (e : ε) :
    (readEach os files e).1.map Prod.fst = files := by
  induction files generalizing e with
  | nil => rfl
  | cons file rest ih => simp only [readEach, List.map_cons, ih]

/-- C9. For every path list and every behaviour of the operating system (so
whatever creating and registering the paths did), `Start` returns no error and
its callback invocations are exactly, in the order of the path list, one per
path whose read succeeds, with the base name of the path and the content as read
(not trimmed); a path whose read fails gets none. The reads are those of the
paths, one each and in order, made after the registration loop. -/
theorem Start_initial_snapshot {ε : Type} (os : OS ε) (fw : FileWatcher) (e : ε) :
    (FileWatcher.Start os fw e).1 = none
      ∧ invocations (FileWatcher.Start os fw e).2.1
          = (readEach os fw.files (FileWatcher.addFiles os fw.files e).2).1.filterMap
              callAfterRead
      ∧ (readEach os fw.files (FileWatcher.addFiles os fw.files e).2).1.map Prod.fst
          = fw.files := by
  refine ⟨rfl, ?_, readEach_paths _ _ _⟩
  simp only [FileWatcher.Start, invocations, List.filterMap_append]
  have h1 := addFiles_invocations os fw.files e
  have h2 := (readInitial_invocations os fw.files (FileWatcher.addFiles os fw.files e).2).1
  simp only [invocations] at h1 h2
  rw [h1, h2, List.nil_append]

/-- C10. For every sequence of receives of the watch loop, its callback
invocations are exactly, in order, the base name and the content read for each
delivered notification that is a create or a write and whose read succeeds; a
notification of another kind, a failed read or a watcher error causes no
invocation and does not keep later notifications from being processed. -/
theorem watch_invocations {ε : Type} (os : OS ε) (recvs : List Recv) (e : ε) :
    invocations (FileWatcher.watch os recvs e).1
      = (readEach os ((delivered recvs).filterMap createOrWritePath) e).1.filterMap
          callAfterRead := by
  induction recvs generalizing e with
  | nil => rfl
  | cons r rest ih =>
    cases r with
    | eventsClosed => rfl
    | errorsClosed => rfl
    | error err =>
      simp only [FileWatcher.watch, delivered, List.filterMap_cons, createOrWritePath,
        invocations, Act.call]
      exact ih e
    | event ev =>
      cases hk : (ev.Has Write || ev.Has Create)
      · simp only [FileWatcher.watch, delivered, List.filterMap_cons, createOrWritePath, hk,
          Bool.false_eq_true, if_false]
        exact ih e
      · rcases h : os.ReadFile ev.Name e with ⟨err | content, e1⟩
        · simp only [FileWatcher.watch, delivered, List.filterMap_cons, createOrWritePath, hk,
            FileWatcher.readFile, if_true, readEach, h, callAfterRead, invocations, Act.call]
          exact ih e1
        · simp only [FileWatcher.watch, delivered, List.filterMap_cons, createOrWritePath, hk,
            FileWatcher.readFile, if_true, readEach, h, callAfterRead, invocations, Act.call]
          exact congrArg _ (ih e1)

/-! ## C11: the two goroutines of the watcher -/

/-- The part of a timeline on one goroutine, after one more moment. -/
theorem onGoroutine_snoc (g : Goroutine) (t : List Moment) (m : Moment) :
    onGoroutine g (t ++ [m]) = onGoroutine g t ++ (if m.goroutine = g then [m] else []) := by
  by_cases h : m.goroutine = g <;> simp [onGoroutine, List.filter_append, h]

/-- A step of the goroutine of `Start` keeps each goroutine between its own
invocations or inside exactly one. -/
theorem stepStart_serial {ε : Type} (os : OS ε) (s : Running ε)
    (h1 : (onGoroutine .start s.timeline).foldl scanMoment (some false) = some s.startIn)
    (h2 : (onGoroutine .watch s.timeline).foldl scanMoment (some false) = some s.watchIn) :
    (onGoroutine .start (s.stepStart os).timeline).foldl scanMoment (some false)
        = some (s.stepStart os).startIn
      ∧ (onGoroutine .watch (s.stepStart os).timeline).foldl scanMoment (some false)
        = some (s.stepStart os).watchIn := by
  unfold Running.stepStart
  cases hin : s.startIn
  · rw [hin] at h1
    rcases hf : s.files with _ | ⟨file, rest⟩
    · simp only [Bool.false_eq_true, if_false, hin]
      exact ⟨h1, h2⟩
    · rcases hr : FileWatcher.readFile os file s.env with ⟨err | content, e1⟩
      · simp only [Bool.false_eq_true, if_false, hin, hr]
        exact ⟨h1, h2⟩
      · simp only [Bool.false_eq_true, if_false, hr, onGoroutine_snoc, Moment.goroutine,
          if_true, List.foldl_append, h1, List.foldl_cons, List.foldl_nil, scanMoment,
          reduceCtorEq, List.append_nil, h2, and_self]
  · rw [hin] at h1
    simp only [if_true, onGoroutine_snoc, Moment.goroutine,
          List.foldl_append, h1, List.foldl_cons, List.foldl_nil, scanMoment,
          reduceCtorEq, List.append_nil, h2, and_self, if_false]

/-- A step of the goroutine of `watch` keeps each goroutine between its own
invocations or inside exactly one. -/
theorem stepWatch_serial {ε : Type} (os : OS ε) (s : Running ε)
    (h1 : (onGoroutine .start s.timeline).foldl scanMoment (some false) = some s.startIn)
    (h2 : (onGoroutine .watch s.timeline).foldl scanMoment (some false) = some s.watchIn) :
    (onGoroutine .start (s.stepWatch os).timeline).foldl scanMoment (some false)
        = some (s.stepWatch os).startIn
      ∧ (onGoroutine .watch (s.stepWatch os).timeline).foldl scanMoment (some false)
        = some (s.stepWatch os).watchIn := by
  unfold Running.stepWatch
  cases hin : s.watchIn
  · rw [hin] at h2
    rcases hf : s.recvs with _ | ⟨r, rest⟩
    · simp only [Bool.false_eq_true, if_false, hin]
      exact ⟨h1, h2⟩
    · cases r with
      | eventsClosed =>
        simp only [Bool.false_eq_true, if_false, hin]
        exact ⟨h1, h2⟩
      | errorsClosed =>
        simp only [Bool.false_eq_true, if_false, hin]
        exact ⟨h1, h2⟩
      | error err =>
        simp only [Bool.false_eq_true, if_false, hin]
        exact ⟨h1, h2⟩
      | event ev =>
        cases hk : (ev.Has Write || ev.Has Create)
        · simp only [Bool.false_eq_true, if_false, hin, hk]
          exact ⟨h1, h2⟩
        · rcases hr : FileWatcher.readFile os ev.Name s.env with ⟨err | content, e1⟩
          · simp only [Bool.false_eq_true, if_false, if_true, hin, hr, hk]
            exact ⟨h1, h2⟩
          · simp only [Bool.false_eq_true, if_false, if_true, hr, hk, onGoroutine_snoc,
              Moment.goroutine, List.foldl_append, h1, List.foldl_cons, List.foldl_nil,
              scanMoment, reduceCtorEq, List.append_nil, h2, and_self]
  · rw [hin] at h2
    simp only [if_true, onGoroutine_snoc, Moment.goroutine,
          List.foldl_append, h1, List.foldl_cons, List.foldl_nil, scanMoment,
          reduceCtorEq, List.append_nil, h2, and_self, if_false]

/-- Every run keeps each goroutine between its own invocations or inside
exactly one. -/
theorem run_serial {ε : Type} (os : OS ε) (schedule : List Goroutine) (s : Running ε)
    (h1 : (onGoroutine .start s.timeline).foldl scanMoment (some false) = some s.startIn)
    (h2 : (onGoroutine .watch s.timeline).foldl scanMoment (some false) = some s.watchIn) :
    (onGoroutine .start (Running.run os schedule s).timeline).foldl scanMoment (some false)
        = some (Running.run os schedule s).startIn
      ∧ (onGoroutine .watch (Running.run os schedule s).timeline).foldl scanMoment (some false)
        = some (Running.run os schedule s).watchIn := by
  induction schedule generalizing s with
  | nil => exact ⟨h1, h2⟩
  | cons g rest ih =>
    cases g with
    | start =>
      exact ih (s.stepStart os) (stepStart_serial os s h1 h2).1 (stepStart_serial os s h1 h2).2
    | watch =>
      exact ih (s.stepWatch os) (stepWatch_serial os s h1 h2).1 (stepWatch_serial os s h1 h2).2

/-- A run under two schedules, one after the other. -/
theorem run_append {ε : Type} (os : OS ε) (a b : List Goroutine) (s : Running ε) :
    Running.run os (a ++ b) s = Running.run os b (Running.run os a s) := by
  induction a generalizing s with
  | nil => rfl
  | cons g rest ih => exact ih (s.step os g)

/-- After its snapshot loop the goroutine of `Start` makes no further step. -/
theorem stepStart_idle {ε : Type} (os : OS ε) (s : Running ε)
    (hin : s.startIn = false) (hf : s.files = []) : s.stepStart os = s := by
  simp only [Running.stepStart, hin, hf, Bool.false_eq_true, if_false]

/-- The goroutine of `Start` running alone: after enough steps it has made the
invocations of `FileWatcher.readInitial`, one after the other, and has left the
environment as that loop does. -/
theorem run_start_alone {ε : Type} (os : OS ε) (n : Nat) (s : Running ε)
    (hin : s.startIn = false) (hn : 2 * s.files.length ≤ n) :
    Running.run os (List.replicate n .start) s
      = { s with
          env := (FileWatcher.readInitial os s.files s.env).2
          files := []
          timeline := s.timeline
            ++ callMoments .start (invocations (FileWatcher.readInitial os s.files s.env).1) } := by
  rcases s with ⟨env, files, startIn, recvs, watchIn, timeline, log⟩
  simp only at hin hn
  subst hin
  induction files generalizing env timeline n with
  | nil =>
    simp only [FileWatcher.readInitial, invocations, List.filterMap_nil, callMoments,
      List.append_nil]
    clear hn
    induction n with
    | zero => rfl
    | succ k ih =>
      simp only [List.replicate_succ, Running.run, Running.step]
      rw [stepStart_idle os _ rfl rfl]
      exact ih
  | cons file rest ih =>
    simp only [List.length_cons] at hn
    obtain ⟨m, rfl⟩ : ∃ m, n = m + 2 := ⟨n - 2, by omega⟩
    rcases hr : FileWatcher.readFile os file env with ⟨err | content, e1⟩
    · simp only [List.replicate_succ, Running.run, Running.step, Running.stepStart,
        Bool.false_eq_true, if_false, hr, FileWatcher.readInitial]
      have h := ih (m + 1) e1 timeline (by omega)
      simp only [List.replicate_succ, Running.run, Running.step] at h
      exact h
    · simp only [List.replicate_succ, Running.run, Running.step, Running.stepStart,
        Bool.false_eq_true, if_false, if_true, hr, FileWatcher.readInitial]
      rw [ih m e1 _ (by omega)]
      simp only [invocations, List.filterMap_cons, Act.call, callMoments, List.append_assoc,
        List.cons_append, List.nil_append]

/-- After its last receive the goroutine of `watch` makes no further step. -/
theorem stepWatch_idle {ε : Type} (os : OS ε) (s : Running ε)
    (hin : s.watchIn = false) (hr : s.recvs = []) : s.stepWatch os = s := by
  simp only [Running.stepWatch, hin, hr, Bool.false_eq_true, if_false]

/-- The goroutine of `watch` running alone from its last receive on. -/
theorem run_watch_idle {ε : Type} (os : OS ε) (n : Nat) (s : Running ε)
    (hin : s.watchIn = false) (hr : s.recvs = []) :
    Running.run os (List.replicate n .watch) s = s := by
  induction n with
  | zero => rfl
  | succ k ih =>
    simp only [List.replicate_succ, Running.run, Running.step]
    rw [stepWatch_idle os s hin hr]
    exact ih

/-- A run of one goroutine alone, one step on. -/
theorem run_replicate_succ {ε : Type} (os : OS ε) (n : Nat) (g : Goroutine) (s : Running ε) :
    Running.run os (List.replicate (n + 1) g) s
      = Running.run os (List.replicate n g) (s.step os g) := rfl

/-- The goroutine of `watch` running alone: after enough steps it has made the
invocations of `FileWatcher.watch`, one after the other, has logged its lines
and has left the environment as that loop does. -/
theorem run_watch_alone {ε : Type} (os : OS ε) (n : Nat) (s : Running ε)
    (hin : s.watchIn = false) (hn : 2 * s.recvs.length ≤ n) :
    Running.run os (List.replicate n .watch) s
      = { s with
          env := (FileWatcher.watch os s.recvs s.env).2
          recvs := []
          timeline := s.timeline
            ++ callMoments .watch (invocations (FileWatcher.watch os s.recvs s.env).1)
          log := s.log ++ (FileWatcher.watch os s.recvs s.env).1.filterMap Act.line } := by
  rcases s with ⟨env, files, startIn, recvs, watchIn, timeline, log⟩
  simp only at hin hn
  subst hin
  induction recvs generalizing env timeline log n with
  | nil =>
    simp only [FileWatcher.watch, invocations, List.filterMap_nil, callMoments,
      List.append_nil]
    exact run_watch_idle os n _ rfl rfl
  | cons r rest ih =>
    simp only [List.length_cons] at hn
    obtain ⟨m, rfl⟩ : ∃ m, n = m + 2 := ⟨n - 2, by omega⟩
    rw [run_replicate_succ]
    cases r with
    | eventsClosed =>
      conv => lhs; arg 3; simp only [Running.step, Running.stepWatch, Bool.false_eq_true, if_false]
      rw [run_watch_idle os (m + 1) _ rfl rfl]
      simp only [FileWatcher.watch, invocations, List.filterMap_nil, callMoments,
        List.append_nil]
    | errorsClosed =>
      conv => lhs; arg 3; simp only [Running.step, Running.stepWatch, Bool.false_eq_true, if_false]
      rw [run_watch_idle os (m + 1) _ rfl rfl]
      simp only [FileWatcher.watch, invocations, List.filterMap_nil, callMoments,
        List.append_nil]
    | error err =>
      conv => lhs; arg 3; simp only [Running.step, Running.stepWatch, Bool.false_eq_true, if_false]
      rw [ih (m + 1) _ _ _ (by omega)]
      simp only [FileWatcher.watch, invocations, List.filterMap_cons, Act.call, Act.line,
        List.append_assoc, List.cons_append, List.nil_append]
    | event ev =>
      cases hk : (ev.Has Write || ev.Has Create)
      · conv =>
          lhs; arg 3
          simp only [Running.step, Running.stepWatch, Bool.false_eq_true, if_false, hk]
        rw [ih (m + 1) _ _ _ (by omega)]
        simp only [FileWatcher.watch, hk, Bool.false_eq_true, if_false]
      · rcases hr : FileWatcher.readFile os ev.Name env with ⟨err | content, e1⟩
        · conv =>
            lhs; arg 3
            simp only [Running.step, Running.stepWatch, Bool.false_eq_true, if_false, if_true,
              hk, hr]
          rw [ih (m + 1) _ _ _ (by omega)]
          simp only [FileWatcher.watch, hk, hr, if_true, invocations, List.filterMap_cons,
            Act.call, Act.line, List.append_assoc, List.cons_append, List.nil_append]
        · conv =>
            lhs; arg 3
            simp only [Running.step, Running.stepWatch, Bool.false_eq_true, if_false, if_true,
              hk, hr]
          rw [run_replicate_succ]
          conv => lhs; arg 3; simp only [Running.step, Running.stepWatch, if_true]
          rw [ih m _ _ _ (by omega)]
          simp only [FileWatcher.watch, hk, hr, if_true, invocations, List.filterMap_cons,
            Act.call, Act.line, callMoments, List.append_assoc, List.cons_append,
            List.nil_append]

/-- The moments of `callMoments` are on its goroutine. -/
theorem callMoments_all (g : Goroutine) (calls : List (GoString × GoString)) :
    (callMoments g calls).all (fun m => m.goroutine = g) = true := by
  induction calls with
  | nil => rfl
  | cons c rest ih =>
    rcases c with ⟨filename, content⟩
    simpa [callMoments, Moment.goroutine] using ih

/-- No two invocations of `callMoments` overlap, and the last has returned. -/
theorem callMoments_scan (g : Goroutine) (calls : List (GoString × GoString)) :
    (callMoments g calls).foldl scanMoment (some false) = some false := by
  induction calls with
  | nil => rfl
  | cons c rest ih =>
    rcases c with ⟨filename, content⟩
    simp only [callMoments, List.foldl_cons, scanMoment, ih]

/-- The invocations of `callMoments` are the given ones, in order. -/
theorem callMoments_calls (g : Goroutine) (calls : List (GoString × GoString)) :
    (callMoments g calls).filterMap Moment.call = calls := by
  induction calls with
  | nil => rfl
  | cons c rest ih =>
    rcases c with ⟨filename, content⟩
    simp only [callMoments, List.filterMap_cons, Moment.call, ih]

/-- A step of the goroutine of `watch` adds moments of that goroutine only, no
invocation overlapping another, and leaves the goroutine of `Start` as it is. -/
theorem stepWatch_timeline {ε : Type} (os : OS ε) (s : Running ε) :
    ∃ T, (s.stepWatch os).timeline = s.timeline ++ T
      ∧ T.all (fun m => m.goroutine = .watch) = true
      ∧ T.foldl scanMoment (some s.watchIn) = some (s.stepWatch os).watchIn
      ∧ (s.stepWatch os).startIn = s.startIn
      ∧ (s.stepWatch os).files = s.files := by
  unfold Running.stepWatch
  cases hin : s.watchIn
  · rcases hf : s.recvs with _ | ⟨r, rest⟩
    · exact ⟨[], by simp [hin]⟩
    · cases r with
      | eventsClosed => exact ⟨[], by simp [hin]⟩
      | errorsClosed => exact ⟨[], by simp [hin]⟩
      | error err => exact ⟨[], by simp [hin]⟩
      | event ev =>
        cases hk : (ev.Has Write || ev.Has Create)
        · refine ⟨[], ?_⟩
          simp only [Bool.false_eq_true, if_false, hk, hin, List.append_nil, List.all_nil,
            List.foldl_nil, and_self]
        · rcases hr : FileWatcher.readFile os ev.Name s.env with ⟨err | content, e1⟩
          · refine ⟨[], ?_⟩
            simp only [Bool.false_eq_true, if_false, if_true, hk, hr, hin, List.append_nil,
              List.all_nil, List.foldl_nil, and_self]
          · refine ⟨[.enter .watch (Base ev.Name) content], ?_⟩
            simp only [Bool.false_eq_true, if_false, if_true, hk, hr, List.all_cons,
              List.all_nil, Moment.goroutine, decide_True, Bool.and_self, List.foldl_cons,
              List.foldl_nil, scanMoment, and_self]
  · exact ⟨[.leave .watch], by simp [Moment.goroutine, scanMoment]⟩

/-- Once the snapshot loop of `Start` has ended, a run adds moments of the
goroutine of `watch` only, no invocation overlapping another. -/
theorem run_after_snapshot {ε : Type} (os : OS ε) (schedule : List Goroutine) (s : Running ε)
    (hin : s.startIn = false) (hf : s.files = []) :
    ∃ T, (Running.run os schedule s).timeline = s.timeline ++ T
      ∧ T.all (fun m => m.goroutine = .watch) = true
      ∧ T.foldl scanMoment (some s.watchIn) = some (Running.run os schedule s).watchIn := by
  induction schedule generalizing s with
  | nil => exact ⟨[], (List.append_nil _).symm, rfl, rfl⟩
  | cons g rest ih =>
    cases g with
    | start =>
      simp only [Running.run, Running.step]
      rw [stepStart_idle os s hin hf]
      exact ih s hin hf
    | watch =>
      simp only [Running.run, Running.step]
      obtain ⟨T1, h1, h2, h3, h4, h5⟩ := stepWatch_timeline os s
      obtain ⟨T2, k1, k2, k3⟩ := ih (s.stepWatch os) (h4.trans hin) (h5.trans hf)
      refine ⟨T1 ++ T2, ?_, ?_, ?_⟩
      · rw [k1, h1, List.append_assoc]
      · rw [List.all_append, h2, k2]; rfl
      · rw [List.foldl_append, h3, k3]

/-- Moments of the goroutine of `Start` followed by moments of the goroutine of
`watch` are in the order `snapshotFirst` asks for. -/
theorem snapshotFirst_append (A T : List Moment)
    (hA : A.all (fun m => m.goroutine = .start) = true)
    (hT : T.all (fun m => m.goroutine = .watch) = true) :
    snapshotFirst (A ++ T) = true := by
  unfold snapshotFirst
  induction A with
  | nil =>
    cases T with
    | nil => rfl
    | cons m rest =>
      simp only [List.all_cons, Bool.and_eq_true, decide_eq_true_eq] at hT
      have hm : decide (m.goroutine = Goroutine.start) = false := by
        rw [hT.1]; rfl
      simp only [List.nil_append, List.dropWhile_cons, hm, Bool.false_eq_true, if_false]
      simpa using hT
  | cons a rest ih =>
    simp only [List.all_cons, Bool.and_eq_true, decide_eq_true_eq] at hA
    simp only [List.cons_append, List.dropWhile_cons, hA.1, decide_True, if_true]
    exact ih (by simpa using hA.2)

/-- Run alone from the launch, the goroutine of `Start` makes the invocations of
`FileWatcher.Start`, one after the other. -/
theorem launch_start_alone {ε : Type} (os : OS ε) (fw : FileWatcher) (recvs : List Recv) (e : ε)
    (n : Nat) (hn : 2 * fw.files.length ≤ n) :
    (Running.run os (List.replicate n .start) (FileWatcher.launch os fw recvs e)).timeline
      = callMoments .start (invocations (FileWatcher.Start os fw e).2.1) := by
  rw [run_start_alone os n _ rfl hn]
  simp only [FileWatcher.launch, FileWatcher.Start, List.nil_append, invocations_append,
    addFiles_invocations]

/-- Run alone from the launch, the goroutine of `watch` makes the invocations of
`FileWatcher.watch`, one after the other. -/
theorem launch_watch_alone {ε : Type} (os : OS ε) (fw : FileWatcher) (recvs : List Recv) (e : ε)
    (n : Nat) (hn : 2 * recvs.length ≤ n) :
    (Running.run os (List.replicate n .watch) (FileWatcher.launch os fw recvs e)).timeline
      = callMoments .watch
          (invocations (FileWatcher.watch os recvs (FileWatcher.addFiles os fw.files e).2).1) := by
  rw [run_watch_alone os n _ rfl hn]
  simp only [FileWatcher.launch, List.nil_append]

/-- C11, as amended. `Start` launches the watch loop with `go fw.watch()` before
its snapshot loop, and nothing in `watcher.go` orders the two goroutines. For
every watcher, every behaviour of the operating system, every sequence of
receives and every schedule of the two goroutines, the invocations of the
callback made by one goroutine never overlap each other. And in every run in
which the goroutine of `Start` has ended its snapshot loop before the watch
goroutine takes its first step, no two invocations overlap at all and every
initial-snapshot invocation comes before every notification-triggered one. -/
theorem onChange_serial_on_each_goroutine {ε : Type} (os : OS ε) (fw : FileWatcher)
    (recvs : List Recv) (e : ε) :
    (∀ (schedule : List Goroutine) (g : Goroutine),
        noOverlap (onGoroutine g
          (Running.run os schedule (FileWatcher.launch os fw recvs e)).timeline) = true)
      ∧ (∀ (n : Nat) (schedule : List Goroutine), 2 * fw.files.length ≤ n →
          noOverlap (Running.run os (List.replicate n .start ++ schedule)
              (FileWatcher.launch os fw recvs e)).timeline = true
            ∧ snapshotFirst (Running.run os (List.replicate n .start ++ schedule)
              (FileWatcher.launch os fw recvs e)).timeline = true) := by
  constructor
  · intro schedule g
    have h := run_serial os schedule (FileWatcher.launch os fw recvs e) rfl rfl
    cases g with
    | start => simp only [noOverlap, h.1, Option.isSome_some]
    | watch => simp only [noOverlap, h.2, Option.isSome_some]
  · intro n schedule hn
    rw [run_append, run_start_alone os n _ rfl hn]
    obtain ⟨T, h1, h2, h3⟩ := run_after_snapshot os schedule
      { FileWatcher.launch os fw recvs e with
        env := (FileWatcher.readInitial os (FileWatcher.launch os fw recvs e).files
          (FileWatcher.launch os fw recvs e).env).2
        files := []
        timeline := (FileWatcher.launch os fw recvs e).timeline
          ++ callMoments .start (invocations (FileWatcher.readInitial os
              (FileWatcher.launch os fw recvs e).files
              (FileWatcher.launch os fw recvs e).env).1) } rfl rfl
    rw [h1]
    constructor
    · simp only [noOverlap, List.foldl_append, FileWatcher.launch, List.foldl_nil,
        callMoments_scan]
      simp only [FileWatcher.launch] at h3
      rw [h3]; rfl
    · simp only [FileWatcher.launch, List.nil_append]
      exact snapshotFirst_append _ _ (callMoments_all _ _) h2

/-- C11, an instance of the second part: the three status files, one write
notification, the snapshot loop run to its end (six steps) before the watch
goroutine handles the notification. -/
theorem onChange_serial_on_each_goroutine_witness :
    2 * statusWatcher.files.length ≤ 6
      ∧ noOverlap (Running.run quietOS (List.replicate 6 .start ++ [.watch, .watch])
          (FileWatcher.launch quietOS statusWatcher [coreNameWritten] ())).timeline = true
      ∧ snapshotFirst (Running.run quietOS (List.replicate 6 .start ++ [.watch, .watch])
          (FileWatcher.launch quietOS statusWatcher [coreNameWritten] ())).timeline = true :=
  ⟨by decide,
    (onChange_serial_on_each_goroutine quietOS statusWatcher [coreNameWritten] ()).2 6
      [.watch, .watch] (by decide)⟩

/-- C11 fails as stated. The watcher is the one `NewFileWatcher` returns, the
three status files are readable and one write notification for `CORENAME`
arrives. When `Start` has entered the callback for `CORENAME` and the watch
goroutine then handles the notification, the second invocation begins before
the first has returned. When the watch goroutine handles the notification before
`Start` reads its first file, the notification-triggered invocation comes
before the initial-snapshot invocation. -/
theorem onChange_overlap_counterexample :
    (NewFileWatcher quietOS ()).1 = .ok statusWatcher
      ∧ (Running.run quietOS [.start, .watch]
          (FileWatcher.launch quietOS statusWatcher [coreNameWritten] ())).timeline
        = [.enter .start (lit "CORENAME") (lit "MiSTer\n"),
           .enter .watch (lit "CORENAME") (lit "MiSTer\n")]
      ∧ noOverlap (Running.run quietOS [.start, .watch]
          (FileWatcher.launch quietOS statusWatcher [coreNameWritten] ())).timeline = false
      ∧ (Running.run quietOS [.watch, .watch, .start, .start]
          (FileWatcher.launch quietOS statusWatcher [coreNameWritten] ())).timeline
        = [.enter .watch (lit "CORENAME") (lit "MiSTer\n"), .leave .watch,
           .enter .start (lit "CORENAME") (lit "MiSTer\n"), .leave .start]
      ∧ snapshotFirst (Running.run quietOS [.watch, .watch, .start, .start]
          (FileWatcher.launch quietOS statusWatcher [coreNameWritten] ())).timeline = false :=
  ⟨rfl, by decide, by decide, by decide, by decide⟩

end MisterMqtt
